import Mathlib

/-!
Verification of the replication core of the `gamelibrary` repository: the
generational `SyncArena` (src/sync_arena.rs), its structural diff/patch
protocol, the `SyncVector` (src/sync_vector.rs), the removing iterator
(src/arenaiter.rs), the physics `Space` diff (src/space.rs) and the client
sync loop (src/sync/client.rs).

Modelling conventions:
* `u32`/`u64`/`usize` counters and identifiers are modelled as `Nat`; the
  claims under study never reach the wrap-around boundary of the machine
  width, so no modular reduction is inserted.
* Rust `HashMap`/`HashSet` are modelled as association lists / lists with
  first-match lookup; Rust hash-iteration order (which is unspecified) is
  modelled as list order.
* A Rust panic (`unwrap`, `expect`, `panic!`-style aborts, out-of-bounds
  indexing) is modelled by returning `none` from an `Option`-valued
  function; `some` is normal termination.
* The random `uuid::Uuid::new_v4` sync id drawn inside `try_alloc_next_index`
  is passed in as an explicit `fresh` argument (a randomness oracle).
-/

namespace Gamelib

/-- Lookup in an association list, first match wins (models `HashMap::get`). -/
def mapLookup {β : Type} (m : List (Nat × β)) (k : Nat) : Option β :=
  match m with
  | [] => none
  | (k2, v) :: rest => if k2 = k then some v else mapLookup rest k

/-- Insert/replace in an association list (models `HashMap::insert`). -/
def mapInsert {β : Type} (m : List (Nat × β)) (k : Nat) (v : β) : List (Nat × β) :=
  match m with
  | [] => [(k, v)]
  | (k2, v2) :: rest =>
      if k2 = k then (k, v) :: rest else (k2, v2) :: mapInsert rest k v

/-- Remove the binding of a key from an association list (models `HashMap::remove`). -/
def mapErase {β : Type} (m : List (Nat × β)) (k : Nat) : List (Nat × β) :=
  match m with
  | [] => []
  | (k2, v2) :: rest => if k2 = k then rest else (k2, v2) :: mapErase rest k

/-- Insert into a set modelled as a duplicate-free list (models `HashSet::insert`). -/
def setInsert (s : List Nat) (k : Nat) : List Nat :=
  if k ∈ s then s else s ++ [k]

/-- Positional lookup in a list (models `Vec` indexing / `get`). -/
def nth {α : Type} : List α → Nat → Option α
  | [], _ => none
  | a :: _, 0 => some a
  | _ :: l, Nat.succ n => nth l n

/-- Positional update in a list (models `vec[i] = x`). -/
def setNth {α : Type} : List α → Nat → α → List α
  | [], _, _ => []
  | _ :: l, 0, b => b :: l
  | a :: l, Nat.succ n, b => a :: setNth l n b

/-- The sentinel `u32::MAX` used by the source for invalid indices. -/
def INVALID_U32 : Nat := 4294967295

/-- The keys of an association list. -/
def mapKeys {β : Type} (m : List (Nat × β)) : List Nat := m.map Prod.fst

/-- `Entry<T>` from src/sync_arena.rs: a slot is free (linked into the free
list) or occupied with a generation, a sync id and a value. -/
inductive Entry (V : Type) where
  | free (next_free : Option Nat)
  | occupied (generation : Nat) (sync_id : Nat) (value : V)
  deriving DecidableEq, Repr

/-- `Index` from src/sync_arena.rs: local index, local generation, the
`synced` validity flag, and the process-independent sync id. -/
structure Index where
  index : Nat
  generation : Nat
  synced : Bool
  sync_id : Nat
  deriving DecidableEq, Repr

/-- `Index::from_raw_parts`. -/
def Index.from_raw_parts (index generation sync_id : Nat) : Index :=
  ⟨index, generation, true, sync_id⟩

/-- `SyncArena<T>` from src/sync_arena.rs. -/
structure SyncArena (V : Type) where
  items : List (Entry V)
  generation : Nat
  free_list_head : Option Nat
  len : Nat
  sync_index_map : List (Nat × (Nat × Nat))
  deriving DecidableEq, Repr

namespace SyncArena

variable {V : Type} [DecidableEq V]

/-- The chain of `Free` entries appended by `SyncArena::reserve`: entries
`start..start+count`, each pointing at the next, the last at the old head. -/
def freeChain (V : Type) : Nat → Nat → Option Nat → List (Entry V)
  | _, 0, _ => []
  | _, 1, oldHead => [Entry.free oldHead]
  | start, Nat.succ (Nat.succ c), oldHead =>
      Entry.free (some (start + 1)) :: freeChain V (start + 1) (Nat.succ c) oldHead

/-- `SyncArena::reserve`: append `additional` free slots chained together,
the last linking to the old free-list head, and point the head at the first
new slot. -/
def reserve (a : SyncArena V) (additional : Nat) : SyncArena V :=
  { a with
    items := a.items ++ freeChain V a.items.length additional a.free_list_head
    free_list_head := some a.items.length }

/-- `SyncArena::with_capacity` (the `cmp::max(n, 1)` is applied by the caller
side of the model): empty fields, then `reserve n`. -/
def with_capacity (V : Type) (n : Nat) : SyncArena V :=
  reserve { items := [], generation := 0, free_list_head := none, len := 0,
            sync_index_map := [] } (max n 1)

/-- `SyncArena::new` = `with_capacity(DEFAULT_CAPACITY)` with `DEFAULT_CAPACITY = 4`. -/
def new (V : Type) : SyncArena V := with_capacity V 4

/-- `SyncArena::try_alloc_next_index`. `none` models the
`panic!("corrupt free list")` (and an out-of-bounds head). The inner option is
`None` when the free list is empty. The `fresh` argument stands for the
random uuid. -/
def try_alloc_next_index (a : SyncArena V) (fresh : Nat) :
    Option (Option Index × SyncArena V) :=
  match a.free_list_head with
  | none => some (none, a)
  | some i =>
      match nth a.items i with
      | some (Entry.occupied _ _ _) => none
      | some (Entry.free next_free) =>
          some (some ⟨i, a.generation, true, fresh⟩,
                { a with free_list_head := next_free, len := a.len + 1 })
      | none => none

/-- `SyncArena::try_insert`: allocate a slot and write
`Occupied (generation := arena generation) (sync_id := index.sync_id)`. -/
def try_insert (a : SyncArena V) (fresh : Nat) (v : V) :
    Option (Option Index × SyncArena V) :=
  match try_alloc_next_index a fresh with
  | none => none
  | some (none, a2) => some (none, a2)
  | some (some idx, a2) =>
      some (some idx,
            { a2 with items := setNth a2.items idx.index (Entry.occupied a2.generation idx.sync_id v) })

/-- `SyncArena::insert_slow_path`: `reserve(items.len())` then `try_insert`,
whose failure is an `expect` panic. -/
def insert_slow_path (a : SyncArena V) (fresh : Nat) (v : V) :
    Option (Index × SyncArena V) :=
  match try_insert (reserve a a.items.length) fresh v with
  | some (some idx, a2) => some (idx, a2)
  | some (none, _) => none
  | none => none

/-- The shared body of `SyncArena::insert` before the sync map registration:
`try_insert` with fallback to `insert_slow_path`. -/
def insert_core (a : SyncArena V) (fresh : Nat) (v : V) :
    Option (Index × SyncArena V) :=
  match try_insert a fresh v with
  | some (some idx, a2) => some (idx, a2)
  | some (none, a2) => insert_slow_path a2 fresh v
  | none => none

/-- `SyncArena::insert`: allocate, then register
`sync_index_map[index.sync_id] = (index.index, index.generation)`. -/
def insert (a : SyncArena V) (fresh : Nat) (v : V) :
    Option (Index × SyncArena V) :=
  match insert_core a fresh v with
  | none => none
  | some (idx, a2) =>
      some (idx, { a2 with sync_index_map := mapInsert a2.sync_index_map idx.sync_id (idx.index, idx.generation) })

/-- `SyncArena::insert_with_known_sync_id`: insert (the internally generated
uuid is discarded, modelled by `0`), overwrite the stored entry sync id with
the supplied one, patch the returned index, and register the map entry under
the supplied sync id. -/
def insert_with_known_sync_id (a : SyncArena V) (v : V) (sync_id : Nat) :
    Option (Index × SyncArena V) :=
  match insert_core a 0 v with
  | none => none
  | some (idx, a2) =>
      let items2 :=
        match nth a2.items idx.index with
        | some (Entry.occupied g _ w) =>
            setNth a2.items idx.index (Entry.occupied g sync_id w)
        | _ => a2.items
      let idx2 := { idx with sync_id := sync_id }
      some (idx2,
            { a2 with
              items := items2
              sync_index_map :=
                mapInsert a2.sync_index_map sync_id (idx2.index, idx2.generation) })

/-- `SyncArena::remove`. Outer `none` models the
`expect("could not find sync index in sync_index map when removing")` panic;
`some (none, a)` is a tolerated failed removal that leaves the arena intact. -/
def remove (a : SyncArena V) (i : Index) : Option (Option V × SyncArena V) :=
  if a.items.length ≤ i.index then some (none, a)
  else
    match nth a.items i.index with
    | some (Entry.occupied g s v) =>
        if i.generation = g then
          if (mapLookup a.sync_index_map s).isSome then
            some (some v,
              { items := setNth a.items i.index (Entry.free a.free_list_head)
                generation := a.generation + 1
                free_list_head := some i.index
                len := a.len - 1
                sync_index_map := mapErase a.sync_index_map s })
          else none
        else some (none, a)
    | _ => some (none, a)

/-- The slot inspection shared by `get`/`get_mut` once the index is resolved:
occupied and generation matches. -/
def get_slot (a : SyncArena V) (index generation : Nat) : Option V :=
  match nth a.items index with
  | some (Entry.occupied g _ v) => if g = generation then some v else none
  | _ => none

/-- `SyncArena::get`. For an unsynced index the sync id is resolved through
`sync_index_map` with `.unwrap()` — the outer `none` models that panic. On
success it returns the lookup result together with the (possibly rewritten)
index, since `get` caches the resolved position in the handle. -/
def get (a : SyncArena V) (i : Index) : Option (Option V × Index) :=
  if i.synced = false then
    match mapLookup a.sync_index_map i.sync_id with
    | none => none
    | some (li, lg) =>
        let i2 : Index := { i with index := li, generation := lg, synced := true }
        some (get_slot a i2.index i2.generation, i2)
  else
    some (get_slot a i.index i.generation, i)

/-- `SyncArena::get_mut`: identical resolution and slot check as `get`; the
returned mutable borrow is modelled by the looked-up value. -/
def get_mut (a : SyncArena V) (i : Index) : Option (Option V × Index) :=
  get a i

end SyncArena

/-- The element-level `Diff` trait (`diff`, `apply`, `identity`) of the
external `diff` crate, over value type `V` with delta representation `R`.
`apply_new(d)` of the crate is `clone` + `apply`, i.e. `applyFn v d`. -/
structure DiffOps (V R : Type) where
  diffFn : V → V → R
  applyFn : V → R → V
  identityFn : V

/-- The `diff` crate implementation for primitive numeric types:
`Repr = Option<Self>`, `diff` emits `Some(other)` exactly on inequality,
`apply` overwrites on `Some`, `identity` is `Default::default()`. -/
def intOps : DiffOps Int (Option Int) where
  diffFn a b := if a = b then none else some b
  applyFn v d := match d with | some w => w | none => v
  identityFn := 0

/-- `SyncArenaDiff<T>` from src/sync_arena.rs: the `altered` map and the
`removed` set of a container delta. -/
structure SyncArenaDiff (R : Type) where
  altered : List (Nat × R)
  removed : List Nat
  deriving DecidableEq, Repr

namespace SyncArena

variable {V R : Type} [DecidableEq V]

/-- First loop of `SyncArena::diff`: walk the occupied entries of `self`
(enumerated from position `i`); `other.get(Index::from_raw_parts(index,
generation, sync_id))` is a synced-handle lookup, i.e. `get_slot` on `other`
(lemma `get_raw_parts` below). A hit with a different value emits an altered
entry `value.diff(other_value)`; a miss emits a removed entry. -/
def diff_loop1 (ops : DiffOps V R) (B : SyncArena V) :
    Nat → List (Entry V) → SyncArenaDiff R → SyncArenaDiff R
  | _, [], d => d
  | i, Entry.free _ :: rest, d => diff_loop1 ops B (i + 1) rest d
  | i, Entry.occupied g s v :: rest, d =>
      match B.get_slot i g with
      | some w =>
          if w = v then diff_loop1 ops B (i + 1) rest d
          else diff_loop1 ops B (i + 1) rest
            { d with altered := mapInsert d.altered s (ops.diffFn v w) }
      | none =>
          diff_loop1 ops B (i + 1) rest { d with removed := setInsert d.removed s }

/-- Second loop of `SyncArena::diff`: walk the occupied entries of `other`;
entries whose position/generation do not resolve in `self` are new and emit
`identity().diff(other_value)`. -/
def diff_loop2 (ops : DiffOps V R) (A : SyncArena V) :
    Nat → List (Entry V) → SyncArenaDiff R → SyncArenaDiff R
  | _, [], d => d
  | i, Entry.free _ :: rest, d => diff_loop2 ops A (i + 1) rest d
  | i, Entry.occupied g s w :: rest, d =>
      match A.get_slot i g with
      | some _ => diff_loop2 ops A (i + 1) rest d
      | none =>
          diff_loop2 ops A (i + 1) rest
            { d with altered := mapInsert d.altered s (ops.diffFn ops.identityFn w) }

/-- `<SyncArena<T> as Diff>::diff`. -/
def diff (ops : DiffOps V R) (A B : SyncArena V) : SyncArenaDiff R :=
  diff_loop2 ops A 0 B.items (diff_loop1 ops B 0 A.items ⟨[], []⟩)

/-- The removal pass of `<SyncArena<T> as Diff>::apply`: for each removed
sync id, `sync_index_map.get(..).unwrap()` (outer `none` on a missing id
models that panic), then `remove` with the resolved raw-parts index, its
return value discarded. -/
def apply_removed (a : SyncArena V) : List Nat → Option (SyncArena V)
  | [] => some a
  | sid :: rest =>
      match mapLookup a.sync_index_map sid with
      | none => none
      | some (ci, cg) =>
          match a.remove (Index.from_raw_parts ci cg sid) with
          | none => none
          | some (_, a2) => apply_removed a2 rest

/-- The altered pass of `<SyncArena<T> as Diff>::apply`: a sync id already in
`sync_index_map` is resolved and its value updated in place through
`get_mut(..).unwrap()` (a stale map entry makes the unwrap panic, `none`);
a new sync id is materialised via
`insert_with_known_sync_id(T::identity().apply_new(diff), sync_id)`. -/
def apply_altered (ops : DiffOps V R) (a : SyncArena V) :
    List (Nat × R) → Option (SyncArena V)
  | [] => some a
  | (sid, rd) :: rest =>
      match mapLookup a.sync_index_map sid with
      | some (ci, cg) =>
          match nth a.items ci with
          | some (Entry.occupied g s v) =>
              if g = cg then
                apply_altered ops
                  { a with items := setNth a.items ci (Entry.occupied g s (ops.applyFn v rd)) } rest
              else none
          | _ => none
      | none =>
          match insert_with_known_sync_id a (ops.applyFn ops.identityFn rd) sid with
          | none => none
          | some (_, a2) => apply_altered ops a2 rest

/-- `<SyncArena<T> as Diff>::apply`: the removed set is processed first, then
the altered map. -/
def apply (ops : DiffOps V R) (a : SyncArena V) (d : SyncArenaDiff R) :
    Option (SyncArena V) :=
  match apply_removed a d.removed with
  | none => none
  | some a2 => apply_altered ops a2 d.altered

/-- The value stored under a sync id: resolve through `sync_index_map`, then
check the slot, exactly as a network handle is resolved. This is the
observable content of the arena for the replication protocol. -/
def resolve (a : SyncArena V) (sid : Nat) : Option V :=
  match mapLookup a.sync_index_map sid with
  | some (ci, cg) => get_slot a ci cg
  | none => none

end SyncArena

/-- The operations of claim C7, acting on an arena. `get` and iteration
(`iter`, `iter_mut`) take the arena by (mutable) reference but never write
the arena fields, so their step is the identity on the arena; `get` with an
unknown unsynced sync id panics (`none`). -/
inductive ArenaOp (V R : Type) where
  | insert (fresh : Nat) (v : V)
  | insert_known (v : V) (sid : Nat)
  | remove (i : Index)
  | apply (d : SyncArenaDiff R)
  | get (i : Index)
  | iterate

/-- One operation applied to an arena; `none` models a panic. -/
def arenaStep {V R : Type} (ops : DiffOps V R) (a : SyncArena V) :
    ArenaOp V R → Option (SyncArena V)
  | ArenaOp.insert fresh v => (SyncArena.insert a fresh v).map Prod.snd
  | ArenaOp.insert_known v sid => (SyncArena.insert_with_known_sync_id a v sid).map Prod.snd
  | ArenaOp.remove i => (SyncArena.remove a i).map Prod.snd
  | ArenaOp.apply d => SyncArena.apply ops a d
  | ArenaOp.get i => (SyncArena.get a i).map (fun _ => a)
  | ArenaOp.iterate => some a

/-- A sequence of operations, stopping at the first panic. -/
def arenaRun {V R : Type} (ops : DiffOps V R) (a : SyncArena V) :
    List (ArenaOp V R) → Option (SyncArena V)
  | [] => some a
  | op :: rest =>
      match arenaStep ops a op with
      | none => none
      | some a2 => arenaRun ops a2 rest

/-- Iterated application of one delta (for the repeated-application part of
claim C2). -/
def apply_iter {V R : Type} [DecidableEq V] (ops : DiffOps V R) (A : SyncArena V)
    (d : SyncArenaDiff R) : Nat → Option (SyncArena V)
  | 0 => some A
  | Nat.succ n =>
      match apply_iter ops A d n with
      | none => none
      | some a2 => SyncArena.apply ops a2 d

/-- The arena obtained by `insert_with_known_sync_id(5, 42)` on a fresh
`SyncArena::<i64>::new()` (slot 0, generation 0). -/
def exAInt : SyncArena Int :=
  { items := [Entry.occupied 0 42 5, Entry.free (some 2), Entry.free (some 3), Entry.free none]
    generation := 0
    free_list_head := some 1
    len := 1
    sync_index_map := [(42, (0, 0))] }

/-- `exAInt` after `remove` of its only element and
`insert_with_known_sync_id(6, 43)`: the slot is reused at generation 1. -/
def exBInt : SyncArena Int :=
  { items := [Entry.occupied 1 43 6, Entry.free (some 2), Entry.free (some 3), Entry.free none]
    generation := 1
    free_list_head := some 1
    len := 1
    sync_index_map := [(43, (0, 1))] }

/-- A fresh arena after `insert_with_known_sync_id(5, 1)` followed by
`remove`: identical occupied content to `SyncArena::new()` (none), but the
generation counter is 1 and the free list starts at slot 0. -/
def exCInt : SyncArena Int :=
  { items := [Entry.free (some 1), Entry.free (some 2), Entry.free (some 3), Entry.free none]
    generation := 1
    free_list_head := some 0
    len := 0
    sync_index_map := [] }

/-- The number of `Occupied` slots in a slot vector. -/
def countOcc {V : Type} : List (Entry V) → Nat
  | [] => 0
  | Entry.occupied _ _ _ :: rest => countOcc rest + 1
  | Entry.free _ :: rest => countOcc rest

/-- `IsFreeChain items head fl` states that starting from `head` the free
slots listed in `fl` are linked in order through their `next_free` pointers,
ending with `None`. -/
def IsFreeChain {V : Type} (items : List (Entry V)) : Option Nat → List Nat → Prop
  | head, [] => head = none
  | head, j :: rest =>
      head = some j ∧
        ∃ nxt, nth items j = some (Entry.free nxt) ∧ IsFreeChain items nxt rest

/-- The free list of the arena is an acyclic chain covering exactly the free
slots. -/
def FreeOk {V : Type} (a : SyncArena V) : Prop :=
  ∃ fl : List Nat, IsFreeChain a.items a.free_list_head fl ∧ fl.Nodup ∧
    (∀ i, i < a.items.length → ((∃ n, nth a.items i = some (Entry.free n)) ↔ i ∈ fl))

/-- Well-formedness of a `SyncArena`: the free list is an acyclic chain
covering exactly the free slots, the sync index map is a bijection onto the
occupied slots, its keys are duplicate-free, `len` counts the occupied slots,
and the slot vector is nonempty (as guaranteed by `with_capacity`). -/
structure ArenaWF {V : Type} (a : SyncArena V) : Prop where
  free_ok : FreeOk a
  map_occ : ∀ s i g, mapLookup a.sync_index_map s = some (i, g) →
      ∃ v, nth a.items i = some (Entry.occupied g s v)
  occ_map : ∀ i g s v, nth a.items i = some (Entry.occupied g s v) →
      mapLookup a.sync_index_map s = some (i, g)
  keys_nodup : (mapKeys a.sync_index_map).Nodup
  len_eq : a.len = countOcc a.items
  nonempty : 1 ≤ a.items.length

/-- The states of a `SyncArena` reachable from `new` through `insert` with a
fresh random sync id, `insert_with_known_sync_id` with a not-yet-present sync
id, and `remove` (claim C10 quantifies over exactly these histories; spec
section 3 guarantees sync-id freshness for `insert` through the global
uniqueness of random SyncIds). -/
inductive Reachable {V : Type} : SyncArena V → Prop where
  | base : Reachable (SyncArena.new V)
  | insert_step : ∀ {a : SyncArena V} {fresh : Nat} {v : V} {idx : Index} {a2 : SyncArena V},
      Reachable a → mapLookup a.sync_index_map fresh = none →
      SyncArena.insert a fresh v = some (idx, a2) → Reachable a2
  | insert_known_step : ∀ {a : SyncArena V} {v : V} {sid : Nat} {idx : Index} {a2 : SyncArena V},
      Reachable a → mapLookup a.sync_index_map sid = none →
      SyncArena.insert_with_known_sync_id a v sid = some (idx, a2) → Reachable a2
  | remove_step : ∀ {a : SyncArena V} {i : Index} {r : Option V} {a2 : SyncArena V},
      Reachable a → SyncArena.remove a i = some (r, a2) → Reachable a2

namespace Rapier

/-- rapier arena slot entry (`rapier2d::data::arena::Entry`): free (with free
list link) or occupied (generation plus value). -/
inductive Entry (V : Type) where
  | free (next_free : Option Nat)
  | occupied (generation : Nat) (value : V)
deriving DecidableEq

/-- rapier generational arena (`rapier2d::data::Arena`): slot vector,
arena-wide generation, free-list head and element count. -/
structure Arena (V : Type) where
  items : List (Entry V)
  generation : Nat
  free_list_head : Option Nat
  len : Nat
deriving DecidableEq

end Rapier

/-- `ArenaIterator` from `arenaiter.rs`: a removing iterator over a rapier
arena that owns the arena while iterating. -/
structure ArenaIterator (V : Type) where
  next_index : Option Nat
  restore_index : Nat
  restore_generation : Nat
  arena : Rapier.Arena V
deriving DecidableEq

namespace ArenaIterator

/-- Linear scan for the first occupied slot, counting from `i`; returns the
absolute index. Implements the `loop`/`continue` scans in
`ArenaIterator::new` and `ArenaIterator::next` (the first scan in `new` has
no bounds check and panics past the end of the vector; running off the list
is the `none` result, consumed as a panic by `new`). -/
def findOccAux {V : Type} : List (Rapier.Entry V) → Nat → Option Nat
  | [], _ => none
  | Rapier.Entry.occupied _ _ :: _, i => some i
  | Rapier.Entry.free _ :: rest, i => findOccAux rest (i + 1)

/-- Scan for the first occupied slot at position `≥ i`. -/
def findOccFrom {V : Type} (items : List (Rapier.Entry V)) (i : Nat) : Option Nat :=
  findOccAux (items.drop i) i

/-- `ArenaIterator::new`: scan for the first occupied slot, physically
replace it by `Free { next_free: Some(u32::MAX) }` (the free-list head is
deliberately not updated yet), decrement `len`, scan for the position of the
next occupied slot, and hand the removed value to the caller. The discarded
generation of the removed entry is NOT recorded: `restore_generation` starts
at 0. `none` models the panics (empty arena scan overrun / the
`unreachable!`). -/
def new {V : Type} (arena : Rapier.Arena V) : Option (ArenaIterator V × V) :=
  match findOccFrom arena.items 0 with
  | none => none
  | some index =>
    match nth arena.items index with
    | some (Rapier.Entry.occupied _ value) =>
        let items2 := setNth arena.items index (Rapier.Entry.free (some INVALID_U32))
        some ({ next_index := findOccFrom items2 0, restore_index := index,
                restore_generation := 0,
                arena := { items := items2, generation := arena.generation, free_list_head := arena.free_list_head, len := arena.len - 1 } }, value)
    | _ => none

/-- First half of `ArenaIterator::next` (the `match value_to_restore`
block): restoring writes `Occupied { restore_generation, value }` back into
the pending slot and re-increments `len`; not restoring finalises the slot
as free — it is linked onto the current free list, the free-list head is
pointed at it, and the arena generation is bumped. -/
def put_back {V : Type} (it : ArenaIterator V) (value_to_restore : Option V) : Rapier.Arena V :=
  match value_to_restore with
  | some value =>
      { items := setNth it.arena.items it.restore_index (Rapier.Entry.occupied it.restore_generation value),
        generation := it.arena.generation,
        free_list_head := it.arena.free_list_head,
        len := it.arena.len + 1 }
  | none =>
      { items := setNth it.arena.items it.restore_index (Rapier.Entry.free it.arena.free_list_head),
        generation := it.arena.generation + 1,
        free_list_head := some it.restore_index,
        len := it.arena.len }

/-- Second half of `ArenaIterator::next`, after the restore block produced
`a1`: if no next occupied index is known, iteration ends; otherwise the next
occupied slot is physically removed the same way (`Free { Some(u32::MAX) }`
dummy, `len -= 1`, its generation recorded for a later restore) and the scan
position for the following element starts at the freed slot. -/
def advance {V : Type} (it : ArenaIterator V) (a1 : Rapier.Arena V) : Option (Option V × ArenaIterator V) :=
  match it.next_index with
  | none => some (none, { next_index := none, restore_index := it.restore_index, restore_generation := it.restore_generation, arena := a1 })
  | some ni =>
      match nth a1.items ni with
      | some (Rapier.Entry.occupied g value) =>
          let items2 := setNth a1.items ni (Rapier.Entry.free (some INVALID_U32))
          some (some value,
            { next_index := findOccFrom items2 ni, restore_index := ni, restore_generation := g,
              arena := { items := items2, generation := a1.generation, free_list_head := a1.free_list_head, len := a1.len - 1 } })
      | _ => none

/-- `ArenaIterator::next(value_to_restore)`: the restore/finalise phase runs
first, then the iterator advances. -/
def next {V : Type} (it : ArenaIterator V) (value_to_restore : Option V) : Option (Option V × ArenaIterator V) :=
  advance it (put_back it value_to_restore)

end ArenaIterator

/-- A two-element arena used to exercise the removing iterator. -/
def exRArena : Rapier.Arena Int :=
  { items := [Rapier.Entry.occupied 0 10, Rapier.Entry.free none, Rapier.Entry.occupied 0 20]
    generation := 0
    free_list_head := some 1
    len := 2 }

/-- The iterator state `ArenaIterator::new` produces on `exRArena`. -/
def exIter1 : ArenaIterator Int :=
  { next_index := some 2
    restore_index := 0
    restore_generation := 0
    arena := { items := [Rapier.Entry.free (some INVALID_U32), Rapier.Entry.free none, Rapier.Entry.occupied 0 20], generation := 0, free_list_head := some 1, len := 1 } }

/-- rapier rigid body state, abstracted: scalar physics state (`Isometry2`
position, `Vector2` linear velocity, angular velocity, body type, mass) is
modelled by `Int` values; the attached collider handles are the local rapier
handles (`Nat`). Field-by-field comparison in `Space::diff` only needs
decidable equality of these fields. -/
structure RigidBody where
  position : Int
  velocity : Int
  angular_velocity : Int
  colliders : List Nat
  body_type : Int
  mass : Int
deriving DecidableEq

/-- rapier collider state, abstracted the same way; `parent` is the local
rigid-body handle, if any. -/
structure Collider where
  shape : Int
  parent : Option Nat
  position : Int
  collision_groups : Int
  mass : Int
deriving DecidableEq

/-- rapier impulse joint, abstracted: the two anchors and the joint data are
`Int`, `body1`/`body2` are the local rigid-body handles. -/
structure ImpulseJoint where
  local_anchor_1 : Int
  local_anchor_2 : Int
  joint_data : Int
  body1 : Nat
  body2 : Nat
deriving DecidableEq

/-- `SyncRigidBodySet`: the rapier set (modelled as an association list from
local handle to body) plus the sync maps in both directions. -/
structure SyncRigidBodySet where
  rigid_body_set : List (Nat × RigidBody)
  sync_map : List (Nat × Nat)
  reverse_sync_map : List (Nat × Nat)
deriving DecidableEq

/-- `SyncColliderSet`, modelled like `SyncRigidBodySet`. -/
structure SyncColliderSet where
  collider_set : List (Nat × Collider)
  sync_map : List (Nat × Nat)
  reverse_sync_map : List (Nat × Nat)
deriving DecidableEq

/-- `SyncImpulseJointSet`, modelled like `SyncRigidBodySet`. -/
structure SyncImpulseJointSet where
  impulse_joint_set : List (Nat × ImpulseJoint)
  sync_map : List (Nat × Nat)
  reverse_sync_map : List (Nat × Nat)
deriving DecidableEq

/-- `Space`, restricted to the fields `Space::diff` reads: the three synced
sets, gravity (a 2-vector, abstracted to `Int`), and the owned-handle lists
(runtime-only fields skipped by serde). -/
structure Space where
  sync_rigid_body_set : SyncRigidBodySet
  sync_collider_set : SyncColliderSet
  sync_impulse_joint_set : SyncImpulseJointSet
  gravity : Int
  owned_rigid_bodies : List Nat
  owned_colliders : List Nat
  owned_joints : List Nat
deriving DecidableEq

/-- The diff-crate `VecDiff<SyncColliderHandle>` is external to this
repository; it is modelled by the pair of translated sync-handle vectors it
is computed from (`sync_collider_handles.diff(&other_sync_collider_handles)`). -/
structure VecDiff where
  self_handles : List Nat
  other_handles : List Nat
deriving DecidableEq

structure RigidBodyDiff where
  position : Option Int
  velocity : Option Int
  angular_velocity : Option Int
  colliders : Option VecDiff
  body_type : Option Int
  mass : Option Int
deriving DecidableEq

structure ColliderDiff where
  shape : Option Int
  parent : Option Nat
  position : Option Int
  collision_groups : Option Int
  mass : Option Int
deriving DecidableEq

structure ImpulseJointDiff where
  local_anchor_1 : Option Int
  local_anchor_2 : Option Int
deriving DecidableEq

structure NewSyncImpulseJoint where
  joint_data : Int
  body_handle_1 : Nat
  body_handle_2 : Nat
deriving DecidableEq

structure SyncRigidBodySetDiff where
  altered : List (Nat × RigidBodyDiff)
  removed : List Nat
deriving DecidableEq

structure SyncColliderSetDiff where
  altered : List (Nat × ColliderDiff)
  removed : List Nat
deriving DecidableEq

structure SyncImpulseJointSetDiff where
  altered : List (Nat × ImpulseJointDiff)
  new : List (Nat × NewSyncImpulseJoint)
  removed : List Nat
deriving DecidableEq

structure SpaceDiff where
  sync_rigid_body_set : SyncRigidBodySetDiff
  sync_collider_set : SyncColliderSetDiff
  sync_impulse_joint_set : SyncImpulseJointSetDiff
  gravity : Option Int
deriving DecidableEq

/-- Translate a list of local handles through a reverse sync map; each
lookup is an `unwrap` in the source, so a missing entry panics (`none`). -/
def translateHandles (rsm : List (Nat × Nat)) : List Nat → Option (List Nat)
  | [] => some []
  | h :: rest =>
      match mapLookup rsm h with
      | none => none
      | some s =>
          match translateHandles rsm rest with
          | none => none
          | some rest2 => some (s :: rest2)

namespace Space

/-- First rigid-body loop of `Space::diff`: iterate the sync map of this peer;
skip any body whose sync handle is not in `other.owned_rigid_bodies`; a body
present in both spaces whose value changed contributes a field-wise
`RigidBodyDiff` to `altered`; a body absent from `other` goes to `removed`.
The `.unwrap()` calls on set lookups are panics (`none`). -/
def bodiesLoop1 (selfS otherS : Space) : List (Nat × Nat) → SyncRigidBodySetDiff → Option SyncRigidBodySetDiff
  | [], acc => some acc
  | (sync_h, local_h) :: rest, acc =>
      if (otherS.owned_rigid_bodies.contains sync_h) = false then
        bodiesLoop1 selfS otherS rest acc
      else
        match mapLookup otherS.sync_rigid_body_set.sync_map sync_h with
        | some other_local =>
            match mapLookup selfS.sync_rigid_body_set.rigid_body_set local_h,
                  mapLookup otherS.sync_rigid_body_set.rigid_body_set other_local with
            | some rb, some orb =>
                if orb ≠ rb then
                  match (if orb.colliders ≠ rb.colliders then
                           match translateHandles selfS.sync_collider_set.reverse_sync_map rb.colliders,
                                 translateHandles otherS.sync_collider_set.reverse_sync_map orb.colliders with
                           | some mine, some theirs => some (some (VecDiff.mk mine theirs))
                           | _, _ => none
                         else some none) with
                  | none => none
                  | some collidersField =>
                      let rbd : RigidBodyDiff := { position := if orb.position ≠ rb.position then some orb.position else none, velocity := if orb.velocity ≠ rb.velocity then some orb.velocity else none, angular_velocity := if orb.angular_velocity ≠ rb.angular_velocity then some orb.angular_velocity else none, colliders := collidersField, body_type := if orb.body_type ≠ rb.body_type then some orb.body_type else none, mass := if orb.mass ≠ rb.mass then some orb.mass else none }
                      bodiesLoop1 selfS otherS rest { acc with altered := mapInsert acc.altered sync_h rbd }
                else
                  bodiesLoop1 selfS otherS rest acc
            | _, _ => none
        | none =>
            bodiesLoop1 selfS otherS rest { acc with removed := setInsert acc.removed sync_h }

/-- Second rigid-body loop of `Space::diff`: every body in `other` that this
peer does not know yet is emitted as an `altered` entry with every field
set; no ownership check. The source builds the collider vec-diff against an
empty local vector. -/
def bodiesLoop2 (selfS otherS : Space) : List (Nat × Nat) → SyncRigidBodySetDiff → Option SyncRigidBodySetDiff
  | [], acc => some acc
  | (other_sync_h, other_local_h) :: rest, acc =>
      match mapLookup selfS.sync_rigid_body_set.sync_map other_sync_h with
      | some _ => bodiesLoop2 selfS otherS rest acc
      | none =>
          match mapLookup otherS.sync_rigid_body_set.rigid_body_set other_local_h with
          | none => none
          | some orb =>
              match translateHandles otherS.sync_collider_set.reverse_sync_map orb.colliders with
              | none => none
              | some theirs =>
                  let rbd : RigidBodyDiff := { position := some orb.position, velocity := some orb.velocity, angular_velocity := some orb.angular_velocity, colliders := some (VecDiff.mk [] theirs), body_type := some orb.body_type, mass := some orb.mass }
                  bodiesLoop2 selfS otherS rest { acc with altered := mapInsert acc.altered other_sync_h rbd }

/-- First collider loop of `Space::diff`: like `bodiesLoop1`, but the
ownership filter consults `self.owned_colliders` (not `other`). A changed
parent pointing at a body resolves through the reverse sync map of `other` with
an `unwrap` (panic on miss); a cleared parent stays `none`. -/
def collidersLoop1 (selfS otherS : Space) : List (Nat × Nat) → SyncColliderSetDiff → Option SyncColliderSetDiff
  | [], acc => some acc
  | (sync_h, local_h) :: rest, acc =>
      if (selfS.owned_colliders.contains sync_h) = false then
        collidersLoop1 selfS otherS rest acc
      else
        match mapLookup otherS.sync_collider_set.sync_map sync_h with
        | some other_h =>
            match mapLookup selfS.sync_collider_set.collider_set local_h,
                  mapLookup otherS.sync_collider_set.collider_set other_h with
            | some c, some oc =>
                if oc ≠ c then
                  match (if oc.parent ≠ c.parent then
                           match oc.parent with
                           | some op =>
                               match mapLookup otherS.sync_rigid_body_set.reverse_sync_map op with
                               | none => none
                               | some sp => some (some sp)
                           | none => some none
                         else some none) with
                  | none => none
                  | some parentField =>
                      let cd : ColliderDiff := { shape := if oc.shape ≠ c.shape then some oc.shape else none, parent := parentField, position := if oc.position ≠ c.position then some oc.position else none, collision_groups := if oc.collision_groups ≠ c.collision_groups then some oc.collision_groups else none, mass := if oc.mass ≠ c.mass then some oc.mass else none }
                      collidersLoop1 selfS otherS rest { acc with altered := mapInsert acc.altered sync_h cd }
                else collidersLoop1 selfS otherS rest acc
            | _, _ => none
        | none =>
            collidersLoop1 selfS otherS rest { acc with removed := setInsert acc.removed sync_h }

/-- Second collider loop of `Space::diff`: new colliders, all fields set;
the parent resolves through `.get(..).cloned()` — no panic on miss. -/
def collidersLoop2 (selfS otherS : Space) : List (Nat × Nat) → SyncColliderSetDiff → Option SyncColliderSetDiff
  | [], acc => some acc
  | (other_sync_h, other_local_h) :: rest, acc =>
      match mapLookup selfS.sync_collider_set.sync_map other_sync_h with
      | some _ => collidersLoop2 selfS otherS rest acc
      | none =>
          match mapLookup otherS.sync_collider_set.collider_set other_local_h with
          | none => none
          | some oc =>
              let parentField : Option Nat := match oc.parent with
                | some lp => mapLookup otherS.sync_rigid_body_set.reverse_sync_map lp
                | none => none
              let cd : ColliderDiff := { shape := some oc.shape, parent := parentField, position := some oc.position, collision_groups := some oc.collision_groups, mass := some oc.mass }
              collidersLoop2 selfS otherS rest { acc with altered := mapInsert acc.altered other_sync_h cd }

/-- First impulse-joint loop of `Space::diff`. The ownership filter present
for bodies and colliders is commented out in the source: every joint of
this peer is diffed. -/
def jointsLoop1 (selfS otherS : Space) : List (Nat × Nat) → SyncImpulseJointSetDiff → Option SyncImpulseJointSetDiff
  | [], acc => some acc
  | (sync_h, local_h) :: rest, acc =>
      match mapLookup otherS.sync_impulse_joint_set.sync_map sync_h with
      | some other_h =>
          match mapLookup selfS.sync_impulse_joint_set.impulse_joint_set local_h,
                mapLookup otherS.sync_impulse_joint_set.impulse_joint_set other_h with
          | some j, some oj =>
              if oj ≠ j then
                let jd : ImpulseJointDiff := { local_anchor_1 := if oj.local_anchor_1 ≠ j.local_anchor_1 then some oj.local_anchor_1 else none, local_anchor_2 := if oj.local_anchor_2 ≠ j.local_anchor_2 then some oj.local_anchor_2 else none }
                jointsLoop1 selfS otherS rest { acc with altered := mapInsert acc.altered sync_h jd }
              else jointsLoop1 selfS otherS rest acc
          | _, _ => none
      | none =>
          jointsLoop1 selfS otherS rest { acc with removed := setInsert acc.removed sync_h }

/-- Second impulse-joint loop of `Space::diff`: joints this peer does not
know go to the `new` map, with the two body handles translated through
the rigid-body reverse sync map of `other` via `get_sync_handle` (an `unwrap`,
so a panic on miss). -/
def jointsLoop2 (selfS otherS : Space) : List (Nat × Nat) → SyncImpulseJointSetDiff → Option SyncImpulseJointSetDiff
  | [], acc => some acc
  | (other_sync_h, other_local_h) :: rest, acc =>
      match mapLookup selfS.sync_impulse_joint_set.sync_map other_sync_h with
      | some _ => jointsLoop2 selfS otherS rest acc
      | none =>
          match mapLookup otherS.sync_impulse_joint_set.impulse_joint_set other_local_h with
          | none => none
          | some nj =>
              match mapLookup otherS.sync_rigid_body_set.reverse_sync_map nj.body1,
                    mapLookup otherS.sync_rigid_body_set.reverse_sync_map nj.body2 with
              | some b1, some b2 =>
                  jointsLoop2 selfS otherS rest
                    { acc with new := mapInsert acc.new other_sync_h (NewSyncImpulseJoint.mk nj.joint_data b1 b2) }
              | _, _ => none

/-- Rigid-body section of `Space::diff`: skipped entirely (empty set diff)
unless the two rapier rigid-body sets compare unequal. -/
def diffBodies (selfS otherS : Space) : Option SyncRigidBodySetDiff :=
  if otherS.sync_rigid_body_set.rigid_body_set ≠ selfS.sync_rigid_body_set.rigid_body_set then
    match bodiesLoop1 selfS otherS selfS.sync_rigid_body_set.sync_map ⟨[], []⟩ with
    | none => none
    | some br1 => bodiesLoop2 selfS otherS otherS.sync_rigid_body_set.sync_map br1
  else some ⟨[], []⟩

/-- Collider section of `Space::diff`, gated on collider-set inequality. -/
def diffColliders (selfS otherS : Space) : Option SyncColliderSetDiff :=
  if otherS.sync_collider_set.collider_set ≠ selfS.sync_collider_set.collider_set then
    match collidersLoop1 selfS otherS selfS.sync_collider_set.sync_map ⟨[], []⟩ with
    | none => none
    | some cr1 => collidersLoop2 selfS otherS otherS.sync_collider_set.sync_map cr1
  else some ⟨[], []⟩

/-- Impulse-joint section of `Space::diff`: not gated on set inequality. -/
def diffJoints (selfS otherS : Space) : Option SyncImpulseJointSetDiff :=
  match jointsLoop1 selfS otherS selfS.sync_impulse_joint_set.sync_map ⟨[], [], []⟩ with
  | none => none
  | some j1 => jointsLoop2 selfS otherS otherS.sync_impulse_joint_set.sync_map j1

/-- `Space::diff(&self, other)`: the three sections in source order, then
the gravity field when it changed. `none` is any `unwrap` panic of the source. -/
def diff (selfS otherS : Space) : Option SpaceDiff :=
  match diffBodies selfS otherS with
  | none => none
  | some bodiesD =>
      match diffColliders selfS otherS with
      | none => none
      | some collidersD =>
          match diffJoints selfS otherS with
          | none => none
          | some jointsD =>
              some { sync_rigid_body_set := bodiesD
                     sync_collider_set := collidersD
                     sync_impulse_joint_set := jointsD
                     gravity := if otherS.gravity ≠ selfS.gravity then some otherS.gravity else none }

end Space

/-- A space whose only content is one impulse joint (sync handle 7). -/
def exJointSelf : Space :=
  { sync_rigid_body_set := ⟨[], [], []⟩
    sync_collider_set := ⟨[], [], []⟩
    sync_impulse_joint_set := ⟨[(0, ⟨1, 2, 3, 0, 0⟩)], [(7, 0)], [(0, 7)]⟩
    gravity := 0
    owned_rigid_bodies := []
    owned_colliders := []
    owned_joints := [] }

/-- `exJointSelf` with joint 7 locally mutated (anchor 1 moved to 9). -/
def exJointOther : Space :=
  { sync_rigid_body_set := ⟨[], [], []⟩
    sync_collider_set := ⟨[], [], []⟩
    sync_impulse_joint_set := ⟨[(0, ⟨9, 2, 3, 0, 0⟩)], [(7, 0)], [(0, 7)]⟩
    gravity := 0
    owned_rigid_bodies := []
    owned_colliders := []
    owned_joints := [] }

/-- The delta `Space::diff` emits for `exJointSelf` against `exJointOther`. -/
def exJointDiff : SpaceDiff :=
  { sync_rigid_body_set := ⟨[], []⟩
    sync_collider_set := ⟨[], []⟩
    sync_impulse_joint_set := ⟨[(7, { local_anchor_1 := some 9, local_anchor_2 := none })], [], []⟩
    gravity := none }

/-- A space with one rigid body (sync 5) and one collider (sync 6), with
empty owned-handle sets. -/
def exSpaceW1 : Space :=
  { sync_rigid_body_set := ⟨[(0, ⟨1, 0, 0, [], 0, 1⟩)], [(5, 0)], [(0, 5)]⟩
    sync_collider_set := ⟨[(0, ⟨1, none, 0, 0, 1⟩)], [(6, 0)], [(0, 6)]⟩
    sync_impulse_joint_set := ⟨[], [], []⟩
    gravity := 0
    owned_rigid_bodies := []
    owned_colliders := []
    owned_joints := [] }

/-- `exSpaceW1` with the body and collider both locally mutated. -/
def exSpaceW2 : Space :=
  { sync_rigid_body_set := ⟨[(0, ⟨2, 0, 0, [], 0, 1⟩)], [(5, 0)], [(0, 5)]⟩
    sync_collider_set := ⟨[(0, ⟨1, none, 3, 0, 1⟩)], [(6, 0)], [(0, 6)]⟩
    sync_impulse_joint_set := ⟨[], [], []⟩
    gravity := 0
    owned_rigid_bodies := []
    owned_colliders := []
    owned_joints := [] }

/-- The empty space delta. -/
def exSpaceWD : SpaceDiff :=
  { sync_rigid_body_set := ⟨[], []⟩
    sync_collider_set := ⟨[], []⟩
    sync_impulse_joint_set := ⟨[], [], []⟩
    gravity := none }

/-- The `Diff` trait operations `SyncClient<T>` is generic over, from the
point of view of the client: `diffFn` is `T::diff`, `applyFn` is the in-place
`T::apply` (fallible in this development because the arena/space
implementations panic). Serialization, lz4 compression and their inverses
are bijections on frames and are modelled away: a frame IS its decoded
delta. -/
structure ClientOps (T R : Type) where
  diffFn : T → T → R
  applyFn : T → R → Option T

/-- `SyncClient::send_update`: returns early — sending nothing — exactly
when the last-synced snapshot equals the current state; otherwise the delta
`previous_state.diff(&state)` is encoded and sent. The emptiness of the
delta itself is never examined. -/
def SyncClient.send_update {T R : Type} [DecidableEq T] (ops : ClientOps T R)
    (previous_state state : T) : Option R :=
  if previous_state = state then none
  else some (ops.diffFn previous_state state)

/-- `SyncClient::receive_updates`: drain the pending inbound frames in
arrival order, applying each decoded delta to the state; a panicking apply
aborts (outer `none`). -/
def SyncClient.receive_updates {T R : Type} (ops : ClientOps T R)
    (state : T) : List R → Option T
  | [] => some state
  | d :: rest =>
      match ops.applyFn state d with
      | none => none
      | some s2 => SyncClient.receive_updates ops s2 rest

/-- `SyncClient::sync(&mut state)` for one tick, with the websocket inbox
made explicit: send the update (computed against the state before any
inbound delta is applied), drain and apply the inbound frames, then record
the resulting state as the new last-synced snapshot. Returns (frame sent if
any, final state, new last-synced snapshot). -/
def SyncClient.sync {T R : Type} [DecidableEq T] (ops : ClientOps T R)
    (previous_state state : T) (inbox : List R) : Option (Option R × T × T) :=
  let sent := SyncClient.send_update ops previous_state state
  match SyncClient.receive_updates ops state inbox with
  | none => none
  | some final => some (sent, final, final)

/-- The client operations instantiated at the integer `SyncArena`. -/
def arenaClientOps : ClientOps (SyncArena Int) (SyncArenaDiff (Option Int)) :=
  { diffFn := SyncArena.diff intOps
    applyFn := fun a d => SyncArena.apply intOps a d }

theorem mapLookup_insert_self {β : Type} (m : List (Nat × β)) (k : Nat) (v : β) :
    mapLookup (mapInsert m k v) k = some v := by
  induction m with
  | nil => simp [mapInsert, mapLookup]
  | cons p rest ih =>
      obtain ⟨k2, v2⟩ := p
      by_cases h : k2 = k <;> simp [mapInsert, mapLookup, h, ih]

theorem mapLookup_insert_ne {β : Type} (m : List (Nat × β)) (k j : Nat) (v : β)
    (h : k ≠ j) : mapLookup (mapInsert m k v) j = mapLookup m j := by
  induction m with
  | nil => simp [mapInsert, mapLookup, h]
  | cons p rest ih =>
      obtain ⟨k2, v2⟩ := p
      by_cases h2 : k2 = k
      · subst h2; simp [mapInsert, mapLookup, h]
      · simp only [mapInsert, if_neg h2]
        by_cases h3 : k2 = j <;> simp [mapLookup, h3, ih]

theorem mapLookup_erase_ne {β : Type} (m : List (Nat × β)) (k j : Nat)
    (h : k ≠ j) : mapLookup (mapErase m k) j = mapLookup m j := by
  induction m with
  | nil => simp [mapErase]
  | cons p rest ih =>
      obtain ⟨k2, v2⟩ := p
      by_cases h2 : k2 = k
      · subst h2; simp [mapErase, mapLookup, h]
      · simp only [mapErase, if_neg h2]
        by_cases h3 : k2 = j <;> simp [mapLookup, h3, ih]

theorem mapLookup_eq_none_iff {β : Type} (m : List (Nat × β)) (k : Nat) :
    mapLookup m k = none ↔ k ∉ mapKeys m := by
  induction m with
  | nil => simp [mapLookup, mapKeys]
  | cons p rest ih =>
      obtain ⟨k2, v2⟩ := p
      by_cases h : k2 = k
      · simp [mapLookup, mapKeys, h]
      · have hne : ¬ k = k2 := fun he => h he.symm
        simp [mapLookup, mapKeys, h, hne, ih]

theorem mapKeys_insert {β : Type} (m : List (Nat × β)) (k : Nat) (v : β) :
    mapKeys (mapInsert m k v) =
      if k ∈ mapKeys m then mapKeys m else mapKeys m ++ [k] := by
  induction m with
  | nil => simp [mapInsert, mapKeys]
  | cons p rest ih =>
      obtain ⟨k2, v2⟩ := p
      by_cases h : k2 = k
      · subst h; simp [mapInsert, mapKeys]
      · have hne : ¬ k = k2 := fun he => h he.symm
        simp only [mapInsert, if_neg h, mapKeys, List.map_cons] at ih ⊢
        rw [ih]
        by_cases h2 : k ∈ List.map Prod.fst rest <;> simp [h2, hne]

theorem mapKeys_erase {β : Type} (m : List (Nat × β)) (k : Nat) :
    mapKeys (mapErase m k) = (mapKeys m).erase k := by
  induction m with
  | nil => simp [mapErase, mapKeys]
  | cons p rest ih =>
      obtain ⟨k2, v2⟩ := p
      by_cases h : k2 = k
      · subst h; simp [mapErase, mapKeys, List.erase_cons]
      · simp only [mapErase, if_neg h, mapKeys, List.map_cons, List.erase_cons, h,
          if_false, ite_false]
        simpa [mapKeys, h] using ih

theorem mapLookup_erase_self {β : Type} (m : List (Nat × β)) (k : Nat)
    (hnd : (mapKeys m).Nodup) : mapLookup (mapErase m k) k = none := by
  rw [mapLookup_eq_none_iff, mapKeys_erase]
  exact fun hmem => ((hnd.mem_erase_iff).1 hmem).1 rfl

theorem mapLookup_none_erase {β : Type} (m : List (Nat × β)) (k j : Nat)
    (h : mapLookup m j = none) : mapLookup (mapErase m k) j = none := by
  rw [mapLookup_eq_none_iff, mapKeys_erase]
  rw [mapLookup_eq_none_iff] at h
  exact fun hmem => h (List.mem_of_mem_erase hmem)

theorem mapKeys_insert_nodup {β : Type} (m : List (Nat × β)) (k : Nat) (v : β)
    (hnd : (mapKeys m).Nodup) : (mapKeys (mapInsert m k v)).Nodup := by
  rw [mapKeys_insert]
  by_cases h : k ∈ mapKeys m
  · simpa [h] using hnd
  · simpa [h] using List.Nodup.append hnd (by simp) (by simpa using h)

theorem mapKeys_erase_nodup {β : Type} (m : List (Nat × β)) (k : Nat)
    (hnd : (mapKeys m).Nodup) : (mapKeys (mapErase m k)).Nodup := by
  rw [mapKeys_erase]; exact hnd.erase k

theorem nth_eq_some_lt {α : Type} (l : List α) (i : Nat) (a : α)
    (h : nth l i = some a) : i < l.length := by
  induction l generalizing i with
  | nil => simp [nth] at h
  | cons b t ih =>
      cases i with
      | zero => simp
      | succ n =>
          simp only [nth] at h
          simpa using ih n h

theorem nth_lt_isSome {α : Type} (l : List α) (i : Nat) (h : i < l.length) :
    (nth l i).isSome := by
  induction l generalizing i with
  | nil => simp at h
  | cons b t ih =>
      cases i with
      | zero => simp [nth]
      | succ n => simpa [nth] using ih n (by simpa using h)

theorem length_setNth {α : Type} (l : List α) (i : Nat) (b : α) :
    (setNth l i b).length = l.length := by
  induction l generalizing i with
  | nil => simp [setNth]
  | cons a t ih =>
      cases i with
      | zero => simp [setNth]
      | succ n => simp [setNth, ih n]

theorem nth_setNth_self {α : Type} (l : List α) (i : Nat) (b : α)
    (h : i < l.length) : nth (setNth l i b) i = some b := by
  induction l generalizing i with
  | nil => simp at h
  | cons a t ih =>
      cases i with
      | zero => simp [setNth, nth]
      | succ n => simpa [setNth, nth] using ih n (by simpa using h)

theorem nth_setNth_ne {α : Type} (l : List α) (i j : Nat) (b : α)
    (h : i ≠ j) : nth (setNth l i b) j = nth l j := by
  induction l generalizing i j with
  | nil => simp [setNth]
  | cons a t ih =>
      cases i with
      | zero =>
          cases j with
          | zero => exact absurd rfl h
          | succ m => simp [setNth, nth]
      | succ n =>
          cases j with
          | zero => simp [setNth, nth]
          | succ m => simpa [setNth, nth] using ih n m (by omega)

theorem nth_append_left {α : Type} (l1 l2 : List α) (i : Nat) (h : i < l1.length) :
    nth (l1 ++ l2) i = nth l1 i := by
  induction l1 generalizing i with
  | nil => simp at h
  | cons a t ih =>
      cases i with
      | zero => simp [nth]
      | succ n => simpa [nth] using ih n (by simpa using h)

theorem nth_append_right {α : Type} (l1 l2 : List α) (i : Nat) (h : l1.length ≤ i) :
    nth (l1 ++ l2) i = nth l2 (i - l1.length) := by
  induction l1 generalizing i with
  | nil => simp [nth]
  | cons a t ih =>
      cases i with
      | zero => simp at h
      | succ n =>
          simp only [List.cons_append, nth]
          simpa [Nat.succ_sub_succ] using ih n (by simpa using h)

theorem countOcc_append {V : Type} (l1 l2 : List (Entry V)) :
    countOcc (l1 ++ l2) = countOcc l1 + countOcc l2 := by
  induction l1 with
  | nil => simp [countOcc]
  | cons e t ih => cases e <;> simp [countOcc, ih] <;> omega

theorem countOcc_freeChain {V : Type} (start cnt : Nat) (oldHead : Option Nat) :
    countOcc (SyncArena.freeChain V start cnt oldHead) = 0 := by
  induction cnt generalizing start with
  | zero => simp [SyncArena.freeChain, countOcc]
  | succ c ih =>
      cases c with
      | zero => simp [SyncArena.freeChain, countOcc]
      | succ c2 => simpa [SyncArena.freeChain, countOcc] using ih (start + 1)

theorem countOcc_setNth_free_occ {V : Type} (items : List (Entry V)) (i : Nat)
    (n : Option Nat) (g s : Nat) (v : V) (h : nth items i = some (Entry.free n)) :
    countOcc (setNth items i (Entry.occupied g s v)) = countOcc items + 1 := by
  induction items generalizing i with
  | nil => simp [nth] at h
  | cons e t ih =>
      cases i with
      | zero => cases e <;> simp_all [nth, setNth, countOcc]
      | succ m =>
          simp only [nth] at h
          cases e <;> simp [setNth, countOcc, ih m h] <;> omega

theorem countOcc_setNth_occ_free {V : Type} (items : List (Entry V)) (i : Nat)
    (n : Option Nat) (g s : Nat) (v : V)
    (h : nth items i = some (Entry.occupied g s v)) :
    countOcc items = countOcc (setNth items i (Entry.free n)) + 1 := by
  induction items generalizing i with
  | nil => simp [nth] at h
  | cons e t ih =>
      cases i with
      | zero => cases e <;> simp_all [nth, setNth, countOcc]
      | succ m =>
          simp only [nth] at h
          cases e <;> simp [setNth, countOcc, ih m h] <;> omega

theorem countOcc_setNth_occ_occ {V : Type} (items : List (Entry V)) (i : Nat)
    (g s g2 s2 : Nat) (v v2 : V)
    (h : nth items i = some (Entry.occupied g s v)) :
    countOcc (setNth items i (Entry.occupied g2 s2 v2)) = countOcc items := by
  induction items generalizing i with
  | nil => simp [nth] at h
  | cons e t ih =>
      cases i with
      | zero => cases e <;> simp_all [nth, setNth, countOcc]
      | succ m =>
          simp only [nth] at h
          cases e <;> simp [setNth, countOcc, ih m h]

theorem IsFreeChain.mem_free {V : Type} {items : List (Entry V)} {head : Option Nat}
    {fl : List Nat} (hc : IsFreeChain items head fl) {j : Nat} (hj : j ∈ fl) :
    ∃ n, nth items j = some (Entry.free n) := by
  induction fl generalizing head with
  | nil => simp at hj
  | cons k rest ih =>
      obtain ⟨hhead, nxt, hk, hrest⟩ := hc
      rcases List.mem_cons.1 hj with he | hm
      · exact ⟨nxt, he ▸ hk⟩
      · exact ih hrest hm

theorem IsFreeChain.congr {V : Type} {items items2 : List (Entry V)}
    {head : Option Nat} {fl : List Nat}
    (hc : IsFreeChain items head fl)
    (heq : ∀ j ∈ fl, nth items2 j = nth items j) :
    IsFreeChain items2 head fl := by
  induction fl generalizing head with
  | nil => exact hc
  | cons k rest ih =>
      obtain ⟨hhead, nxt, hk, hrest⟩ := hc
      exact ⟨hhead, nxt, (heq k (by simp)) ▸ hk,
        ih hrest (fun j hj => heq j (List.mem_cons_of_mem _ hj))⟩

theorem IsFreeChain.mem_lt {V : Type} {items : List (Entry V)} {head : Option Nat}
    {fl : List Nat} (hc : IsFreeChain items head fl) {j : Nat} (hj : j ∈ fl) :
    j < items.length := by
  obtain ⟨n, hn⟩ := hc.mem_free hj
  exact nth_eq_some_lt _ _ _ hn

theorem freeChain_length {V : Type} (start cnt : Nat) (oldHead : Option Nat) :
    (SyncArena.freeChain V start cnt oldHead).length = cnt := by
  induction cnt generalizing start with
  | zero => simp [SyncArena.freeChain]
  | succ c ih =>
      cases c with
      | zero => simp [SyncArena.freeChain]
      | succ c2 => simpa [SyncArena.freeChain] using ih (start + 1)

theorem freeChain_nth {V : Type} (start cnt : Nat) (oldHead : Option Nat)
    (k : Nat) (hk : k < cnt) :
    nth (SyncArena.freeChain V start cnt oldHead) k =
      some (Entry.free (if k + 1 = cnt then oldHead else some (start + k + 1))) := by
  induction cnt generalizing start k with
  | zero => omega
  | succ c ih =>
      cases c with
      | zero =>
          interval_cases k
          simp [SyncArena.freeChain, nth]
      | succ c2 =>
          cases k with
          | zero =>
              simp only [SyncArena.freeChain, nth]
              have : ¬ (0 + 1 = c2 + 1 + 1) := by omega
              simp [this]
          | succ m =>
              simp only [SyncArena.freeChain, nth]
              rw [ih (start + 1) m (by omega)]
              have hiff : (m + 1 = c2 + 1) ↔ (m + 1 + 1 = c2 + 1 + 1) := by omega
              by_cases hm : m + 1 = c2 + 1
              · simp [hm, hiff.1 hm]
              · have : ¬ (m + 1 + 1 = c2 + 1 + 1) := fun h => hm (hiff.2 h)
                simp only [if_neg hm, if_neg this]
                have : start + 1 + m + 1 = start + (m + 1) + 1 := by omega
                rw [this]

theorem isFreeChain_of_pointwise {V : Type} (full : List (Entry V)) :
    ∀ (cnt L : Nat) (oldHead : Option Nat) (fl : List Nat),
    1 ≤ cnt →
    (∀ k, k < cnt → nth full (L + k) =
        some (Entry.free (if k + 1 = cnt then oldHead else some (L + k + 1)))) →
    IsFreeChain full oldHead fl →
    IsFreeChain full (some L) (List.range' L cnt ++ fl) := by
  intro cnt
  induction cnt with
  | zero => omega
  | succ c ih =>
      intro L oldHead fl _ hpt hc
      cases c with
      | zero =>
          refine ⟨rfl, oldHead, ?_, hc⟩
          simpa using hpt 0 (by omega)
      | succ c2 =>
          rw [List.range'_succ]
          refine ⟨rfl, some (L + 1), ?_, ?_⟩
          · have := hpt 0 (by omega)
            have hne : ¬ (0 + 1 = c2 + 1 + 1) := by omega
            simpa [hne] using this
          · simpa using ih (L + 1) oldHead fl (by omega)
              (fun k hk => by
                have := hpt (k + 1) (by omega)
                have harith : L + (k + 1) = L + 1 + k := by omega
                have harith2 : L + (k + 1) + 1 = L + 1 + k + 1 := by omega
                have hiff : (k + 1 + 1 = c2 + 1 + 1) ↔ (k + 1 = c2 + 1) := by omega
                rw [harith] at this
                by_cases hke : k + 1 = c2 + 1
                · simpa [hke, hiff] using this
                · have hne2 : ¬ (k + 1 + 1 = c2 + 1 + 1) := fun h => hke (hiff.1 h)
                  simp only [if_neg hke, if_neg hne2] at this ⊢
                  exact this) hc

/-- `reserve` preserves the structural invariants: the new slots join the free
list in front, the map and occupied slots are untouched. -/
theorem reserve_spec {V : Type} (a : SyncArena V) (cnt : Nat) (hcnt : 1 ≤ cnt)
    (hfree : FreeOk a) :
    FreeOk (a.reserve cnt) ∧
    (a.reserve cnt).items.length = a.items.length + cnt ∧
    (∀ j, j < a.items.length → nth (a.reserve cnt).items j = nth a.items j) ∧
    (∀ j, a.items.length ≤ j → j < a.items.length + cnt →
        ∃ n, nth (a.reserve cnt).items j = some (Entry.free n)) ∧
    (a.reserve cnt).free_list_head = some a.items.length ∧
    countOcc (a.reserve cnt).items = countOcc a.items := by
  obtain ⟨fl, hc, hnd, hiff⟩ := hfree
  set L := a.items.length with hL
  have hlen : (a.reserve cnt).items.length = L + cnt := by
    simp [SyncArena.reserve, freeChain_length]
  have hold : ∀ j, j < L → nth (a.reserve cnt).items j = nth a.items j := by
    intro j hj
    simp only [SyncArena.reserve]
    exact nth_append_left _ _ j hj
  have hnew : ∀ j, L ≤ j → j < L + cnt →
      nth (a.reserve cnt).items j = nth (SyncArena.freeChain V L cnt a.free_list_head) (j - L) := by
    intro j hj1 _
    simp only [SyncArena.reserve]
    exact nth_append_right _ _ j hj1
  have hnewfree : ∀ j, L ≤ j → j < L + cnt →
      ∃ n, nth (a.reserve cnt).items j = some (Entry.free n) := by
    intro j hj1 hj2
    rw [hnew j hj1 hj2, freeChain_nth L cnt a.free_list_head (j - L) (by omega)]
    exact ⟨_, rfl⟩
  refine ⟨⟨List.range' L cnt ++ fl, ?_, ?_, ?_⟩, hlen, hold, hnewfree, rfl, ?_⟩
  · have hpt : ∀ k, k < cnt → nth (a.reserve cnt).items (L + k) =
        some (Entry.free (if k + 1 = cnt then a.free_list_head else some (L + k + 1))) := by
      intro k hk
      rw [hnew (L + k) (by omega) (by omega)]
      have : L + k - L = k := by omega
      rw [this, freeChain_nth L cnt a.free_list_head k hk]
    have hc2 : IsFreeChain (a.reserve cnt).items a.free_list_head fl :=
      hc.congr (fun j hj => hold j (hc.mem_lt hj))
    exact isFreeChain_of_pointwise _ cnt L a.free_list_head fl hcnt hpt hc2
  · refine List.Nodup.append (List.nodup_range' L cnt 1 Nat.one_pos) hnd ?_
    intro x hx1 hx2
    have h1 : L ≤ x := (List.mem_range'_1.1 hx1).1
    have h2 : x < L := hc.mem_lt hx2
    omega
  · intro i hi
    rw [hlen] at hi
    by_cases hiL : i < L
    · rw [hold i hiL]
      rw [List.mem_append]
      constructor
      · intro hfree2
        exact Or.inr ((hiff i hiL).1 hfree2)
      · rintro (hmem | hmem)
        · have := (List.mem_range'_1.1 hmem).1
          omega
        · exact (hiff i hiL).2 hmem
    · obtain ⟨n, hn⟩ := hnewfree i (by omega) hi
      simp only [hn, List.mem_append]
      constructor
      · intro _
        exact Or.inl (List.mem_range'_1.2 ⟨by omega, by omega⟩)
      · intro _
        exact ⟨n, rfl⟩
  · simp [SyncArena.reserve, countOcc_append, countOcc_freeChain]

/-- When the free list is nonempty, `try_insert` pops its head `hd` and
writes the new occupied entry there. -/
theorem try_insert_success {V : Type} (a : SyncArena V) (fresh : Nat) (v : V)
    (hfree : FreeOk a) (hd : Nat) (hhd : a.free_list_head = some hd) :
    ∃ nxt a2,
      SyncArena.try_insert a fresh v = some (some ⟨hd, a.generation, true, fresh⟩, a2) ∧
      a2.items = setNth a.items hd (Entry.occupied a.generation fresh v) ∧
      a2.generation = a.generation ∧
      a2.free_list_head = nxt ∧
      a2.len = a.len + 1 ∧
      a2.sync_index_map = a.sync_index_map ∧
      nth a.items hd = some (Entry.free nxt) ∧
      FreeOk a2 := by
  obtain ⟨fl, hc, hnd, hiff⟩ := hfree
  cases fl with
  | nil => rw [hhd] at hc; exact absurd hc (by simp [IsFreeChain])
  | cons k fl2 =>
      obtain ⟨hhead, nxt, hk, hrest⟩ := hc
      rw [hhd] at hhead
      have hk2 : k = hd := by injection hhead with h; exact h.symm
      subst hk2
      refine ⟨nxt,
        { a with items := setNth a.items k (Entry.occupied a.generation fresh v),
                 free_list_head := nxt, len := a.len + 1 },
        ?_, rfl, rfl, rfl, rfl, rfl, hk, ?_⟩
      · simp only [SyncArena.try_insert, SyncArena.try_alloc_next_index, hhd, hk]
      · refine ⟨fl2, ?_, hnd.of_cons, ?_⟩
        · refine hrest.congr (fun j hj => ?_)
          have hjk : j ≠ k := fun he => (List.nodup_cons.1 hnd).1 (he ▸ hj)
          exact nth_setNth_ne _ _ _ _ (Ne.symm hjk)
        · intro i hi
          rw [length_setNth] at hi
          by_cases hik : i = k
          · subst hik
            rw [nth_setNth_self _ _ _ hi]
            constructor
            · rintro ⟨n, hn⟩
              simp at hn
            · intro hmem
              exact absurd hmem (List.nodup_cons.1 hnd).1
          · rw [nth_setNth_ne _ _ _ _ (fun he => hik he.symm)]
            rw [hiff i hi]
            simp [List.mem_cons, hik]

/-- Success and effect of the allocation core shared by `insert` and
`insert_with_known_sync_id`: a slot `i` is obtained (from the free list, or
after doubling via `insert_slow_path`), written
`Occupied (arena generation) fresh v`; every other pre-existing slot is kept,
newly appended slots are free, and the slot taken was not occupied before. -/
theorem insert_core_spec {V : Type} (a : SyncArena V) (fresh : Nat) (v : V)
    (hfree : FreeOk a) (hne : 1 ≤ a.items.length) :
    ∃ i a2, SyncArena.insert_core a fresh v = some (⟨i, a.generation, true, fresh⟩, a2) ∧
      FreeOk a2 ∧
      a2.generation = a.generation ∧
      a2.sync_index_map = a.sync_index_map ∧
      i < a2.items.length ∧
      nth a2.items i = some (Entry.occupied a.generation fresh v) ∧
      (∀ j, j ≠ i → j < a.items.length → nth a2.items j = nth a.items j) ∧
      (∀ j, j ≠ i → a.items.length ≤ j → j < a2.items.length →
          ∃ n, nth a2.items j = some (Entry.free n)) ∧
      a.items.length ≤ a2.items.length ∧
      a2.len = a.len + 1 ∧
      countOcc a2.items = countOcc a.items + 1 ∧
      (∀ g s w, nth a.items i = some (Entry.occupied g s w) → False) := by
  match hhd : a.free_list_head with
  | some hd =>
      obtain ⟨nxt, a2, hrun, hitems, hgen, hfl, hlen, hmap, hslot, hfree2⟩ :=
        try_insert_success a fresh v hfree hd hhd
      have hlt : hd < a.items.length := nth_eq_some_lt _ _ _ hslot
      refine ⟨hd, a2, ?_, hfree2, hgen, hmap, ?_, ?_, ?_, ?_, ?_, ?_, ?_, ?_⟩
      · simp only [SyncArena.insert_core, hrun]
      · rw [hitems, length_setNth]; exact hlt
      · rw [hitems]; exact nth_setNth_self _ _ _ hlt
      · intro j hj _; rw [hitems]; exact nth_setNth_ne _ _ _ _ (fun he => hj he.symm)
      · intro j _ hj1 hj2
        rw [hitems, length_setNth] at hj2
        omega
      · rw [hitems, length_setNth]
      · exact hlen
      · rw [hitems]; exact countOcc_setNth_free_occ _ _ _ _ _ _ hslot
      · intro g s w hocc
        rw [hslot] at hocc
        cases hocc
  | none =>
      -- free list exhausted: try_insert fails, insert_slow_path reserves and retries
      have hrun1 : SyncArena.try_insert a fresh v = some (none, a) := by
        simp only [SyncArena.try_insert, SyncArena.try_alloc_next_index, hhd]
      set L := a.items.length with hL
      obtain ⟨hfreeR, hlenR, holdR, hnewR, hheadR, hcountR⟩ :=
        reserve_spec a L hne ⟨_, by exact hfree.choose_spec.1, hfree.choose_spec.2⟩
      obtain ⟨nxt, a2, hrun2, hitems, hgen, hfl, hlen, hmap, hslot, hfree2⟩ :=
        try_insert_success (a.reserve L) fresh v hfreeR L hheadR
      have hLlt : L < (a.reserve L).items.length := by rw [hlenR]; omega
      have hresgen : (a.reserve L).generation = a.generation := rfl
      have hresmap : (a.reserve L).sync_index_map = a.sync_index_map := rfl
      have hreslen : (a.reserve L).len = a.len := rfl
      refine ⟨L, a2, ?_, hfree2, by rw [hgen]; exact hresgen, by rw [hmap]; exact hresmap,
        ?_, ?_, ?_, ?_, ?_, ?_, ?_, ?_⟩
      · simp only [SyncArena.insert_core, hrun1, SyncArena.insert_slow_path, ← hL]
        rw [hrun2, hresgen]
      · rw [hitems, length_setNth]; exact hLlt
      · rw [hitems, hresgen]; exact nth_setNth_self _ _ _ hLlt
      · intro j hj hjlt
        rw [hitems, nth_setNth_ne _ _ _ _ (fun he => hj he.symm)]
        exact holdR j hjlt
      · intro j hj hj1 hj2
        rw [hitems, length_setNth, hlenR] at hj2
        rw [hitems, nth_setNth_ne _ _ _ _ (fun he => hj he.symm)]
        exact hnewR j hj1 (by omega)
      · rw [hitems, length_setNth, hlenR]; omega
      · rw [hlen, hreslen]
      · rw [hitems, countOcc_setNth_free_occ _ _ _ _ _ _ hslot, hcountR]
      · intro g s w hocc
        have := nth_eq_some_lt _ _ _ hocc
        omega

/-- Effect of `SyncArena::insert` with a fresh sync id on a well-formed
arena: it succeeds, stays well-formed, registers the new mapping and leaves
every other sync id resolving as before. -/
theorem insert_spec {V : Type} (a : SyncArena V) (fresh : Nat) (v : V)
    (hwf : ArenaWF a) (hfresh : mapLookup a.sync_index_map fresh = none) :
    ∃ i a3, SyncArena.insert a fresh v = some (⟨i, a.generation, true, fresh⟩, a3) ∧
      ArenaWF a3 ∧
      a3.generation = a.generation ∧
      a3.len = a.len + 1 ∧
      nth a3.items i = some (Entry.occupied a.generation fresh v) ∧
      mapLookup a3.sync_index_map fresh = some (i, a.generation) ∧
      (∀ s, s ≠ fresh → mapLookup a3.sync_index_map s = mapLookup a.sync_index_map s) ∧
      SyncArena.resolve a3 fresh = some v ∧
      (∀ s, s ≠ fresh → SyncArena.resolve a3 s = SyncArena.resolve a s) ∧
      a.items.length ≤ a3.items.length := by
  obtain ⟨i, a2, hrun, hfree2, hgen, hmap, hilt, hslot, hold, hnew, hle, hlen, hcnt, hnotocc⟩ :=
    insert_core_spec a fresh v hwf.free_ok hwf.nonempty
  have hmap3 : ∀ s2, mapLookup (mapInsert a2.sync_index_map fresh (i, a.generation)) s2 =
      mapLookup (mapInsert a.sync_index_map fresh (i, a.generation)) s2 := by
    intro s2; rw [hmap]
  refine ⟨i, { a2 with sync_index_map := mapInsert a2.sync_index_map fresh (i, a.generation) },
    ?_, ?_, hgen, ?_, hslot, ?_, ?_, ?_, ?_, hle⟩
  · simp only [SyncArena.insert, hrun]
  case _ =>
    -- well-formedness of the final arena
    constructor
    · exact hfree2
    · intro s ci cg hb
      rw [hmap3] at hb
      by_cases hs : s = fresh
      · subst hs
        rw [mapLookup_insert_self] at hb
        injection hb with hb2
        have h1 : ci = i := (congrArg Prod.fst hb2).symm
        have h2 : cg = a.generation := (congrArg Prod.snd hb2).symm
        subst h1; subst h2
        exact ⟨v, hslot⟩
      · rw [mapLookup_insert_ne _ _ _ _ (fun he => hs he.symm)] at hb
        obtain ⟨w, hw⟩ := hwf.map_occ s ci cg hb
        have hci : ci ≠ i := by
          intro he; subst he; exact hnotocc _ _ _ hw
        have hlt := nth_eq_some_lt _ _ _ hw
        rw [hold ci hci hlt]
        exact ⟨w, hw⟩
    · intro j g s w hocc
      rw [hmap3 s]
      by_cases hji : j = i
      · subst hji
        rw [hslot] at hocc
        injection hocc with h2
        cases h2
        exact mapLookup_insert_self _ _ _
      · have hjlt : j < a.items.length := by
          by_contra hge
          obtain ⟨n, hn⟩ := hnew j hji (by omega) (nth_eq_some_lt _ _ _ hocc)
          rw [hn] at hocc
          cases hocc
        rw [hold j hji hjlt] at hocc
        have hb := hwf.occ_map j g s w hocc
        have hs : s ≠ fresh := by
          intro he; subst he; rw [hfresh] at hb; cases hb
        rw [mapLookup_insert_ne _ _ _ _ (fun he => hs he.symm)]
        exact hb
    · show (mapKeys (mapInsert a2.sync_index_map fresh (i, a.generation))).Nodup
      rw [hmap]
      exact mapKeys_insert_nodup _ _ _ hwf.keys_nodup
    · show a2.len = countOcc a2.items
      rw [hlen, hcnt, hwf.len_eq]
    · show 1 ≤ a2.items.length
      calc 1 ≤ a.items.length := hwf.nonempty
        _ ≤ _ := hle
  · rw [hlen]
  · show mapLookup (mapInsert a2.sync_index_map fresh (i, a.generation)) fresh = _
    rw [hmap3]; exact mapLookup_insert_self _ _ _
  · intro s hs
    show mapLookup (mapInsert a2.sync_index_map fresh (i, a.generation)) s = _
    rw [hmap3]; exact mapLookup_insert_ne _ _ _ _ (fun he => hs he.symm)
  · show SyncArena.resolve _ fresh = some v
    unfold SyncArena.resolve
    rw [hmap3, mapLookup_insert_self]
    simp [SyncArena.get_slot, hslot]
  · intro s hs
    show SyncArena.resolve _ s = SyncArena.resolve a s
    unfold SyncArena.resolve
    rw [hmap3, mapLookup_insert_ne _ _ _ _ (fun he => hs he.symm)]
    match hb : mapLookup a.sync_index_map s with
    | none => rfl
    | some (ci, cg) =>
        obtain ⟨w, hw⟩ := hwf.map_occ s ci cg hb
        have hci : ci ≠ i := fun he => hnotocc _ _ _ (he ▸ hw)
        have hlt := nth_eq_some_lt _ _ _ hw
        simp only [SyncArena.get_slot, hold ci hci hlt]

/-- Effect of `SyncArena::insert_with_known_sync_id` with a not-yet-present
sync id on a well-formed arena. -/
theorem insert_known_spec {V : Type} (a : SyncArena V) (v : V) (sid : Nat)
    (hwf : ArenaWF a) (hfresh : mapLookup a.sync_index_map sid = none) :
    ∃ i a3, SyncArena.insert_with_known_sync_id a v sid =
        some (⟨i, a.generation, true, sid⟩, a3) ∧
      ArenaWF a3 ∧
      a3.generation = a.generation ∧
      a3.len = a.len + 1 ∧
      nth a3.items i = some (Entry.occupied a.generation sid v) ∧
      mapLookup a3.sync_index_map sid = some (i, a.generation) ∧
      (∀ s, s ≠ sid → mapLookup a3.sync_index_map s = mapLookup a.sync_index_map s) ∧
      SyncArena.resolve a3 sid = some v ∧
      (∀ s, s ≠ sid → SyncArena.resolve a3 s = SyncArena.resolve a s) ∧
      a.items.length ≤ a3.items.length := by
  obtain ⟨i, a2, hrun, hfree2, hgen, hmap, hilt, hslot, hold, hnew, hle, hlen, hcnt, hnotocc⟩ :=
    insert_core_spec a 0 v hwf.free_ok hwf.nonempty
  have hmap3 : ∀ s2, mapLookup (mapInsert a2.sync_index_map sid (i, a.generation)) s2 =
      mapLookup (mapInsert a.sync_index_map sid (i, a.generation)) s2 := by
    intro s2; rw [hmap]
  have hilt2 : i < (setNth a2.items i (Entry.occupied a.generation sid v)).length := by
    rw [length_setNth]; exact hilt
  have hslot2 : nth (setNth a2.items i (Entry.occupied a.generation sid v)) i =
      some (Entry.occupied a.generation sid v) := nth_setNth_self _ _ _ hilt
  refine ⟨i,
    { a2 with items := setNth a2.items i (Entry.occupied a.generation sid v),
              sync_index_map := mapInsert a2.sync_index_map sid (i, a.generation) },
    ?_, ?_, hgen, ?_, hslot2, ?_, ?_, ?_, ?_, ?_⟩
  · simp only [SyncArena.insert_with_known_sync_id, hrun]
    rw [hslot]
  case _ =>
    constructor
    · obtain ⟨fl, hc, hnd, hiff⟩ := hfree2
      refine ⟨fl, ?_, hnd, ?_⟩
      · refine hc.congr (fun j hj => ?_)
        have hji : j ≠ i := by
          intro he
          obtain ⟨n, hn⟩ := hc.mem_free hj
          rw [he, hslot] at hn
          cases hn
        exact nth_setNth_ne _ _ _ _ (Ne.symm hji)
      · intro j hj
        have hj2 : j < a2.items.length := by
          rw [show ({ a2 with items := setNth a2.items i (Entry.occupied a.generation sid v), sync_index_map := mapInsert a2.sync_index_map sid (i, a.generation) } : SyncArena V).items = setNth a2.items i (Entry.occupied a.generation sid v) from rfl, length_setNth] at hj
          exact hj
        by_cases hji : j = i
        · subst hji
          show (∃ n, nth (setNth a2.items j (Entry.occupied a.generation sid v)) j = some (Entry.free n)) ↔ j ∈ fl
          rw [nth_setNth_self _ _ _ hj2]
          constructor
          · rintro ⟨n, hn⟩
            simp at hn
          · intro hm
            obtain ⟨n, hn⟩ := hc.mem_free hm
            rw [hslot] at hn
            cases hn
        · show (∃ n, nth (setNth a2.items i (Entry.occupied a.generation sid v)) j = some (Entry.free n)) ↔ j ∈ fl
          rw [nth_setNth_ne _ _ _ _ (fun he => hji he.symm)]
          exact hiff j hj2
    · intro s ci cg hb
      rw [hmap3] at hb
      by_cases hs : s = sid
      · subst hs
        rw [mapLookup_insert_self] at hb
        injection hb with hb2
        have h1 : ci = i := (congrArg Prod.fst hb2).symm
        have h2 : cg = a.generation := (congrArg Prod.snd hb2).symm
        subst h1; subst h2
        exact ⟨v, hslot2⟩
      · rw [mapLookup_insert_ne _ _ _ _ (fun he => hs he.symm)] at hb
        obtain ⟨w, hw⟩ := hwf.map_occ s ci cg hb
        have hci : ci ≠ i := by
          intro he; subst he; exact hnotocc _ _ _ hw
        have hlt := nth_eq_some_lt _ _ _ hw
        show ∃ v2, nth (setNth a2.items i (Entry.occupied a.generation sid v)) ci = some (Entry.occupied cg s v2)
        rw [nth_setNth_ne _ _ _ _ (Ne.symm hci), hold ci hci hlt]
        exact ⟨w, hw⟩
    · intro j g s w hocc
      rw [hmap3 s]
      replace hocc : nth (setNth a2.items i (Entry.occupied a.generation sid v)) j = some (Entry.occupied g s w) := hocc
      by_cases hji : j = i
      · subst hji
        rw [hslot2] at hocc
        injection hocc with h2
        cases h2
        exact mapLookup_insert_self _ _ _
      · rw [nth_setNth_ne _ _ _ _ (fun he => hji he.symm)] at hocc
        have hjlt : j < a.items.length := by
          by_contra hge
          obtain ⟨n, hn⟩ := hnew j hji (by omega) (nth_eq_some_lt _ _ _ hocc)
          rw [hn] at hocc
          cases hocc
        rw [hold j hji hjlt] at hocc
        have hb := hwf.occ_map j g s w hocc
        have hs : s ≠ sid := by
          intro he; subst he; rw [hfresh] at hb; cases hb
        rw [mapLookup_insert_ne _ _ _ _ (fun he => hs he.symm)]
        exact hb
    · show (mapKeys (mapInsert a2.sync_index_map sid (i, a.generation))).Nodup
      rw [hmap]
      exact mapKeys_insert_nodup _ _ _ hwf.keys_nodup
    · show a2.len = countOcc (setNth a2.items i (Entry.occupied a.generation sid v))
      rw [countOcc_setNth_occ_occ _ _ _ _ _ _ _ _ hslot, hlen, hcnt, hwf.len_eq]
    · show 1 ≤ (setNth a2.items i (Entry.occupied a.generation sid v)).length
      rw [length_setNth]
      calc 1 ≤ a.items.length := hwf.nonempty
        _ ≤ _ := hle
  · rw [hlen]
  · show mapLookup (mapInsert a2.sync_index_map sid (i, a.generation)) sid = _
    rw [hmap3]; exact mapLookup_insert_self _ _ _
  · intro s hs
    show mapLookup (mapInsert a2.sync_index_map sid (i, a.generation)) s = _
    rw [hmap3]; exact mapLookup_insert_ne _ _ _ _ (fun he => hs he.symm)
  · show SyncArena.resolve _ sid = some v
    unfold SyncArena.resolve
    rw [hmap3, mapLookup_insert_self]
    simp [SyncArena.get_slot, hslot2]
  · intro s hs
    show SyncArena.resolve _ s = SyncArena.resolve a s
    unfold SyncArena.resolve
    rw [hmap3, mapLookup_insert_ne _ _ _ _ (fun he => hs he.symm)]
    match hb : mapLookup a.sync_index_map s with
    | none => rfl
    | some (ci, cg) =>
        obtain ⟨w, hw⟩ := hwf.map_occ s ci cg hb
        have hci : ci ≠ i := fun he => hnotocc _ _ _ (he ▸ hw)
        have hlt := nth_eq_some_lt _ _ _ hw
        simp only [SyncArena.get_slot, nth_setNth_ne _ _ _ _ (Ne.symm hci), hold ci hci hlt]
  · show a.items.length ≤ (setNth a2.items i (Entry.occupied a.generation sid v)).length
    rw [length_setNth]
    exact hle

/-- Effect of `SyncArena::remove` on a well-formed arena: `None` (arena
untouched) on out-of-bounds index, free slot or generation mismatch; on a
matching occupied slot the stored value is returned, the slot is freed onto
the free list (becoming the new head), the arena-wide generation is bumped,
`len` drops and the `sync_index_map` entry of the slot sync id is deleted.
Removing the same handle again is then a tolerated no-op. -/
theorem remove_spec {V : Type} (a : SyncArena V) (i : Index) (hwf : ArenaWF a) :
    (a.items.length ≤ i.index → SyncArena.remove a i = some (none, a)) ∧
    (∀ n, nth a.items i.index = some (Entry.free n) → SyncArena.remove a i = some (none, a)) ∧
    (∀ g s v, nth a.items i.index = some (Entry.occupied g s v) → i.generation ≠ g →
        SyncArena.remove a i = some (none, a)) ∧
    (∀ g s v, nth a.items i.index = some (Entry.occupied g s v) → i.generation = g →
      ∃ a2, SyncArena.remove a i = some (some v, a2) ∧
        ArenaWF a2 ∧
        a2.generation = a.generation + 1 ∧
        a2.free_list_head = some i.index ∧
        nth a2.items i.index = some (Entry.free a.free_list_head) ∧
        (∀ j, j ≠ i.index → nth a2.items j = nth a.items j) ∧
        a2.len = a.len - 1 ∧
        a.len = a2.len + 1 ∧
        mapLookup a2.sync_index_map s = none ∧
        (∀ s2, s2 ≠ s → mapLookup a2.sync_index_map s2 = mapLookup a.sync_index_map s2) ∧
        SyncArena.resolve a2 s = none ∧
        (∀ s2, s2 ≠ s → SyncArena.resolve a2 s2 = SyncArena.resolve a s2) ∧
        a2.items.length = a.items.length ∧
        SyncArena.remove a2 i = some (none, a2)) := by
  refine ⟨?_, ?_, ?_, ?_⟩
  · intro h
    simp [SyncArena.remove, if_pos h]
  · intro n hslot
    have hlt := nth_eq_some_lt _ _ _ hslot
    simp [SyncArena.remove, if_neg (by omega : ¬ a.items.length ≤ i.index), hslot]
  · intro g s v hslot hne
    have hlt := nth_eq_some_lt _ _ _ hslot
    simp [SyncArena.remove, if_neg (by omega : ¬ a.items.length ≤ i.index), hslot, hne]
  · intro g s v hslot hgeq
    have hlt := nth_eq_some_lt _ _ _ hslot
    have hbind : mapLookup a.sync_index_map s = some (i.index, g) :=
      hwf.occ_map i.index g s v hslot
    have hrun : SyncArena.remove a i = some (some v,
        { items := setNth a.items i.index (Entry.free a.free_list_head)
          generation := a.generation + 1
          free_list_head := some i.index
          len := a.len - 1
          sync_index_map := mapErase a.sync_index_map s }) := by
      simp [SyncArena.remove, if_neg (by omega : ¬ a.items.length ≤ i.index), hslot,
        hgeq, hbind]
    set a2 : SyncArena V :=
      { items := setNth a.items i.index (Entry.free a.free_list_head)
        generation := a.generation + 1
        free_list_head := some i.index
        len := a.len - 1
        sync_index_map := mapErase a.sync_index_map s } with ha2
    have hlen2 : a2.items.length = a.items.length := length_setNth _ _ _
    have hcntfact : countOcc a.items =
        countOcc (setNth a.items i.index (Entry.free a.free_list_head)) + 1 :=
      countOcc_setNth_occ_free a.items i.index a.free_list_head g s v hslot
    have hslot2 : nth a2.items i.index = some (Entry.free a.free_list_head) :=
      nth_setNth_self _ _ _ hlt
    have hother : ∀ j, j ≠ i.index → nth a2.items j = nth a.items j := by
      intro j hj
      exact nth_setNth_ne _ _ _ _ (Ne.symm hj)
    have hmapci : ∀ s2 ci cg, s2 ≠ s → mapLookup a.sync_index_map s2 = some (ci, cg) →
        ci ≠ i.index := by
      intro s2 ci cg hs2 hb he
      obtain ⟨w, hw⟩ := hwf.map_occ s2 ci cg hb
      rw [he, hslot] at hw
      injection hw with hw2
      cases hw2
      exact hs2 rfl
    have hlenpos : 1 ≤ a.len := by
      rw [hwf.len_eq]
      omega
    have hmapkeep : ∀ s2, s2 ≠ s →
        mapLookup a2.sync_index_map s2 = mapLookup a.sync_index_map s2 := by
      intro s2 hs2
      exact mapLookup_erase_ne _ _ _ (fun he => hs2 he.symm)
    have hmapgone : mapLookup a2.sync_index_map s = none :=
      mapLookup_erase_self _ _ hwf.keys_nodup
    refine ⟨a2, hrun, ?_, rfl, rfl, hslot2, hother, rfl,
      (by show a.len = (a.len - 1) + 1; omega), hmapgone, hmapkeep,
      ?_, ?_, hlen2, ?_⟩
    · constructor
      · obtain ⟨fl, hc, hnd, hiff⟩ := hwf.free_ok
        have hnotin : i.index ∉ fl := by
          intro hmem
          obtain ⟨n, hn⟩ := hc.mem_free hmem
          rw [hslot] at hn
          cases hn
        refine ⟨i.index :: fl, ⟨rfl, a.free_list_head, hslot2, ?_⟩, ?_, ?_⟩
        · exact hc.congr (fun j hj => hother j (fun he => hnotin (he ▸ hj)))
        · exact List.nodup_cons.2 ⟨hnotin, hnd⟩
        · intro j hj
          rw [hlen2] at hj
          by_cases hji : j = i.index
          · subst hji
            rw [hslot2]
            simp
          · rw [hother j hji]
            rw [hiff j hj]
            simp [List.mem_cons, hji]
      · intro s2 ci cg hb
        have hs2 : s2 ≠ s := by
          intro he
          rw [he, hmapgone] at hb
          cases hb
        rw [hmapkeep s2 hs2] at hb
        obtain ⟨w, hw⟩ := hwf.map_occ s2 ci cg hb
        rw [hother ci (hmapci s2 ci cg hs2 hb)]
        exact ⟨w, hw⟩
      · intro j g2 s2 w hocc
        have hji : j ≠ i.index := by
          intro he
          rw [he, hslot2] at hocc
          cases hocc
        rw [hother j hji] at hocc
        have hb := hwf.occ_map j g2 s2 w hocc
        have hs2 : s2 ≠ s := by
          intro he
          subst he
          rw [hbind] at hb
          injection hb with hb2
          exact hji (congrArg Prod.fst hb2).symm
        rw [hmapkeep s2 hs2]
        exact hb
      · exact mapKeys_erase_nodup _ _ hwf.keys_nodup
      · show a.len - 1 = countOcc (setNth a.items i.index (Entry.free a.free_list_head))
        have hle := hwf.len_eq
        omega
      · show 1 ≤ a2.items.length
        rw [hlen2]
        exact hwf.nonempty
    · show SyncArena.resolve a2 s = none
      unfold SyncArena.resolve
      rw [hmapgone]
    · intro s2 hs2
      show SyncArena.resolve a2 s2 = SyncArena.resolve a s2
      unfold SyncArena.resolve
      rw [hmapkeep s2 hs2]
      match hb : mapLookup a.sync_index_map s2 with
      | none => rfl
      | some (ci, cg) =>
          simp only [SyncArena.get_slot, hother ci (hmapci s2 ci cg hs2 hb)]
    · show SyncArena.remove a2 i = some (none, a2)
      have hlt2 : ¬ a2.items.length ≤ i.index := by rw [hlen2]; omega
      simp [SyncArena.remove, if_neg hlt2, hslot2]

/-- A freshly constructed arena (`with_capacity`) is well-formed. -/
theorem with_capacity_wf {V : Type} (n : Nat) : ArenaWF (SyncArena.with_capacity V n) := by
  have hbase : FreeOk ({ items := [], generation := 0, free_list_head := none, len := 0, sync_index_map := [] } : SyncArena V) := by
    refine ⟨[], rfl, List.nodup_nil, ?_⟩
    intro i hi
    simp at hi
  obtain ⟨hfree, hlen, hold, hnew, hhead, hcnt⟩ :=
    reserve_spec ({ items := [], generation := 0, free_list_head := none, len := 0, sync_index_map := [] } : SyncArena V) (max n 1) (by omega) hbase
  have hlen0 : ({ items := [], generation := 0, free_list_head := none, len := 0, sync_index_map := [] } : SyncArena V).items.length = 0 := rfl
  rw [hlen0] at hlen hnew
  constructor
  · exact hfree
  · intro s ci cg hb
    cases hb
  · intro j g s v hocc
    have hocc2 : nth (({ items := [], generation := 0, free_list_head := none, len := 0, sync_index_map := [] } : SyncArena V).reserve (max n 1)).items j = some (Entry.occupied g s v) := hocc
    have hlt2 := nth_eq_some_lt _ _ _ hocc2
    rw [hlen] at hlt2
    obtain ⟨m, hm⟩ := hnew j (by omega) (by omega)
    rw [hm] at hocc2
    cases hocc2
  · exact List.nodup_nil
  · show 0 = countOcc (({ items := [], generation := 0, free_list_head := none, len := 0, sync_index_map := [] } : SyncArena V).reserve (max n 1)).items
    rw [hcnt]
    rfl
  · show 1 ≤ (({ items := [], generation := 0, free_list_head := none, len := 0, sync_index_map := [] } : SyncArena V).reserve (max n 1)).items.length
    rw [hlen]
    omega

/-- `SyncArena::new` produces a well-formed arena. -/
theorem new_wf {V : Type} : ArenaWF (SyncArena.new V) := with_capacity_wf 4

/-- `remove` preserves well-formedness whenever it does not panic. -/
theorem remove_wf {V : Type} {a : SyncArena V} {i : Index} {r : Option V}
    {a2 : SyncArena V} (hwf : ArenaWF a)
    (hrun : SyncArena.remove a i = some (r, a2)) : ArenaWF a2 := by
  obtain ⟨hoob, hfree, hmis, hsucc⟩ := remove_spec a i hwf
  by_cases hb : a.items.length ≤ i.index
  · rw [hoob hb] at hrun
    injection hrun with h2
    injection h2 with h3 h4
    rw [← h4]
    exact hwf
  · match hslot : nth a.items i.index with
    | none =>
        have := nth_lt_isSome a.items i.index (by omega)
        rw [hslot] at this
        cases this
    | some (Entry.free n) =>
        rw [hfree n hslot] at hrun
        injection hrun with h2
        injection h2 with h3 h4
        rw [← h4]
        exact hwf
    | some (Entry.occupied g s v) =>
        by_cases hgen : i.generation = g
        · obtain ⟨a3, hrun2, hwf3, _⟩ := hsucc g s v hslot hgen
          rw [hrun2] at hrun
          injection hrun with h2
          injection h2 with h3 h4
          rw [← h4]
          exact hwf3
        · rw [hmis g s v hslot hgen] at hrun
          injection hrun with h2
          injection h2 with h3 h4
          rw [← h4]
          exact hwf

/-- Overwriting the value of an occupied slot in place (the existing-key
branch of `apply`) keeps the arena well-formed, rebinds only the touched sync
id and leaves every other sync id resolving as before. -/
theorem update_value_spec {V : Type} (a : SyncArena V) (ci g s : Nat) (v w : V)
    (hwf : ArenaWF a) (hslot : nth a.items ci = some (Entry.occupied g s v)) :
    ArenaWF { a with items := setNth a.items ci (Entry.occupied g s w) } ∧
    SyncArena.resolve { a with items := setNth a.items ci (Entry.occupied g s w) } s = some w ∧
    (∀ s2, s2 ≠ s → SyncArena.resolve { a with items := setNth a.items ci (Entry.occupied g s w) } s2 = SyncArena.resolve a s2) := by
  have hlt := nth_eq_some_lt _ _ _ hslot
  have hbind : mapLookup a.sync_index_map s = some (ci, g) := hwf.occ_map ci g s v hslot
  have hslot2 : nth (setNth a.items ci (Entry.occupied g s w)) ci =
      some (Entry.occupied g s w) := nth_setNth_self _ _ _ hlt
  have hother : ∀ j, j ≠ ci → nth (setNth a.items ci (Entry.occupied g s w)) j = nth a.items j :=
    fun j hj => nth_setNth_ne _ _ _ _ (Ne.symm hj)
  have hmapci : ∀ s2 ci2 cg2, s2 ≠ s → mapLookup a.sync_index_map s2 = some (ci2, cg2) →
      ci2 ≠ ci := by
    intro s2 ci2 cg2 hs2 hb he
    obtain ⟨w2, hw2⟩ := hwf.map_occ s2 ci2 cg2 hb
    rw [he, hslot] at hw2
    injection hw2 with hw3
    cases hw3
    exact hs2 rfl
  refine ⟨?_, ?_, ?_⟩
  · constructor
    · obtain ⟨fl, hc, hnd, hiff⟩ := hwf.free_ok
      refine ⟨fl, ?_, hnd, ?_⟩
      · refine hc.congr (fun j hj => hother j ?_)
        intro he
        obtain ⟨m, hm⟩ := hc.mem_free hj
        rw [he, hslot] at hm
        cases hm
      · intro j hj
        have hj2 : j < a.items.length := by
          have : (setNth a.items ci (Entry.occupied g s w)).length = a.items.length :=
            length_setNth _ _ _
          show j < a.items.length
          rw [← this]
          exact hj
        by_cases hji : j = ci
        · subst hji
          show (∃ m, nth (setNth a.items j (Entry.occupied g s w)) j = some (Entry.free m)) ↔ j ∈ fl
          rw [nth_setNth_self _ _ _ hj2]
          rw [← hiff j hj2, hslot]
          constructor
          · rintro ⟨m, hm⟩; cases hm
          · rintro ⟨m, hm⟩; cases hm
        · show (∃ m, nth (setNth a.items ci (Entry.occupied g s w)) j = some (Entry.free m)) ↔ j ∈ fl
          rw [hother j hji]
          exact hiff j hj2
    · intro s2 ci2 cg2 hb
      by_cases hs2 : s2 = s
      · subst hs2
        rw [hbind] at hb
        injection hb with hb2
        have h1 : ci2 = ci := (congrArg Prod.fst hb2).symm
        have h2 : cg2 = g := (congrArg Prod.snd hb2).symm
        subst h1; subst h2
        exact ⟨w, hslot2⟩
      · obtain ⟨w2, hw2⟩ := hwf.map_occ s2 ci2 cg2 hb
        rw [show ({ a with items := setNth a.items ci (Entry.occupied g s w) } : SyncArena V).items = setNth a.items ci (Entry.occupied g s w) from rfl, hother ci2 (hmapci s2 ci2 cg2 hs2 hb)]
        exact ⟨w2, hw2⟩
    · intro j g2 s2 w2 hocc
      replace hocc : nth (setNth a.items ci (Entry.occupied g s w)) j = some (Entry.occupied g2 s2 w2) := hocc
      by_cases hji : j = ci
      · subst hji
        rw [hslot2] at hocc
        injection hocc with h2
        cases h2
        exact hbind
      · rw [hother j hji] at hocc
        exact hwf.occ_map j g2 s2 w2 hocc
    · exact hwf.keys_nodup
    · show a.len = countOcc (setNth a.items ci (Entry.occupied g s w))
      rw [countOcc_setNth_occ_occ _ _ _ _ _ _ _ _ hslot]
      exact hwf.len_eq
    · show 1 ≤ (setNth a.items ci (Entry.occupied g s w)).length
      rw [length_setNth]
      exact hwf.nonempty
  · unfold SyncArena.resolve
    rw [show ({ a with items := setNth a.items ci (Entry.occupied g s w) } : SyncArena V).sync_index_map = a.sync_index_map from rfl, hbind]
    simp [SyncArena.get_slot, hslot2]
  · intro s2 hs2
    unfold SyncArena.resolve
    rw [show ({ a with items := setNth a.items ci (Entry.occupied g s w) } : SyncArena V).sync_index_map = a.sync_index_map from rfl]
    match hb : mapLookup a.sync_index_map s2 with
    | none => rfl
    | some (ci2, cg2) =>
        simp only [SyncArena.get_slot, hother ci2 (hmapci s2 ci2 cg2 hs2 hb)]

/-- Every reachable arena is well-formed. -/
theorem reachable_wf {V : Type} {a : SyncArena V} (h : Reachable a) : ArenaWF a := by
  induction h with
  | base => exact new_wf
  | insert_step hr hfresh hrun ih =>
      rename_i a0 fresh v idx a2
      obtain ⟨i, a3, hrun2, hwf3, _⟩ := insert_spec a0 fresh v ih hfresh
      rw [hrun] at hrun2
      injection hrun2 with h2
      injection h2 with h3 h4
      rw [h4]
      exact hwf3
  | insert_known_step hr hfresh hrun ih =>
      rename_i a0 v sid idx a2
      obtain ⟨i, a3, hrun2, hwf3, _⟩ := insert_known_spec a0 v sid ih hfresh
      rw [hrun] at hrun2
      injection hrun2 with h2
      injection h2 with h3 h4
      rw [h4]
      exact hwf3
  | remove_step hr hrun ih =>
      exact remove_wf ih hrun

theorem apply_removed_nil {V : Type} (a : SyncArena V) :
    SyncArena.apply_removed a [] = some a := rfl

theorem apply_removed_cons_panic {V : Type} (a : SyncArena V) (sid : Nat)
    (rest : List Nat) (hl : mapLookup a.sync_index_map sid = none) :
    SyncArena.apply_removed a (sid :: rest) = none := by
  unfold SyncArena.apply_removed
  simp only [hl]

theorem apply_removed_cons_panic2 {V : Type} (a : SyncArena V) (sid ci cg : Nat)
    (rest : List Nat) (hl : mapLookup a.sync_index_map sid = some (ci, cg))
    (hr : SyncArena.remove a (Index.from_raw_parts ci cg sid) = none) :
    SyncArena.apply_removed a (sid :: rest) = none := by
  unfold SyncArena.apply_removed
  simp only [hl, hr]

theorem apply_removed_cons_step {V : Type} (a : SyncArena V) (sid ci cg : Nat)
    (rest : List Nat) (r2 : Option V) (a3 : SyncArena V)
    (hl : mapLookup a.sync_index_map sid = some (ci, cg))
    (hr : SyncArena.remove a (Index.from_raw_parts ci cg sid) = some (r2, a3)) :
    SyncArena.apply_removed a (sid :: rest) = SyncArena.apply_removed a3 rest := by
  conv_lhs => unfold SyncArena.apply_removed
  simp only [hl, hr]

theorem apply_altered_nil {V R : Type} (ops : DiffOps V R) (a : SyncArena V) :
    SyncArena.apply_altered ops a [] = some a := rfl

theorem apply_altered_cons_upd {V R : Type} (ops : DiffOps V R) (a : SyncArena V)
    (sid ci cg g s : Nat) (v : V) (rd : R) (rest : List (Nat × R))
    (hl : mapLookup a.sync_index_map sid = some (ci, cg))
    (hn : nth a.items ci = some (Entry.occupied g s v)) (hg : g = cg) :
    SyncArena.apply_altered ops a ((sid, rd) :: rest) =
      SyncArena.apply_altered ops
        { a with items := setNth a.items ci (Entry.occupied g s (ops.applyFn v rd)) } rest := by
  conv_lhs => unfold SyncArena.apply_altered
  simp only [hl, hn, if_pos hg]

theorem apply_altered_cons_upd_panic {V R : Type} (ops : DiffOps V R) (a : SyncArena V)
    (sid ci cg g s : Nat) (v : V) (rd : R) (rest : List (Nat × R))
    (hl : mapLookup a.sync_index_map sid = some (ci, cg))
    (hn : nth a.items ci = some (Entry.occupied g s v)) (hg : ¬ g = cg) :
    SyncArena.apply_altered ops a ((sid, rd) :: rest) = none := by
  unfold SyncArena.apply_altered
  simp only [hl, hn, if_neg hg]

theorem apply_altered_cons_upd_panic_free {V R : Type} (ops : DiffOps V R) (a : SyncArena V)
    (sid ci cg : Nat) (n : Option Nat) (rd : R) (rest : List (Nat × R))
    (hl : mapLookup a.sync_index_map sid = some (ci, cg))
    (hn : nth a.items ci = some (Entry.free n)) :
    SyncArena.apply_altered ops a ((sid, rd) :: rest) = none := by
  unfold SyncArena.apply_altered
  simp only [hl, hn]

theorem apply_altered_cons_upd_panic_oob {V R : Type} (ops : DiffOps V R) (a : SyncArena V)
    (sid ci cg : Nat) (rd : R) (rest : List (Nat × R))
    (hl : mapLookup a.sync_index_map sid = some (ci, cg))
    (hn : nth a.items ci = none) :
    SyncArena.apply_altered ops a ((sid, rd) :: rest) = none := by
  unfold SyncArena.apply_altered
  simp only [hl, hn]

theorem apply_altered_cons_new {V R : Type} (ops : DiffOps V R) (a : SyncArena V)
    (sid : Nat) (rd : R) (rest : List (Nat × R)) (idx : Index) (a3 : SyncArena V)
    (hl : mapLookup a.sync_index_map sid = none)
    (hins : SyncArena.insert_with_known_sync_id a (ops.applyFn ops.identityFn rd) sid =
      some (idx, a3)) :
    SyncArena.apply_altered ops a ((sid, rd) :: rest) =
      SyncArena.apply_altered ops a3 rest := by
  conv_lhs => unfold SyncArena.apply_altered
  simp only [hl, hins]

theorem apply_altered_cons_new_panic {V R : Type} (ops : DiffOps V R) (a : SyncArena V)
    (sid : Nat) (rd : R) (rest : List (Nat × R))
    (hl : mapLookup a.sync_index_map sid = none)
    (hins : SyncArena.insert_with_known_sync_id a (ops.applyFn ops.identityFn rd) sid = none) :
    SyncArena.apply_altered ops a ((sid, rd) :: rest) = none := by
  unfold SyncArena.apply_altered
  simp only [hl, hins]

theorem try_alloc_gen {V : Type} {a : SyncArena V} {fresh : Nat} {r : Option Index}
    {a2 : SyncArena V} (h : SyncArena.try_alloc_next_index a fresh = some (r, a2)) :
    a2.generation = a.generation := by
  unfold SyncArena.try_alloc_next_index at h
  split at h
  · injection h with h2
    injection h2 with h3 h4
    rw [← h4]
  · split at h
    · simp at h
    · injection h with h2
      injection h2 with h3 h4
      rw [← h4]
    · simp at h

theorem try_insert_gen {V : Type} {a : SyncArena V} {fresh : Nat} {v : V}
    {r : Option Index} {a2 : SyncArena V}
    (h : SyncArena.try_insert a fresh v = some (r, a2)) :
    a2.generation = a.generation := by
  unfold SyncArena.try_insert at h
  match hta : SyncArena.try_alloc_next_index a fresh with
  | none => rw [hta] at h; cases h
  | some (none, a3) =>
      rw [hta] at h
      injection h with h2
      injection h2 with h3 h4
      rw [← h4]
      exact try_alloc_gen hta
  | some (some idx, a3) =>
      rw [hta] at h
      injection h with h2
      injection h2 with h3 h4
      rw [← h4]
      show a3.generation = a.generation
      exact try_alloc_gen hta

theorem reserve_gen {V : Type} (a : SyncArena V) (cnt : Nat) :
    (a.reserve cnt).generation = a.generation := rfl

theorem insert_slow_path_gen {V : Type} {a : SyncArena V} {fresh : Nat} {v : V}
    {idx : Index} {a2 : SyncArena V}
    (h : SyncArena.insert_slow_path a fresh v = some (idx, a2)) :
    a2.generation = a.generation := by
  unfold SyncArena.insert_slow_path at h
  match hti : SyncArena.try_insert (a.reserve a.items.length) fresh v with
  | none => rw [hti] at h; cases h
  | some (none, a3) => rw [hti] at h; cases h
  | some (some idx2, a3) =>
      rw [hti] at h
      injection h with h2
      injection h2 with h3 h4
      rw [← h4]
      have h6 := try_insert_gen hti
      exact h6

theorem insert_core_gen {V : Type} {a : SyncArena V} {fresh : Nat} {v : V}
    {idx : Index} {a2 : SyncArena V}
    (h : SyncArena.insert_core a fresh v = some (idx, a2)) :
    a2.generation = a.generation := by
  unfold SyncArena.insert_core at h
  match hti : SyncArena.try_insert a fresh v with
  | none => rw [hti] at h; cases h
  | some (none, a3) =>
      rw [hti] at h
      have h5 := insert_slow_path_gen h
      rw [h5]
      exact try_insert_gen hti
  | some (some idx2, a3) =>
      rw [hti] at h
      injection h with h2
      injection h2 with h3 h4
      rw [← h4]
      show a3.generation = a.generation
      exact try_insert_gen hti

theorem insert_gen {V : Type} {a : SyncArena V} {fresh : Nat} {v : V}
    {idx : Index} {a2 : SyncArena V}
    (h : SyncArena.insert a fresh v = some (idx, a2)) :
    a2.generation = a.generation := by
  unfold SyncArena.insert at h
  match hic : SyncArena.insert_core a fresh v with
  | none => rw [hic] at h; cases h
  | some (idx2, a3) =>
      rw [hic] at h
      injection h with h2
      injection h2 with h3 h4
      rw [← h4]
      show a3.generation = a.generation
      exact insert_core_gen hic

theorem insert_known_gen {V : Type} {a : SyncArena V} {v : V} {sid : Nat}
    {idx : Index} {a2 : SyncArena V}
    (h : SyncArena.insert_with_known_sync_id a v sid = some (idx, a2)) :
    a2.generation = a.generation := by
  unfold SyncArena.insert_with_known_sync_id at h
  match hic : SyncArena.insert_core a 0 v with
  | none => rw [hic] at h; cases h
  | some (idx2, a3) =>
      rw [hic] at h
      injection h with h2
      injection h2 with h3 h4
      rw [← h4]
      show a3.generation = a.generation
      exact insert_core_gen hic

/-- `remove` either fails (stale handle: arena untouched, `None` returned) or
succeeds and bumps the arena generation by exactly one. No well-formedness is
needed: this holds for every arena state. -/
theorem remove_gen_cases {V : Type} {a : SyncArena V} {i : Index} {r : Option V}
    {a2 : SyncArena V} (h : SyncArena.remove a i = some (r, a2)) :
    (r = none ∧ a2 = a) ∨ (∃ v, r = some v ∧ a2.generation = a.generation + 1) := by
  unfold SyncArena.remove at h
  split at h
  · injection h with h2
    injection h2 with h3 h4
    exact Or.inl ⟨h3.symm, h4.symm⟩
  · split at h
    · split at h
      · split at h
        · injection h with h2
          injection h2 with h3 h4
          refine Or.inr ⟨_, h3.symm, ?_⟩
          rw [← h4]
        · cases h
      · injection h with h2
        injection h2 with h3 h4
        exact Or.inl ⟨h3.symm, h4.symm⟩
    · injection h with h2
      injection h2 with h3 h4
      exact Or.inl ⟨h3.symm, h4.symm⟩

theorem remove_gen_le {V : Type} {a : SyncArena V} {i : Index} {r : Option V}
    {a2 : SyncArena V} (h : SyncArena.remove a i = some (r, a2)) :
    a.generation ≤ a2.generation := by
  rcases remove_gen_cases h with ⟨_, he⟩ | ⟨v, _, he⟩
  · rw [he]
  · rw [he]; omega

theorem apply_removed_gen {V : Type} {a : SyncArena V} {rem : List Nat}
    {a2 : SyncArena V} (h : SyncArena.apply_removed a rem = some a2) :
    a.generation ≤ a2.generation := by
  induction rem generalizing a with
  | nil =>
      rw [apply_removed_nil] at h
      injection h with h2
      rw [h2]
  | cons sid rest ih =>
      match hl : mapLookup a.sync_index_map sid with
      | none =>
          rw [apply_removed_cons_panic a sid rest hl] at h
          cases h
      | some (ci, cg) =>
          match hr : SyncArena.remove a (Index.from_raw_parts ci cg sid) with
          | none =>
              rw [apply_removed_cons_panic2 a sid ci cg rest hl hr] at h
              cases h
          | some (r2, a3) =>
              rw [apply_removed_cons_step a sid ci cg rest r2 a3 hl hr] at h
              calc a.generation ≤ a3.generation := remove_gen_le hr
                _ ≤ a2.generation := ih h

theorem apply_altered_gen {V R : Type} {ops : DiffOps V R} {a : SyncArena V}
    {alt : List (Nat × R)} {a2 : SyncArena V}
    (h : SyncArena.apply_altered ops a alt = some a2) :
    a.generation ≤ a2.generation := by
  induction alt generalizing a with
  | nil =>
      rw [apply_altered_nil] at h
      injection h with h2
      rw [h2]
  | cons p rest ih =>
      obtain ⟨sid, rd⟩ := p
      match hl : mapLookup a.sync_index_map sid with
      | some (ci, cg) =>
          match hn : nth a.items ci with
          | some (Entry.occupied g s v) =>
              by_cases hg : g = cg
              · rw [apply_altered_cons_upd ops a sid ci cg g s v rd rest hl hn hg] at h
                have := ih h
                simpa using this
              · rw [apply_altered_cons_upd_panic ops a sid ci cg g s v rd rest hl hn hg] at h
                cases h
          | some (Entry.free n) =>
              rw [apply_altered_cons_upd_panic_free ops a sid ci cg n rd rest hl hn] at h
              cases h
          | none =>
              rw [apply_altered_cons_upd_panic_oob ops a sid ci cg rd rest hl hn] at h
              cases h
      | none =>
          match hins : SyncArena.insert_with_known_sync_id a (ops.applyFn ops.identityFn rd) sid with
          | none =>
              rw [apply_altered_cons_new_panic ops a sid rd rest hl hins] at h
              cases h
          | some (idx, a3) =>
              rw [apply_altered_cons_new ops a sid rd rest idx a3 hl hins] at h
              have h5 := insert_known_gen hins
              have := ih h
              omega

theorem apply_gen {V R : Type} {ops : DiffOps V R} {a : SyncArena V}
    {d : SyncArenaDiff R} {a2 : SyncArena V}
    (h : SyncArena.apply ops a d = some a2) :
    a.generation ≤ a2.generation := by
  unfold SyncArena.apply at h
  match hr : SyncArena.apply_removed a d.removed with
  | none => rw [hr] at h; cases h
  | some a3 =>
      rw [hr] at h
      calc a.generation ≤ a3.generation := apply_removed_gen hr
        _ ≤ a2.generation := apply_altered_gen h

theorem get_synced {V : Type} (a : SyncArena V) (i : Index) (h : i.synced = true) :
    SyncArena.get a i = some (SyncArena.get_slot a i.index i.generation, i) := by
  unfold SyncArena.get
  rw [h]
  simp

theorem get_unsynced_known {V : Type} (a : SyncArena V) (i : Index) (li lg : Nat)
    (hs : i.synced = false) (hl : mapLookup a.sync_index_map i.sync_id = some (li, lg)) :
    SyncArena.get a i = some (SyncArena.get_slot a li lg,
      { i with index := li, generation := lg, synced := true }) := by
  unfold SyncArena.get
  rw [hs]
  simp [hl]

theorem get_unsynced_unknown {V : Type} (a : SyncArena V) (i : Index)
    (hs : i.synced = false) (hl : mapLookup a.sync_index_map i.sync_id = none) :
    SyncArena.get a i = none := by
  unfold SyncArena.get
  rw [hs]
  simp [hl]

theorem get_slot_none_iff {V : Type} (a : SyncArena V) (idx g : Nat) :
    SyncArena.get_slot a idx g = none ↔
      (∀ g2 s v, nth a.items idx = some (Entry.occupied g2 s v) → g2 ≠ g) := by
  unfold SyncArena.get_slot
  match hn : nth a.items idx with
  | none =>
      simp
  | some (Entry.free n) =>
      simp
  | some (Entry.occupied g2 s v) =>
      by_cases hg : g2 = g
      · simp [hg]
      · simp [hg]

theorem arenaRun_gen {V R : Type} (ops : DiffOps V R) :
    ∀ (l : List (ArenaOp V R)) (a a2 : SyncArena V),
    arenaRun ops a l = some a2 → a.generation ≤ a2.generation := by
  intro l
  induction l with
  | nil =>
      intro a a2 h
      injection h with h2
      rw [h2]
  | cons op rest ih =>
      intro a a2 h
      unfold arenaRun at h
      match hstep : arenaStep ops a op with
      | none => rw [hstep] at h; cases h
      | some a3 =>
          rw [hstep] at h
          have h2 : a.generation ≤ a3.generation := by
            cases op with
            | insert fresh v =>
                simp only [arenaStep, Option.map_eq_some'] at hstep
                obtain ⟨⟨idx, a4⟩, hrun, he⟩ := hstep
                rw [← he]
                exact Nat.le_of_eq (insert_gen hrun).symm
            | insert_known v sid =>
                simp only [arenaStep, Option.map_eq_some'] at hstep
                obtain ⟨⟨idx, a4⟩, hrun, he⟩ := hstep
                rw [← he]
                exact Nat.le_of_eq (insert_known_gen hrun).symm
            | remove i =>
                simp only [arenaStep, Option.map_eq_some'] at hstep
                obtain ⟨⟨r, a4⟩, hrun, he⟩ := hstep
                rw [← he]
                exact remove_gen_le hrun
            | apply d =>
                exact apply_gen hstep
            | get i =>
                simp only [arenaStep, Option.map_eq_some'] at hstep
                obtain ⟨p, hrun, he⟩ := hstep
                rw [← he]
            | iterate =>
                simp only [arenaStep] at hstep
                injection hstep with h3
                rw [← h3]
          exact Nat.le_trans h2 (ih a3 a2 h)

theorem mem_mapInsert {β : Type} {m : List (Nat × β)} {k : Nat} {v : β} {p : Nat × β}
    (h : p ∈ mapInsert m k v) : p ∈ m ∨ p = (k, v) := by
  induction m with
  | nil => simpa [mapInsert] using h
  | cons q rest ih =>
      obtain ⟨k2, v2⟩ := q
      by_cases h2 : k2 = k
      · subst h2
        simp only [mapInsert, if_pos rfl] at h
        rcases List.mem_cons.1 h with he | hm
        · exact Or.inr he
        · exact Or.inl (List.mem_cons_of_mem _ hm)
      · simp only [mapInsert, if_neg h2] at h
        rcases List.mem_cons.1 h with he | hm
        · exact Or.inl (by simp [he])
        · rcases ih hm with h3 | h3
          · exact Or.inl (List.mem_cons_of_mem _ h3)
          · exact Or.inr h3

theorem mem_keys_mapInsert_self {β : Type} (m : List (Nat × β)) (k : Nat) (v : β) :
    k ∈ mapKeys (mapInsert m k v) := by
  rw [mapKeys_insert]
  by_cases h : k ∈ mapKeys m <;> simp [h]

theorem mem_keys_mapInsert_of_mem {β : Type} {m : List (Nat × β)} {j : Nat}
    (k : Nat) (v : β) (h : j ∈ mapKeys m) : j ∈ mapKeys (mapInsert m k v) := by
  rw [mapKeys_insert]
  by_cases h2 : k ∈ mapKeys m <;> simp [h2, h]

theorem mem_keys_mapInsert_sound {β : Type} {m : List (Nat × β)} {j k : Nat} {v : β}
    (h : j ∈ mapKeys (mapInsert m k v)) : j ∈ mapKeys m ∨ j = k := by
  rw [mapKeys_insert] at h
  by_cases h2 : k ∈ mapKeys m
  · rw [if_pos h2] at h; exact Or.inl h
  · rw [if_neg h2] at h
    simpa using List.mem_append.1 h

theorem mem_setInsert_self (s : List Nat) (k : Nat) : k ∈ setInsert s k := by
  unfold setInsert
  by_cases h : k ∈ s <;> simp [h]

theorem mem_setInsert_of_mem {s : List Nat} {j : Nat} (k : Nat) (h : j ∈ s) :
    j ∈ setInsert s k := by
  unfold setInsert
  by_cases h2 : k ∈ s <;> simp [h2, h]

theorem mem_setInsert_sound {s : List Nat} {j k : Nat} (h : j ∈ setInsert s k) :
    j ∈ s ∨ j = k := by
  unfold setInsert at h
  by_cases h2 : k ∈ s
  · rw [if_pos h2] at h; exact Or.inl h
  · rw [if_neg h2] at h
    simpa using List.mem_append.1 h

theorem setInsert_nodup {s : List Nat} (k : Nat) (h : s.Nodup) :
    (setInsert s k).Nodup := by
  unfold setInsert
  by_cases h2 : k ∈ s
  · simpa [h2] using h
  · simpa [h2] using List.Nodup.append h (by simp) (by simpa using h2)

theorem diff_loop1_nil {V R : Type} [DecidableEq V] (ops : DiffOps V R)
    (B : SyncArena V) (i : Nat) (d : SyncArenaDiff R) :
    SyncArena.diff_loop1 ops B i [] d = d := rfl

theorem diff_loop1_free {V R : Type} [DecidableEq V] (ops : DiffOps V R)
    (B : SyncArena V) (i : Nat) (n : Option Nat) (rest : List (Entry V))
    (d : SyncArenaDiff R) :
    SyncArena.diff_loop1 ops B i (Entry.free n :: rest) d =
      SyncArena.diff_loop1 ops B (i + 1) rest d := rfl

theorem diff_loop1_occ_eq {V R : Type} [DecidableEq V] (ops : DiffOps V R)
    (B : SyncArena V) (i g s : Nat) (v w : V) (rest : List (Entry V))
    (d : SyncArenaDiff R) (hg : B.get_slot i g = some w) (hw : w = v) :
    SyncArena.diff_loop1 ops B i (Entry.occupied g s v :: rest) d =
      SyncArena.diff_loop1 ops B (i + 1) rest d := by
  conv_lhs => unfold SyncArena.diff_loop1
  simp only [hg, if_pos hw]

theorem diff_loop1_occ_ne {V R : Type} [DecidableEq V] (ops : DiffOps V R)
    (B : SyncArena V) (i g s : Nat) (v w : V) (rest : List (Entry V))
    (d : SyncArenaDiff R) (hg : B.get_slot i g = some w) (hw : ¬ w = v) :
    SyncArena.diff_loop1 ops B i (Entry.occupied g s v :: rest) d =
      SyncArena.diff_loop1 ops B (i + 1) rest
        { d with altered := mapInsert d.altered s (ops.diffFn v w) } := by
  conv_lhs => unfold SyncArena.diff_loop1
  simp only [hg, if_neg hw]

theorem diff_loop1_occ_none {V R : Type} [DecidableEq V] (ops : DiffOps V R)
    (B : SyncArena V) (i g s : Nat) (v : V) (rest : List (Entry V))
    (d : SyncArenaDiff R) (hg : B.get_slot i g = none) :
    SyncArena.diff_loop1 ops B i (Entry.occupied g s v :: rest) d =
      SyncArena.diff_loop1 ops B (i + 1) rest
        { d with removed := setInsert d.removed s } := by
  conv_lhs => unfold SyncArena.diff_loop1
  simp only [hg]

theorem diff_loop2_nil {V R : Type} [DecidableEq V] (ops : DiffOps V R)
    (A : SyncArena V) (i : Nat) (d : SyncArenaDiff R) :
    SyncArena.diff_loop2 ops A i [] d = d := rfl

theorem diff_loop2_free {V R : Type} [DecidableEq V] (ops : DiffOps V R)
    (A : SyncArena V) (i : Nat) (n : Option Nat) (rest : List (Entry V))
    (d : SyncArenaDiff R) :
    SyncArena.diff_loop2 ops A i (Entry.free n :: rest) d =
      SyncArena.diff_loop2 ops A (i + 1) rest d := rfl

theorem diff_loop2_occ_some {V R : Type} [DecidableEq V] (ops : DiffOps V R)
    (A : SyncArena V) (i g s : Nat) (w v2 : V) (rest : List (Entry V))
    (d : SyncArenaDiff R) (hg : A.get_slot i g = some v2) :
    SyncArena.diff_loop2 ops A i (Entry.occupied g s w :: rest) d =
      SyncArena.diff_loop2 ops A (i + 1) rest d := by
  conv_lhs => unfold SyncArena.diff_loop2
  simp only [hg]

theorem diff_loop2_occ_none {V R : Type} [DecidableEq V] (ops : DiffOps V R)
    (A : SyncArena V) (i g s : Nat) (w : V) (rest : List (Entry V))
    (d : SyncArenaDiff R) (hg : A.get_slot i g = none) :
    SyncArena.diff_loop2 ops A i (Entry.occupied g s w :: rest) d =
      SyncArena.diff_loop2 ops A (i + 1) rest
        { d with altered := mapInsert d.altered s (ops.diffFn ops.identityFn w) } := by
  conv_lhs => unfold SyncArena.diff_loop2
  simp only [hg]

theorem diff_loop1_removed_mono {V R : Type} [DecidableEq V] {ops : DiffOps V R}
    {B : SyncArena V} {sid : Nat} :
    ∀ (l : List (Entry V)) (i : Nat) (d : SyncArenaDiff R),
    sid ∈ d.removed → sid ∈ (SyncArena.diff_loop1 ops B i l d).removed := by
  intro l
  induction l with
  | nil => intro i d h; rw [diff_loop1_nil]; exact h
  | cons e rest ih =>
      intro i d h
      match e with
      | Entry.free n => rw [diff_loop1_free]; exact ih _ _ h
      | Entry.occupied g s v =>
          match hg : B.get_slot i g with
          | some w =>
              by_cases hw : w = v
              · rw [diff_loop1_occ_eq ops B i g s v w rest d hg hw]
                exact ih _ _ h
              · rw [diff_loop1_occ_ne ops B i g s v w rest d hg hw]
                exact ih _ _ h
          | none =>
              rw [diff_loop1_occ_none ops B i g s v rest d hg]
              exact ih _ _ (mem_setInsert_of_mem s h)

theorem diff_loop1_keys_mono {V R : Type} [DecidableEq V] {ops : DiffOps V R}
    {B : SyncArena V} {sid : Nat} :
    ∀ (l : List (Entry V)) (i : Nat) (d : SyncArenaDiff R),
    sid ∈ mapKeys d.altered → sid ∈ mapKeys (SyncArena.diff_loop1 ops B i l d).altered := by
  intro l
  induction l with
  | nil => intro i d h; rw [diff_loop1_nil]; exact h
  | cons e rest ih =>
      intro i d h
      match e with
      | Entry.free n => rw [diff_loop1_free]; exact ih _ _ h
      | Entry.occupied g s v =>
          match hg : B.get_slot i g with
          | some w =>
              by_cases hw : w = v
              · rw [diff_loop1_occ_eq ops B i g s v w rest d hg hw]
                exact ih _ _ h
              · rw [diff_loop1_occ_ne ops B i g s v w rest d hg hw]
                exact ih _ _ (mem_keys_mapInsert_of_mem s _ h)
          | none =>
              rw [diff_loop1_occ_none ops B i g s v rest d hg]
              exact ih _ _ h

theorem diff_loop2_removed_eq {V R : Type} [DecidableEq V] {ops : DiffOps V R}
    {A : SyncArena V} :
    ∀ (l : List (Entry V)) (i : Nat) (d : SyncArenaDiff R),
    (SyncArena.diff_loop2 ops A i l d).removed = d.removed := by
  intro l
  induction l with
  | nil => intro i d; rw [diff_loop2_nil]
  | cons e rest ih =>
      intro i d
      match e with
      | Entry.free n => rw [diff_loop2_free]; exact ih _ _
      | Entry.occupied g s w =>
          match hg : A.get_slot i g with
          | some v2 =>
              rw [diff_loop2_occ_some ops A i g s w v2 rest d hg]
              exact ih _ _
          | none =>
              rw [diff_loop2_occ_none ops A i g s w rest d hg]
              exact ih _ _

theorem diff_loop2_keys_mono {V R : Type} [DecidableEq V] {ops : DiffOps V R}
    {A : SyncArena V} {sid : Nat} :
    ∀ (l : List (Entry V)) (i : Nat) (d : SyncArenaDiff R),
    sid ∈ mapKeys d.altered → sid ∈ mapKeys (SyncArena.diff_loop2 ops A i l d).altered := by
  intro l
  induction l with
  | nil => intro i d h; rw [diff_loop2_nil]; exact h
  | cons e rest ih =>
      intro i d h
      match e with
      | Entry.free n => rw [diff_loop2_free]; exact ih _ _ h
      | Entry.occupied g s w =>
          match hg : A.get_slot i g with
          | some v2 =>
              rw [diff_loop2_occ_some ops A i g s w v2 rest d hg]
              exact ih _ _ h
          | none =>
              rw [diff_loop2_occ_none ops A i g s w rest d hg]
              exact ih _ _ (mem_keys_mapInsert_of_mem s _ h)

theorem diff_loop1_removed_sound {V R : Type} [DecidableEq V] {ops : DiffOps V R}
    {B : SyncArena V} {sid : Nat} :
    ∀ (l : List (Entry V)) (i0 : Nat) (d : SyncArenaDiff R),
    sid ∈ (SyncArena.diff_loop1 ops B i0 l d).removed →
    sid ∈ d.removed ∨ ∃ k g v, nth l k = some (Entry.occupied g sid v) ∧
      SyncArena.get_slot B (i0 + k) g = none := by
  intro l
  induction l with
  | nil =>
      intro i0 d h
      rw [diff_loop1_nil] at h
      exact Or.inl h
  | cons e rest ih =>
      intro i0 d h
      have lift : (sid ∈ d.removed ∨ ∃ k g v, nth rest k = some (Entry.occupied g sid v) ∧
          SyncArena.get_slot B (i0 + 1 + k) g = none) →
          (sid ∈ d.removed ∨ ∃ k g v, nth (e :: rest) k = some (Entry.occupied g sid v) ∧
            SyncArena.get_slot B (i0 + k) g = none) := by
        rintro (hd | ⟨k, g, v, hk, hgs⟩)
        · exact Or.inl hd
        · refine Or.inr ⟨k + 1, g, v, hk, ?_⟩
          have : i0 + (k + 1) = i0 + 1 + k := by omega
          rw [this]
          exact hgs
      match e with
      | Entry.free n =>
          rw [diff_loop1_free] at h
          exact lift (ih _ _ h)
      | Entry.occupied g s v =>
          match hg : B.get_slot i0 g with
          | some w =>
              by_cases hw : w = v
              · rw [diff_loop1_occ_eq ops B i0 g s v w rest d hg hw] at h
                exact lift (ih _ _ h)
              · rw [diff_loop1_occ_ne ops B i0 g s v w rest d hg hw] at h
                exact lift (ih _ { d with altered := mapInsert d.altered s (ops.diffFn v w) } h)
          | none =>
              rw [diff_loop1_occ_none ops B i0 g s v rest d hg] at h
              rcases ih _ _ h with hd | ⟨k, g2, v2, hk, hgs⟩
              · rcases mem_setInsert_sound hd with hd2 | hd2
                · exact Or.inl hd2
                · subst hd2
                  exact Or.inr ⟨0, g, v, rfl, by simpa using hg⟩
              · refine Or.inr ⟨k + 1, g2, v2, hk, ?_⟩
                have : i0 + (k + 1) = i0 + 1 + k := by omega
                rw [this]
                exact hgs

theorem diff_loop1_altered_sound {V R : Type} [DecidableEq V] {ops : DiffOps V R}
    {B : SyncArena V} {sid : Nat} {rd : R} :
    ∀ (l : List (Entry V)) (i0 : Nat) (d : SyncArenaDiff R),
    (sid, rd) ∈ (SyncArena.diff_loop1 ops B i0 l d).altered →
    (sid, rd) ∈ d.altered ∨ ∃ k g v w, nth l k = some (Entry.occupied g sid v) ∧
      SyncArena.get_slot B (i0 + k) g = some w ∧ ¬ w = v ∧ rd = ops.diffFn v w := by
  intro l
  induction l with
  | nil =>
      intro i0 d h
      rw [diff_loop1_nil] at h
      exact Or.inl h
  | cons e rest ih =>
      intro i0 d h
      have lift : ((sid, rd) ∈ d.altered ∨ ∃ k g v w, nth rest k = some (Entry.occupied g sid v) ∧
          SyncArena.get_slot B (i0 + 1 + k) g = some w ∧ ¬ w = v ∧ rd = ops.diffFn v w) →
          ((sid, rd) ∈ d.altered ∨ ∃ k g v w, nth (e :: rest) k = some (Entry.occupied g sid v) ∧
            SyncArena.get_slot B (i0 + k) g = some w ∧ ¬ w = v ∧ rd = ops.diffFn v w) := by
        rintro (hd | ⟨k, g, v, w, hk, hgs, hw, hrd⟩)
        · exact Or.inl hd
        · refine Or.inr ⟨k + 1, g, v, w, hk, ?_, hw, hrd⟩
          have : i0 + (k + 1) = i0 + 1 + k := by omega
          rw [this]
          exact hgs
      match e with
      | Entry.free n =>
          rw [diff_loop1_free] at h
          exact lift (ih _ _ h)
      | Entry.occupied g s v =>
          match hg : B.get_slot i0 g with
          | some w =>
              by_cases hw : w = v
              · rw [diff_loop1_occ_eq ops B i0 g s v w rest d hg hw] at h
                exact lift (ih _ _ h)
              · rw [diff_loop1_occ_ne ops B i0 g s v w rest d hg hw] at h
                rcases ih _ _ h with hd | hex
                · rcases mem_mapInsert hd with hd2 | hd2
                  · exact Or.inl hd2
                  · injection hd2 with he1 he2
                    subst he1
                    exact Or.inr ⟨0, g, v, w, rfl, by simpa using hg, hw, he2⟩
                · exact lift (Or.inr hex)
          | none =>
              rw [diff_loop1_occ_none ops B i0 g s v rest d hg] at h
              exact lift (ih _ { d with removed := setInsert d.removed s } h)

theorem diff_loop2_altered_sound {V R : Type} [DecidableEq V] {ops : DiffOps V R}
    {A : SyncArena V} {sid : Nat} {rd : R} :
    ∀ (l : List (Entry V)) (i0 : Nat) (d : SyncArenaDiff R),
    (sid, rd) ∈ (SyncArena.diff_loop2 ops A i0 l d).altered →
    (sid, rd) ∈ d.altered ∨ ∃ k g w, nth l k = some (Entry.occupied g sid w) ∧
      SyncArena.get_slot A (i0 + k) g = none ∧ rd = ops.diffFn ops.identityFn w := by
  intro l
  induction l with
  | nil =>
      intro i0 d h
      rw [diff_loop2_nil] at h
      exact Or.inl h
  | cons e rest ih =>
      intro i0 d h
      have lift : ((sid, rd) ∈ d.altered ∨ ∃ k g w, nth rest k = some (Entry.occupied g sid w) ∧
          SyncArena.get_slot A (i0 + 1 + k) g = none ∧ rd = ops.diffFn ops.identityFn w) →
          ((sid, rd) ∈ d.altered ∨ ∃ k g w, nth (e :: rest) k = some (Entry.occupied g sid w) ∧
            SyncArena.get_slot A (i0 + k) g = none ∧ rd = ops.diffFn ops.identityFn w) := by
        rintro (hd | ⟨k, g, w, hk, hgs, hrd⟩)
        · exact Or.inl hd
        · refine Or.inr ⟨k + 1, g, w, hk, ?_, hrd⟩
          have : i0 + (k + 1) = i0 + 1 + k := by omega
          rw [this]
          exact hgs
      match e with
      | Entry.free n =>
          rw [diff_loop2_free] at h
          exact lift (ih _ _ h)
      | Entry.occupied g s w =>
          match hg : A.get_slot i0 g with
          | some v2 =>
              rw [diff_loop2_occ_some ops A i0 g s w v2 rest d hg] at h
              exact lift (ih _ _ h)
          | none =>
              rw [diff_loop2_occ_none ops A i0 g s w rest d hg] at h
              rcases ih _ _ h with hd | hex
              · rcases mem_mapInsert hd with hd2 | hd2
                · exact Or.inl hd2
                · injection hd2 with he1 he2
                  subst he1
                  exact Or.inr ⟨0, g, w, rfl, by simpa using hg, he2⟩
              · exact lift (Or.inr hex)

theorem diff_loop1_removed_complete {V R : Type} [DecidableEq V] {ops : DiffOps V R}
    {B : SyncArena V} {sid : Nat} :
    ∀ (l : List (Entry V)) (i0 : Nat) (d : SyncArenaDiff R) (k g : Nat) (v : V),
    nth l k = some (Entry.occupied g sid v) → SyncArena.get_slot B (i0 + k) g = none →
    sid ∈ (SyncArena.diff_loop1 ops B i0 l d).removed := by
  intro l
  induction l with
  | nil =>
      intro i0 d k g v hk
      simp [nth] at hk
  | cons e rest ih =>
      intro i0 d k g v hk hgs
      match k, hk with
      | 0, hk =>
          injection hk with hk2
          subst hk2
          rw [show i0 + 0 = i0 from rfl] at hgs
          rw [diff_loop1_occ_none ops B i0 g sid v rest d hgs]
          exact diff_loop1_removed_mono rest (i0 + 1) _ (mem_setInsert_self _ _)
      | Nat.succ k2, hk =>
          have hk3 : nth rest k2 = some (Entry.occupied g sid v) := hk
          have hgs2 : SyncArena.get_slot B (i0 + 1 + k2) g = none := by
            have : i0 + 1 + k2 = i0 + Nat.succ k2 := by omega
            rw [this]
            exact hgs
          match e with
          | Entry.free n =>
              rw [diff_loop1_free]
              exact ih _ _ k2 g v hk3 hgs2
          | Entry.occupied g2 s2 v2 =>
              match hg2 : B.get_slot i0 g2 with
              | some w2 =>
                  by_cases hw2 : w2 = v2
                  · rw [diff_loop1_occ_eq ops B i0 g2 s2 v2 w2 rest d hg2 hw2]
                    exact ih _ _ k2 g v hk3 hgs2
                  · rw [diff_loop1_occ_ne ops B i0 g2 s2 v2 w2 rest d hg2 hw2]
                    exact ih _ _ k2 g v hk3 hgs2
              | none =>
                  rw [diff_loop1_occ_none ops B i0 g2 s2 v2 rest d hg2]
                  exact ih _ _ k2 g v hk3 hgs2

theorem diff_loop1_altered_complete {V R : Type} [DecidableEq V] {ops : DiffOps V R}
    {B : SyncArena V} {sid : Nat} :
    ∀ (l : List (Entry V)) (i0 : Nat) (d : SyncArenaDiff R) (k g : Nat) (v w : V),
    nth l k = some (Entry.occupied g sid v) → SyncArena.get_slot B (i0 + k) g = some w →
    ¬ w = v →
    sid ∈ mapKeys (SyncArena.diff_loop1 ops B i0 l d).altered := by
  intro l
  induction l with
  | nil =>
      intro i0 d k g v w hk
      simp [nth] at hk
  | cons e rest ih =>
      intro i0 d k g v w hk hgs hw
      match k, hk with
      | 0, hk =>
          injection hk with hk2
          subst hk2
          rw [show i0 + 0 = i0 from rfl] at hgs
          rw [diff_loop1_occ_ne ops B i0 g sid v w rest d hgs hw]
          exact diff_loop1_keys_mono rest (i0 + 1) _ (mem_keys_mapInsert_self _ _ _)
      | Nat.succ k2, hk =>
          have hk3 : nth rest k2 = some (Entry.occupied g sid v) := hk
          have hgs2 : SyncArena.get_slot B (i0 + 1 + k2) g = some w := by
            have : i0 + 1 + k2 = i0 + Nat.succ k2 := by omega
            rw [this]
            exact hgs
          match e with
          | Entry.free n =>
              rw [diff_loop1_free]
              exact ih _ _ k2 g v w hk3 hgs2 hw
          | Entry.occupied g2 s2 v2 =>
              match hg2 : B.get_slot i0 g2 with
              | some w2 =>
                  by_cases hw2 : w2 = v2
                  · rw [diff_loop1_occ_eq ops B i0 g2 s2 v2 w2 rest d hg2 hw2]
                    exact ih _ _ k2 g v w hk3 hgs2 hw
                  · rw [diff_loop1_occ_ne ops B i0 g2 s2 v2 w2 rest d hg2 hw2]
                    exact ih _ _ k2 g v w hk3 hgs2 hw
              | none =>
                  rw [diff_loop1_occ_none ops B i0 g2 s2 v2 rest d hg2]
                  exact ih _ _ k2 g v w hk3 hgs2 hw

theorem diff_loop2_altered_complete {V R : Type} [DecidableEq V] {ops : DiffOps V R}
    {A : SyncArena V} {sid : Nat} :
    ∀ (l : List (Entry V)) (i0 : Nat) (d : SyncArenaDiff R) (k g : Nat) (w : V),
    nth l k = some (Entry.occupied g sid w) → SyncArena.get_slot A (i0 + k) g = none →
    sid ∈ mapKeys (SyncArena.diff_loop2 ops A i0 l d).altered := by
  intro l
  induction l with
  | nil =>
      intro i0 d k g w hk
      simp [nth] at hk
  | cons e rest ih =>
      intro i0 d k g w hk hgs
      match k, hk with
      | 0, hk =>
          injection hk with hk2
          subst hk2
          rw [show i0 + 0 = i0 from rfl] at hgs
          rw [diff_loop2_occ_none ops A i0 g sid w rest d hgs]
          exact diff_loop2_keys_mono rest (i0 + 1) _ (mem_keys_mapInsert_self _ _ _)
      | Nat.succ k2, hk =>
          have hk3 : nth rest k2 = some (Entry.occupied g sid w) := hk
          have hgs2 : SyncArena.get_slot A (i0 + 1 + k2) g = none := by
            have : i0 + 1 + k2 = i0 + Nat.succ k2 := by omega
            rw [this]
            exact hgs
          match e with
          | Entry.free n =>
              rw [diff_loop2_free]
              exact ih _ _ k2 g w hk3 hgs2
          | Entry.occupied g2 s2 w2 =>
              match hg2 : A.get_slot i0 g2 with
              | some v2 =>
                  rw [diff_loop2_occ_some ops A i0 g2 s2 w2 v2 rest d hg2]
                  exact ih _ _ k2 g w hk3 hgs2
              | none =>
                  rw [diff_loop2_occ_none ops A i0 g2 s2 w2 rest d hg2]
                  exact ih _ _ k2 g w hk3 hgs2

theorem diff_loop1_nodup {V R : Type} [DecidableEq V] {ops : DiffOps V R}
    {B : SyncArena V} :
    ∀ (l : List (Entry V)) (i0 : Nat) (d : SyncArenaDiff R),
    d.removed.Nodup → (mapKeys d.altered).Nodup →
    (SyncArena.diff_loop1 ops B i0 l d).removed.Nodup ∧
      (mapKeys (SyncArena.diff_loop1 ops B i0 l d).altered).Nodup := by
  intro l
  induction l with
  | nil =>
      intro i0 d h1 h2
      rw [diff_loop1_nil]
      exact ⟨h1, h2⟩
  | cons e rest ih =>
      intro i0 d h1 h2
      match e with
      | Entry.free n =>
          rw [diff_loop1_free]
          exact ih _ _ h1 h2
      | Entry.occupied g s v =>
          match hg : B.get_slot i0 g with
          | some w =>
              by_cases hw : w = v
              · rw [diff_loop1_occ_eq ops B i0 g s v w rest d hg hw]
                exact ih _ _ h1 h2
              · rw [diff_loop1_occ_ne ops B i0 g s v w rest d hg hw]
                exact ih _ _ h1 (mapKeys_insert_nodup _ _ _ h2)
          | none =>
              rw [diff_loop1_occ_none ops B i0 g s v rest d hg]
              exact ih _ _ (setInsert_nodup _ h1) h2

theorem diff_loop2_nodup {V R : Type} [DecidableEq V] {ops : DiffOps V R}
    {A : SyncArena V} :
    ∀ (l : List (Entry V)) (i0 : Nat) (d : SyncArenaDiff R),
    d.removed.Nodup → (mapKeys d.altered).Nodup →
    (SyncArena.diff_loop2 ops A i0 l d).removed.Nodup ∧
      (mapKeys (SyncArena.diff_loop2 ops A i0 l d).altered).Nodup := by
  intro l
  induction l with
  | nil =>
      intro i0 d h1 h2
      rw [diff_loop2_nil]
      exact ⟨h1, h2⟩
  | cons e rest ih =>
      intro i0 d h1 h2
      match e with
      | Entry.free n =>
          rw [diff_loop2_free]
          exact ih _ _ h1 h2
      | Entry.occupied g s w =>
          match hg : A.get_slot i0 g with
          | some v2 =>
              rw [diff_loop2_occ_some ops A i0 g s w v2 rest d hg]
              exact ih _ _ h1 h2
          | none =>
              rw [diff_loop2_occ_none ops A i0 g s w rest d hg]
              exact ih _ _ h1 (mapKeys_insert_nodup _ _ _ h2)

theorem diff_removed_sound {V R : Type} [DecidableEq V] {ops : DiffOps V R}
    {A B : SyncArena V} {sid : Nat}
    (h : sid ∈ (SyncArena.diff ops A B).removed) :
    ∃ i g v, nth A.items i = some (Entry.occupied g sid v) ∧
      SyncArena.get_slot B i g = none := by
  unfold SyncArena.diff at h
  rw [diff_loop2_removed_eq] at h
  rcases diff_loop1_removed_sound A.items 0 ⟨[], []⟩ h with hd | ⟨k, g, v, hk, hgs⟩
  · simp at hd
  · exact ⟨k, g, v, hk, by simpa using hgs⟩

theorem diff_altered_sound {V R : Type} [DecidableEq V] {ops : DiffOps V R}
    {A B : SyncArena V} {sid : Nat} {rd : R}
    (h : (sid, rd) ∈ (SyncArena.diff ops A B).altered) :
    (∃ i g v w, nth A.items i = some (Entry.occupied g sid v) ∧
      SyncArena.get_slot B i g = some w ∧ ¬ w = v ∧ rd = ops.diffFn v w) ∨
    (∃ j gB w, nth B.items j = some (Entry.occupied gB sid w) ∧
      SyncArena.get_slot A j gB = none ∧ rd = ops.diffFn ops.identityFn w) := by
  unfold SyncArena.diff at h
  rcases diff_loop2_altered_sound B.items 0 _ h with hd | ⟨k, g, w, hk, hgs, hrd⟩
  · rcases diff_loop1_altered_sound A.items 0 ⟨[], []⟩ hd with hd2 | ⟨k, g, v, w, hk, hgs, hw, hrd⟩
    · simp at hd2
    · exact Or.inl ⟨k, g, v, w, hk, by simpa using hgs, hw, hrd⟩
  · exact Or.inr ⟨k, g, w, hk, by simpa using hgs, hrd⟩

theorem diff_removed_complete {V R : Type} [DecidableEq V] {ops : DiffOps V R}
    {A B : SyncArena V} {sid : Nat} {i g : Nat} {v : V}
    (hk : nth A.items i = some (Entry.occupied g sid v))
    (hgs : SyncArena.get_slot B i g = none) :
    sid ∈ (SyncArena.diff ops A B).removed := by
  unfold SyncArena.diff
  rw [diff_loop2_removed_eq]
  exact diff_loop1_removed_complete A.items 0 ⟨[], []⟩ i g v hk (by simpa using hgs)

theorem diff_altered_complete_changed {V R : Type} [DecidableEq V] {ops : DiffOps V R}
    {A B : SyncArena V} {sid : Nat} {i g : Nat} {v w : V}
    (hk : nth A.items i = some (Entry.occupied g sid v))
    (hgs : SyncArena.get_slot B i g = some w) (hw : ¬ w = v) :
    sid ∈ mapKeys (SyncArena.diff ops A B).altered := by
  unfold SyncArena.diff
  refine diff_loop2_keys_mono B.items 0 _ ?_
  exact diff_loop1_altered_complete A.items 0 ⟨[], []⟩ i g v w hk (by simpa using hgs) hw

theorem diff_altered_complete_new {V R : Type} [DecidableEq V] {ops : DiffOps V R}
    {A B : SyncArena V} {sid : Nat} {j gB : Nat} {w : V}
    (hk : nth B.items j = some (Entry.occupied gB sid w))
    (hgs : SyncArena.get_slot A j gB = none) :
    sid ∈ mapKeys (SyncArena.diff ops A B).altered := by
  unfold SyncArena.diff
  exact diff_loop2_altered_complete B.items 0 _ j gB w hk (by simpa using hgs)

theorem diff_nodup {V R : Type} [DecidableEq V] (ops : DiffOps V R)
    (A B : SyncArena V) :
    (SyncArena.diff ops A B).removed.Nodup ∧
      (mapKeys (SyncArena.diff ops A B).altered).Nodup := by
  unfold SyncArena.diff
  have h1 := @diff_loop1_nodup V R _ ops B A.items 0 (⟨[], []⟩ : SyncArenaDiff R) (by simp) (by simp [mapKeys])
  exact diff_loop2_nodup B.items 0 _ h1.1 h1.2

/-- In a well-formed arena a sync id resolves to `none` exactly when it is
absent from the sync index map (map entries always point at live slots). -/
theorem wf_resolve_none_iff {V : Type} {a : SyncArena V} (hwf : ArenaWF a) (sid : Nat) :
    SyncArena.resolve a sid = none ↔ mapLookup a.sync_index_map sid = none := by
  unfold SyncArena.resolve
  match hb : mapLookup a.sync_index_map sid with
  | none => simp
  | some (ci, cg) =>
      obtain ⟨v, hv⟩ := hwf.map_occ sid ci cg hb
      simp [SyncArena.get_slot, hv]

/-- In a well-formed arena a sync id resolves to the value of its occupied
slot. -/
theorem wf_resolve_occ {V : Type} {a : SyncArena V} (hwf : ArenaWF a) {i g sid : Nat}
    {v : V} (hocc : nth a.items i = some (Entry.occupied g sid v)) :
    SyncArena.resolve a sid = some v := by
  unfold SyncArena.resolve
  rw [hwf.occ_map i g sid v hocc]
  simp [SyncArena.get_slot, hocc]

theorem get_slot_some {V : Type} {a : SyncArena V} {i g : Nat} {w : V}
    (h : SyncArena.get_slot a i g = some w) :
    ∃ s2, nth a.items i = some (Entry.occupied g s2 w) := by
  unfold SyncArena.get_slot at h
  match hn : nth a.items i with
  | none => rw [hn] at h; simp at h
  | some (Entry.free n) => rw [hn] at h; simp at h
  | some (Entry.occupied g2 s2 v2) =>
      rw [hn] at h
      by_cases hg : g2 = g
      · subst hg
        simp at h
        subst h
        exact ⟨s2, rfl⟩
      · simp [hg] at h

theorem wf_resolve_some {V : Type} {a : SyncArena V} (hwf : ArenaWF a) {sid : Nat}
    {v : V} (h : SyncArena.resolve a sid = some v) :
    ∃ ci cg, mapLookup a.sync_index_map sid = some (ci, cg) ∧
      nth a.items ci = some (Entry.occupied cg sid v) := by
  unfold SyncArena.resolve at h
  match hb : mapLookup a.sync_index_map sid with
  | none => rw [hb] at h; cases h
  | some (ci, cg) =>
      rw [hb] at h
      obtain ⟨s2, hs2⟩ := get_slot_some h
      obtain ⟨v2, hv2⟩ := hwf.map_occ sid ci cg hb
      rw [hs2] at hv2
      injection hv2 with hv3
      injection hv3 with e1 e2 e3
      subst e2
      exact ⟨ci, cg, rfl, hs2⟩

/-- The removal pass of `apply` on a well-formed arena: when the removed ids
are distinct and all present in the map, it succeeds, stays well-formed,
unbinds exactly the removed ids and leaves every other sync id resolving as
before. -/
theorem apply_removed_spec {V : Type} :
    ∀ (rem : List Nat) (a : SyncArena V), ArenaWF a → rem.Nodup →
    (∀ sid, sid ∈ rem → (mapLookup a.sync_index_map sid).isSome) →
    ∃ a2, SyncArena.apply_removed a rem = some a2 ∧ ArenaWF a2 ∧
      (∀ sid, sid ∈ rem → SyncArena.resolve a2 sid = none) ∧
      (∀ sid, sid ∉ rem → SyncArena.resolve a2 sid = SyncArena.resolve a sid) := by
  intro rem
  induction rem with
  | nil =>
      intro a hwf _ _
      exact ⟨a, apply_removed_nil a, hwf, by simp, fun sid _ => rfl⟩
  | cons sid rest ih =>
      intro a hwf hnd hin
      have hsid := hin sid (by simp)
      match hb : mapLookup a.sync_index_map sid with
      | none => rw [hb] at hsid; cases hsid
      | some (ci, cg) =>
          obtain ⟨v, hv⟩ := hwf.map_occ sid ci cg hb
          obtain ⟨_, _, _, hsucc⟩ := remove_spec a (Index.from_raw_parts ci cg sid) hwf
          obtain ⟨a3, hrun, hwf3, hgen3, hhead3, hslot3, hother3, hlen3, hlen3b, hmg3,
            hmk3, hres3, hreskeep3, hlenits3, hdouble3⟩ :=
            hsucc cg sid v hv rfl
          have hnd2 : rest.Nodup := (List.nodup_cons.1 hnd).2
          have hnotin : sid ∉ rest := (List.nodup_cons.1 hnd).1
          have hin2 : ∀ s2, s2 ∈ rest → (mapLookup a3.sync_index_map s2).isSome := by
            intro s2 hs2
            have hne : s2 ≠ sid := fun he => hnotin (he ▸ hs2)
            rw [hmk3 s2 hne]
            exact hin s2 (List.mem_cons_of_mem _ hs2)
          obtain ⟨a4, hrun4, hwf4, hrm4, hkeep4⟩ := ih a3 hwf3 hnd2 hin2
          refine ⟨a4, ?_, hwf4, ?_, ?_⟩
          · rw [apply_removed_cons_step a sid ci cg rest (some v) a3 hb hrun]
            exact hrun4
          · intro s2 hs2
            rcases List.mem_cons.1 hs2 with he | hm
            · subst he
              rw [hkeep4 s2 hnotin]
              exact hres3
            · exact hrm4 s2 hm
          · intro s2 hs2
            have hne : s2 ≠ sid := fun he => hs2 (he ▸ List.mem_cons_self sid rest)
            have hnr : s2 ∉ rest := fun hm => hs2 (List.mem_cons_of_mem _ hm)
            rw [hkeep4 s2 hnr]
            exact hreskeep3 s2 hne

/-- The altered pass of `apply` on a well-formed arena: when the altered keys
are distinct it succeeds, stays well-formed, and each altered key ends up
bound to the nested delta applied to the existing value if the key resolved
locally, or applied to a fresh `identity()` otherwise; all other sync ids
are untouched. -/
theorem apply_altered_spec {V R : Type} [DecidableEq V] (ops : DiffOps V R) :
    ∀ (alt : List (Nat × R)) (a : SyncArena V), ArenaWF a → (mapKeys alt).Nodup →
    ∃ a2, SyncArena.apply_altered ops a alt = some a2 ∧ ArenaWF a2 ∧
      (∀ sid rd, (sid, rd) ∈ alt →
        SyncArena.resolve a2 sid = some (match SyncArena.resolve a sid with
          | some v => ops.applyFn v rd
          | none => ops.applyFn ops.identityFn rd)) ∧
      (∀ sid, sid ∉ mapKeys alt → SyncArena.resolve a2 sid = SyncArena.resolve a sid) := by
  intro alt
  induction alt with
  | nil =>
      intro a hwf _
      exact ⟨a, apply_altered_nil ops a, hwf, by simp, fun sid _ => rfl⟩
  | cons p rest ih =>
      obtain ⟨sid, rd⟩ := p
      intro a hwf hnd
      have hnd3 : (sid :: List.map Prod.fst rest).Nodup := by
        simpa [mapKeys] using hnd
      have hnd2 : (mapKeys rest).Nodup := (List.nodup_cons.1 hnd3).2
      have hnotin : sid ∉ mapKeys rest := (List.nodup_cons.1 hnd3).1
      match hb : mapLookup a.sync_index_map sid with
      | some (ci, cg) =>
          obtain ⟨v, hv⟩ := hwf.map_occ sid ci cg hb
          obtain ⟨hwf3, hres3, hreskeep3⟩ :=
            update_value_spec a ci cg sid v (ops.applyFn v rd) hwf hv
          obtain ⟨a4, hrun4, hwf4, halt4, hkeep4⟩ := ih _ hwf3 hnd2
          have hstep := apply_altered_cons_upd ops a sid ci cg cg sid v rd rest hb hv rfl
          refine ⟨a4, ?_, hwf4, ?_, ?_⟩
          · rw [hstep]
            exact hrun4
          · intro s2 rd2 hmem
            rcases List.mem_cons.1 hmem with he | hm
            · injection he with he1 he2
              subst he1
              subst he2
              rw [hkeep4 s2 hnotin, hres3]
              rw [wf_resolve_occ hwf hv]
            · have hs2k : s2 ∈ mapKeys rest := by
                simp only [mapKeys, List.mem_map]
                exact ⟨(s2, rd2), hm, rfl⟩
              have hne : s2 ≠ sid := fun he => hnotin (he ▸ hs2k)
              rw [halt4 s2 rd2 hm, hreskeep3 s2 hne]
          · intro s2 hs2
            have hne : s2 ≠ sid := by
              intro he
              subst he
              exact hs2 (by simp [mapKeys])
            have hnr : s2 ∉ mapKeys rest := by
              intro hm
              exact hs2 (by simp only [mapKeys, List.map_cons]; exact List.mem_cons_of_mem _ hm)
            rw [hkeep4 s2 hnr]
            exact hreskeep3 s2 hne
      | none =>
          obtain ⟨i, a3, hins, hwf3, hgen3, hlen3, hslot3, hmb3, hmk3, hres3, hreskeep3, hle3⟩ :=
            insert_known_spec a (ops.applyFn ops.identityFn rd) sid hwf hb
          obtain ⟨a4, hrun4, hwf4, halt4, hkeep4⟩ := ih _ hwf3 hnd2
          have hstep := apply_altered_cons_new ops a sid rd rest _ a3 hb hins
          refine ⟨a4, ?_, hwf4, ?_, ?_⟩
          · rw [hstep]
            exact hrun4
          · intro s2 rd2 hmem
            rcases List.mem_cons.1 hmem with he | hm
            · injection he with he1 he2
              subst he1
              subst he2
              rw [hkeep4 s2 hnotin, hres3]
              rw [(wf_resolve_none_iff hwf s2).2 hb]
            · have hs2k : s2 ∈ mapKeys rest := by
                simp only [mapKeys, List.mem_map]
                exact ⟨(s2, rd2), hm, rfl⟩
              have hne : s2 ≠ sid := fun he => hnotin (he ▸ hs2k)
              rw [halt4 s2 rd2 hm, hreskeep3 s2 hne]
          · intro s2 hs2
            have hne : s2 ≠ sid := by
              intro he
              subst he
              exact hs2 (by simp [mapKeys])
            have hnr : s2 ∉ mapKeys rest := by
              intro hm
              exact hs2 (by simp only [mapKeys, List.map_cons]; exact List.mem_cons_of_mem _ hm)
            rw [hkeep4 s2 hnr]
            exact hreskeep3 s2 hne

/-- C1 (amended). Content round trip for the arena diff/patch protocol.
Under well-formedness of both snapshots, positional compatibility (a slot
occupied in both snapshots under the same generation carries the same sync
id — true whenever `B` evolved from `A` by arena operations) and the
element-level diff laws, applying `diff(A, B)` to (a clone of) `A` succeeds
and produces an arena with exactly the sync-id content of `B`: every sync id
resolves to the same value in the result as in `B`. Structural equality
`apply(clone(A), diff(A, B)) == B` as claimed does not hold in general: the
arena generation counters and free lists may differ (see
`C1_counterexample`). -/
theorem roundtrip_content {V R : Type} [DecidableEq V] (ops : DiffOps V R)
    (A B : SyncArena V) (hwfA : ArenaWF A) (hwfB : ArenaWF B)
    (hpos : ∀ i g sA sB vA vB, nth A.items i = some (Entry.occupied g sA vA) →
      nth B.items i = some (Entry.occupied g sB vB) → sA = sB)
    (hlaw1 : ∀ v w : V, ¬ w = v → ops.applyFn v (ops.diffFn v w) = w)
    (hlaw2 : ∀ w : V, ops.applyFn ops.identityFn (ops.diffFn ops.identityFn w) = w) :
    ∃ C, SyncArena.apply ops A (SyncArena.diff ops A B) = some C ∧
      ∀ sid, SyncArena.resolve C sid = SyncArena.resolve B sid := by
  obtain ⟨hndrm, hndalt⟩ := diff_nodup ops A B
  -- phase 1: removals
  have hin : ∀ sid, sid ∈ (SyncArena.diff ops A B).removed →
      (mapLookup A.sync_index_map sid).isSome := by
    intro sid hmem
    obtain ⟨i, g, v, hk, _⟩ := diff_removed_sound hmem
    rw [hwfA.occ_map i g sid v hk]
    rfl
  obtain ⟨a1, hrun1, hwf1, hrm1, hkeep1⟩ :=
    apply_removed_spec (SyncArena.diff ops A B).removed A hwfA hndrm hin
  -- phase 2: alterations
  obtain ⟨C, hrun2, hwfC, halt2, hkeep2⟩ :=
    apply_altered_spec ops (SyncArena.diff ops A B).altered a1 hwf1 hndalt
  have happly : SyncArena.apply ops A (SyncArena.diff ops A B) = some C := by
    unfold SyncArena.apply
    rw [hrun1]
    exact hrun2
  refine ⟨C, happly, ?_⟩
  intro sid
  by_cases hkey : sid ∈ mapKeys (SyncArena.diff ops A B).altered
  · -- the sync id is an altered key
    obtain ⟨⟨sid2, rd⟩, hpair, hfst⟩ := List.mem_map.1 hkey
    rw [show sid2 = sid from hfst] at hpair
    rcases diff_altered_sound hpair with
      ⟨i, g, v, w, hkA, hgsB, hw, hrd⟩ | ⟨j, gB, w, hkB, hgsA, hrd⟩
    · -- changed existing object
      have hnotrm : sid ∉ (SyncArena.diff ops A B).removed := by
        intro hmem
        obtain ⟨i2, g2, v2, hk2, hgs2⟩ := diff_removed_sound hmem
        have hb1 := hwfA.occ_map i g sid v hkA
        have hb2 := hwfA.occ_map i2 g2 sid v2 hk2
        rw [hb1] at hb2
        injection hb2 with hb3
        have he1 : i = i2 := congrArg Prod.fst hb3
        have he2 : g = g2 := congrArg Prod.snd hb3
        rw [← he1, ← he2] at hgs2
        rw [hgsB] at hgs2
        cases hgs2
      have hres1 : SyncArena.resolve a1 sid = some v := by
        rw [hkeep1 sid hnotrm]
        exact wf_resolve_occ hwfA hkA
      have hCval := halt2 sid rd hpair
      rw [hres1] at hCval
      obtain ⟨sB, hkB⟩ := get_slot_some hgsB
      have hsB : sid = sB := hpos i g sid sB v w hkA hkB
      rw [← hsB] at hkB
      rw [wf_resolve_occ hwfB hkB]
      rw [hCval, hrd]
      show some (ops.applyFn v (ops.diffFn v w)) = some w
      rw [hlaw1 v w hw]
    · -- new object
      have hres1 : SyncArena.resolve a1 sid = none := by
        match hra : SyncArena.resolve A sid with
        | none =>
            by_cases hmem : sid ∈ (SyncArena.diff ops A B).removed
            · exact hrm1 sid hmem
            · rw [hkeep1 sid hmem]
              exact hra
        | some v =>
            obtain ⟨ci, cg, hbA, hkA⟩ := wf_resolve_some hwfA hra
            match hgs : SyncArena.get_slot B ci cg with
            | none =>
                exact hrm1 sid (diff_removed_complete hkA hgs)
            | some w2 =>
                obtain ⟨s2, hk2⟩ := get_slot_some hgs
                have hs2 : sid = s2 := hpos ci cg sid s2 v w2 hkA hk2
                rw [← hs2] at hk2
                have hb1 := hwfB.occ_map ci cg sid w2 hk2
                have hb2 := hwfB.occ_map j gB sid w hkB
                rw [hb1] at hb2
                injection hb2 with hb3
                have he1 : ci = j := congrArg Prod.fst hb3
                have he2 : cg = gB := congrArg Prod.snd hb3
                rw [← he1, ← he2] at hgsA
                unfold SyncArena.get_slot at hgsA
                rw [hkA] at hgsA
                simp at hgsA
      have hCval := halt2 sid rd hpair
      rw [hres1] at hCval
      rw [wf_resolve_occ hwfB hkB]
      rw [hCval, hrd]
      show some (ops.applyFn ops.identityFn (ops.diffFn ops.identityFn w)) = some w
      rw [hlaw2 w]
  · -- untouched or removed sync id
    rw [hkeep2 sid hkey]
    by_cases hmem : sid ∈ (SyncArena.diff ops A B).removed
    · rw [hrm1 sid hmem]
      obtain ⟨i, g, v, hkA, hgsB⟩ := diff_removed_sound hmem
      match hrb : SyncArena.resolve B sid with
      | none => rfl
      | some w =>
          obtain ⟨cj, cgB, hbB, hkB⟩ := wf_resolve_some hwfB hrb
          match hgsA : SyncArena.get_slot A cj cgB with
          | none =>
              exact absurd (diff_altered_complete_new hkB hgsA) hkey
          | some v2 =>
              obtain ⟨s2, hk2⟩ := get_slot_some hgsA
              have hs2 : s2 = sid := hpos cj cgB s2 sid v2 w hk2 hkB
              rw [hs2] at hk2
              have hb1 := hwfA.occ_map i g sid v hkA
              have hb2 := hwfA.occ_map cj cgB sid v2 hk2
              rw [hb1] at hb2
              injection hb2 with hb3
              have he1 : i = cj := congrArg Prod.fst hb3
              have he2 : g = cgB := congrArg Prod.snd hb3
              rw [← he1, ← he2] at hkB
              unfold SyncArena.get_slot at hgsB
              rw [hkB] at hgsB
              simp at hgsB
    · rw [hkeep1 sid hmem]
      match hra : SyncArena.resolve A sid with
      | some v =>
          obtain ⟨ci, cg, hbA, hkA⟩ := wf_resolve_some hwfA hra
          match hgs : SyncArena.get_slot B ci cg with
          | none =>
              exact absurd (diff_removed_complete hkA hgs) hmem
          | some w =>
              obtain ⟨s2, hk2⟩ := get_slot_some hgs
              have hs2 : sid = s2 := hpos ci cg sid s2 v w hkA hk2
              rw [← hs2] at hk2
              by_cases hw : w = v
              · rw [wf_resolve_occ hwfB hk2, hw]
              · exact absurd (diff_altered_complete_changed hkA hgs hw) hkey
      | none =>
          match hrb : SyncArena.resolve B sid with
          | none => rfl
          | some w =>
              obtain ⟨cj, cgB, hbB, hkB⟩ := wf_resolve_some hwfB hrb
              match hgsA : SyncArena.get_slot A cj cgB with
              | none =>
                  exact absurd (diff_altered_complete_new hkB hgsA) hkey
              | some v2 =>
                  obtain ⟨s2, hk2⟩ := get_slot_some hgsA
                  have hs2 : s2 = sid := hpos cj cgB s2 sid v2 w hk2 hkB
                  rw [hs2] at hk2
                  have hb1 := hwfA.occ_map cj cgB sid v2 hk2
                  rw [(wf_resolve_none_iff hwfA sid).1 hra] at hb1
                  cases hb1

theorem get_slot_occ {V : Type} {a : SyncArena V} {i g s : Nat} {v : V}
    (h : nth a.items i = some (Entry.occupied g s v)) :
    SyncArena.get_slot a i g = some v := by
  unfold SyncArena.get_slot
  rw [h]
  simp

theorem diff_loop1_self {V R : Type} [DecidableEq V] {ops : DiffOps V R}
    {A : SyncArena V} :
    ∀ (l : List (Entry V)) (i0 : Nat) (d : SyncArenaDiff R),
    (∀ k e, nth l k = some e → nth A.items (i0 + k) = some e) →
    SyncArena.diff_loop1 ops A i0 l d = d := by
  intro l
  induction l with
  | nil => intro i0 d _; exact diff_loop1_nil ops A i0 d
  | cons e rest ih =>
      intro i0 d hsub
      have hshift : ∀ k e2, nth rest k = some e2 → nth A.items (i0 + 1 + k) = some e2 := by
        intro k e2 hk
        have : i0 + 1 + k = i0 + (k + 1) := by omega
        rw [this]
        exact hsub (k + 1) e2 hk
      match e with
      | Entry.free n =>
          rw [diff_loop1_free]
          exact ih _ _ hshift
      | Entry.occupied g s v =>
          have h0 : nth A.items i0 = some (Entry.occupied g s v) := by
            have := hsub 0 (Entry.occupied g s v) rfl
            simpa using this
          rw [diff_loop1_occ_eq ops A i0 g s v v rest d (get_slot_occ h0) rfl]
          exact ih _ _ hshift

theorem diff_loop2_self {V R : Type} [DecidableEq V] {ops : DiffOps V R}
    {A : SyncArena V} :
    ∀ (l : List (Entry V)) (i0 : Nat) (d : SyncArenaDiff R),
    (∀ k e, nth l k = some e → nth A.items (i0 + k) = some e) →
    SyncArena.diff_loop2 ops A i0 l d = d := by
  intro l
  induction l with
  | nil => intro i0 d _; exact diff_loop2_nil ops A i0 d
  | cons e rest ih =>
      intro i0 d hsub
      have hshift : ∀ k e2, nth rest k = some e2 → nth A.items (i0 + 1 + k) = some e2 := by
        intro k e2 hk
        have : i0 + 1 + k = i0 + (k + 1) := by omega
        rw [this]
        exact hsub (k + 1) e2 hk
      match e with
      | Entry.free n =>
          rw [diff_loop2_free]
          exact ih _ _ hshift
      | Entry.occupied g s w =>
          have h0 : nth A.items i0 = some (Entry.occupied g s w) := by
            have := hsub 0 (Entry.occupied g s w) rfl
            simpa using this
          rw [diff_loop2_occ_some ops A i0 g s w w rest d (get_slot_occ h0)]
          exact ih _ _ hshift

/-- `apply_removed` preserves well-formedness when it does not panic. -/
theorem apply_removed_wf {V : Type} :
    ∀ (rem : List Nat) (a a2 : SyncArena V), ArenaWF a →
    SyncArena.apply_removed a rem = some a2 → ArenaWF a2 := by
  intro rem
  induction rem with
  | nil =>
      intro a a2 hwf h
      rw [apply_removed_nil] at h
      injection h with h2
      rw [← h2]
      exact hwf
  | cons sid rest ih =>
      intro a a2 hwf h
      match hl : mapLookup a.sync_index_map sid with
      | none =>
          rw [apply_removed_cons_panic a sid rest hl] at h
          cases h
      | some (ci, cg) =>
          match hr : SyncArena.remove a (Index.from_raw_parts ci cg sid) with
          | none =>
              rw [apply_removed_cons_panic2 a sid ci cg rest hl hr] at h
              cases h
          | some (r2, a3) =>
              rw [apply_removed_cons_step a sid ci cg rest r2 a3 hl hr] at h
              exact ih a3 a2 (remove_wf hwf hr) h

/-- `remove` never adds sync index map entries: an absent sync id stays
absent. -/
theorem remove_map_none {V : Type} {a : SyncArena V} {i : Index} {r : Option V}
    {a2 : SyncArena V} {sid : Nat} (hnone : mapLookup a.sync_index_map sid = none)
    (h : SyncArena.remove a i = some (r, a2)) :
    mapLookup a2.sync_index_map sid = none := by
  unfold SyncArena.remove at h
  split at h
  · injection h with h2
    injection h2 with h3 h4
    rw [← h4]
    exact hnone
  · split at h
    · split at h
      · split at h
        · injection h with h2
          injection h2 with h3 h4
          rw [← h4]
          exact mapLookup_none_erase _ _ _ hnone
        · cases h
      · injection h with h2
        injection h2 with h3 h4
        rw [← h4]
        exact hnone
    · injection h with h2
      injection h2 with h3 h4
      rw [← h4]
      exact hnone

/-- A removed sync id that is absent from the sync index map makes the
removal pass panic (the `unwrap` in `apply`). -/
theorem apply_removed_missing {V : Type} :
    ∀ (rem : List Nat) (a : SyncArena V) (sid : Nat), sid ∈ rem →
    mapLookup a.sync_index_map sid = none →
    SyncArena.apply_removed a rem = none := by
  intro rem
  induction rem with
  | nil =>
      intro a sid hmem
      simp at hmem
  | cons s2 rest ih =>
      intro a sid hmem hnone
      by_cases he : s2 = sid
      · subst he
        exact apply_removed_cons_panic a s2 rest hnone
      · match hl : mapLookup a.sync_index_map s2 with
        | none => exact apply_removed_cons_panic a s2 rest hl
        | some (ci, cg) =>
            match hr : SyncArena.remove a (Index.from_raw_parts ci cg s2) with
            | none => exact apply_removed_cons_panic2 a s2 ci cg rest hl hr
            | some (r2, a3) =>
                rw [apply_removed_cons_step a s2 ci cg rest r2 a3 hl hr]
                have hmem2 : sid ∈ rest := by
                  rcases List.mem_cons.1 hmem with h2 | h2
                  · exact absurd h2.symm he
                  · exact h2
                exact ih a3 sid hmem2 (remove_map_none hnone hr)

/-- C1 counterexample: `exCInt` is obtained from a fresh arena `A` by
`insert_with_known_sync_id(5, 1)` followed by `remove` (first conjunct), so
`A` and `exCInt` are two snapshots of one history; their diff is invisible
to `diff` (no occupied slots), so `apply(clone(A), diff(A, B))` returns `A`
itself, which differs from `B = exCInt` in the generation counter and free
list. Hence `apply(clone(A), diff(A, B)) == B` is false. -/
theorem C1_counterexample :
    (match SyncArena.insert_with_known_sync_id (SyncArena.new Int) 5 1 with
      | some (idx, a) => SyncArena.remove a idx
      | none => none) = some (some 5, exCInt) ∧
    SyncArena.apply intOps (SyncArena.new Int)
      (SyncArena.diff intOps (SyncArena.new Int) exCInt) = some (SyncArena.new Int) ∧
    SyncArena.new Int ≠ exCInt := by
  refine ⟨by decide, by decide, by decide⟩

theorem intOps_law1 : ∀ v w : Int, ¬ w = v → intOps.applyFn v (intOps.diffFn v w) = w := by
  intro v w h
  have he : ¬ v = w := fun hh => h hh.symm
  simp [intOps, he]

theorem intOps_law2 : ∀ w : Int, intOps.applyFn intOps.identityFn (intOps.diffFn intOps.identityFn w) = w := by
  intro w
  by_cases he : (0 : Int) = w
  · simp [intOps, he]
  · simp [intOps, he]

theorem exAInt_reachable : Reachable exAInt :=
  Reachable.insert_known_step Reachable.base (by decide)
    (show SyncArena.insert_with_known_sync_id (SyncArena.new Int) 5 42 =
      some (Index.from_raw_parts 0 0 42, exAInt) by decide)

theorem exBInt_reachable : Reachable exBInt :=
  Reachable.insert_known_step
    (Reachable.remove_step exAInt_reachable
      (show SyncArena.remove exAInt (Index.from_raw_parts 0 0 42) =
        some (some 5, { items := [Entry.free (some 1), Entry.free (some 2), Entry.free (some 3), Entry.free none], generation := 1, free_list_head := some 0, len := 0, sync_index_map := [] }) by decide))
    (by decide)
    (show SyncArena.insert_with_known_sync_id ({ items := [Entry.free (some 1), Entry.free (some 2), Entry.free (some 3), Entry.free none], generation := 1, free_list_head := some 0, len := 0, sync_index_map := [] } : SyncArena Int) 6 43 =
      some (Index.from_raw_parts 0 1 43, exBInt) by decide)

/-- C1 witness: the amended round-trip theorem applied to the concrete
history pair `exAInt` (one object) and `exBInt` (that object removed and a
new one inserted into the recycled slot). -/
theorem C1_witness :
    ∃ C, SyncArena.apply intOps exAInt (SyncArena.diff intOps exAInt exBInt) = some C ∧
      ∀ sid, SyncArena.resolve C sid = SyncArena.resolve exBInt sid := by
  have hwfA : ArenaWF exAInt := reachable_wf exAInt_reachable
  have hwfB : ArenaWF exBInt := reachable_wf exBInt_reachable
  have hpos : ∀ i g sA sB vA vB, nth exAInt.items i = some (Entry.occupied g sA vA) →
      nth exBInt.items i = some (Entry.occupied g sB vB) → sA = sB := by
    intro i g sA sB vA vB h1 h2
    have hlt := nth_eq_some_lt _ _ _ h1
    have hlt4 : i < 4 := by simpa [exAInt] using hlt
    interval_cases i <;> simp [exAInt, exBInt, nth] at h1 h2 <;> omega
  exact roundtrip_content intOps exAInt exBInt hwfA hwfB hpos intOps_law1 intOps_law2

/-- C2: `diff(A, A)` is the empty delta (`altered` and `removed` both
empty); applying the empty delta leaves any snapshot unchanged, also under
repeated application. -/
theorem C2_empty_diff_law {V R : Type} [DecidableEq V] (ops : DiffOps V R)
    (A : SyncArena V) :
    SyncArena.diff ops A A = ⟨[], []⟩ ∧
    SyncArena.apply ops A ⟨[], []⟩ = some A ∧
    (∀ n : Nat, apply_iter ops A ⟨[], []⟩ n = some A) := by
  have hsub : ∀ k e, nth A.items k = some e → nth A.items (0 + k) = some e := by
    intro k e hk
    simpa using hk
  refine ⟨?_, rfl, ?_⟩
  · unfold SyncArena.diff
    rw [diff_loop1_self A.items 0 ⟨[], []⟩ hsub]
    rw [diff_loop2_self A.items 0 ⟨[], []⟩ hsub]
  · intro n
    induction n with
    | zero => rfl
    | succ m ih =>
        unfold apply_iter
        rw [ih]
        show SyncArena.apply ops A { altered := [], removed := [] } = some A
        unfold SyncArena.apply
        rw [apply_removed_nil]
        exact apply_altered_nil ops A

/-- C3 (amended): `apply` on the arena container processes the removed set
before the altered map (first conjunct: the definitional factoring); a
removed key that is not found in the local `sync_index_map` makes `apply`
panic via `unwrap` — it is NOT tolerated as a no-op (second conjunct, the
correction); once the removals succeed, an altered key resolving locally has
the nested delta applied to its existing value, and an altered key that does
not resolve is materialised as `identity().apply_new(delta)` under that key
(third conjunct). -/
theorem C3_apply_order_and_semantics {V R : Type} [DecidableEq V] (ops : DiffOps V R)
    (a : SyncArena V) (d : SyncArenaDiff R) :
    (SyncArena.apply ops a d =
      match SyncArena.apply_removed a d.removed with
      | none => none
      | some a2 => SyncArena.apply_altered ops a2 d.altered) ∧
    (∀ sid, sid ∈ d.removed → mapLookup a.sync_index_map sid = none →
      SyncArena.apply ops a d = none) ∧
    (∀ a2, ArenaWF a → SyncArena.apply_removed a d.removed = some a2 →
      (mapKeys d.altered).Nodup →
      ∃ a3, SyncArena.apply ops a d = some a3 ∧
        (∀ sid rd, (sid, rd) ∈ d.altered →
          SyncArena.resolve a3 sid = some (match SyncArena.resolve a2 sid with
            | some v => ops.applyFn v rd
            | none => ops.applyFn ops.identityFn rd)) ∧
        (∀ sid, sid ∉ mapKeys d.altered →
          SyncArena.resolve a3 sid = SyncArena.resolve a2 sid)) := by
  refine ⟨rfl, ?_, ?_⟩
  · intro sid hmem hnone
    unfold SyncArena.apply
    rw [apply_removed_missing d.removed a sid hmem hnone]
  · intro a2 hwf hrun hnd
    have hwf2 := apply_removed_wf d.removed a a2 hwf hrun
    obtain ⟨a3, hrun3, hwf3, halt3, hkeep3⟩ := apply_altered_spec ops d.altered a2 hwf2 hnd
    refine ⟨a3, ?_, halt3, hkeep3⟩
    unfold SyncArena.apply
    rw [hrun]
    exact hrun3

/-- C3 witness: on the one-object arena `exAInt` (one value 5 under sync id
42), a delta removing the unknown sync id 99 panics, while a delta altering
the present id 42 (delta `some 9`) and the absent id 7 (delta `some 3`)
updates the one to 9, materialises the other as 3, and leaves every other
sync id unresolved as before. -/
theorem C3_witness :
    SyncArena.apply intOps exAInt { altered := [], removed := [99] } = none ∧
    (∃ a3, SyncArena.apply intOps exAInt { altered := [(42, some 9), (7, some 3)], removed := [] } = some a3 ∧
      SyncArena.resolve a3 42 = some 9 ∧
      SyncArena.resolve a3 7 = some 3 ∧
      (∀ sid, sid ≠ 42 → sid ≠ 7 →
        SyncArena.resolve a3 sid = SyncArena.resolve exAInt sid)) := by
  constructor
  · exact (C3_apply_order_and_semantics intOps exAInt { altered := [], removed := [99] }).2.1
      99 (by decide) (by decide)
  · have h := (C3_apply_order_and_semantics intOps exAInt
      { altered := [(42, some 9), (7, some 3)], removed := [] }).2.2 exAInt
      (reachable_wf exAInt_reachable) (by decide) (by decide)
    obtain ⟨a3, h1, h2, h3⟩ := h
    refine ⟨a3, h1, ?_, ?_, ?_⟩
    · have h := h2 42 (some 9) (by decide)
      rw [show SyncArena.resolve exAInt 42 = some 5 from by decide] at h
      simpa [intOps] using h
    · have h := h2 7 (some 3) (by decide)
      rw [show SyncArena.resolve exAInt 7 = none from by decide] at h
      simpa [intOps] using h
    · intro sid hne1 hne2
      apply h3
      intro hmem
      have hor : sid = 42 ∨ sid = 7 := by simpa [mapKeys] using hmem
      rcases hor with h | h
      · exact hne1 h
      · exact hne2 h

/-- C3 counterexample: the claim says a removed key that is not found
locally is tolerated as a no-op and `apply` does not fail; but on the arena
container a removed key absent from `sync_index_map` hits
`sync_index_map.get(..).unwrap()` and panics (modelled as `none`), and the
`SyncVector` container panics on its
`expect("tried to remove an item that was already removed")` likewise. -/
theorem C3_counterexample :
    SyncArena.apply intOps exAInt { altered := [], removed := [99] } = none ∧
    (∀ a2, SyncArena.apply intOps exAInt { altered := [], removed := [99] } ≠ some a2) := by
  refine ⟨by decide, ?_⟩
  intro a2 h
  rw [show SyncArena.apply intOps exAInt { altered := [], removed := [99] } = none by decide] at h
  cases h

/-- C4 (amended): `get`/`get_mut` resolve `sync_id -> (index, generation)`
through `sync_index_map` exactly when the handle is unsynced (came from the
network); if the sync id is unknown they PANIC on `unwrap` (they do not
return `None`); otherwise the lookup returns `None` exactly when the
resolved slot is missing, free, or its generation mismatches. -/
theorem C4_get_resolution {V : Type} (a : SyncArena V) (i : Index) :
    (i.synced = true →
      SyncArena.get a i = some (SyncArena.get_slot a i.index i.generation, i)) ∧
    (i.synced = false → ∀ li lg, mapLookup a.sync_index_map i.sync_id = some (li, lg) →
      SyncArena.get a i = some (SyncArena.get_slot a li lg,
        { i with index := li, generation := lg, synced := true })) ∧
    (i.synced = false → mapLookup a.sync_index_map i.sync_id = none →
      SyncArena.get a i = none ∧ SyncArena.get_mut a i = none) ∧
    (∀ idx g, SyncArena.get_slot a idx g = none ↔
      (∀ g2 s v, nth a.items idx = some (Entry.occupied g2 s v) → g2 ≠ g)) ∧
    SyncArena.get_mut a i = SyncArena.get a i := by
  refine ⟨?_, ?_, ?_, get_slot_none_iff a, rfl⟩
  · intro h
    exact get_synced a i h
  · intro hs li lg hl
    exact get_unsynced_known a i li lg hs hl
  · intro hs hl
    exact ⟨get_unsynced_unknown a i hs hl, get_unsynced_unknown a i hs hl⟩

/-- C4 witness: on `exAInt`, a synced handle reads its slot directly, an
unsynced handle with known sync id 42 resolves through the map, and an
unsynced handle with unknown sync id 7 panics. -/
theorem C4_witness :
    SyncArena.get exAInt (Index.from_raw_parts 0 0 42) =
      some (SyncArena.get_slot exAInt 0 0, Index.from_raw_parts 0 0 42) ∧
    SyncArena.get exAInt ⟨INVALID_U32, INVALID_U32, false, 42⟩ =
      some (SyncArena.get_slot exAInt 0 0, ⟨0, 0, true, 42⟩) ∧
    SyncArena.get exAInt ⟨INVALID_U32, INVALID_U32, false, 7⟩ = none := by
  refine ⟨?_, ?_, ?_⟩
  · exact (C4_get_resolution exAInt (Index.from_raw_parts 0 0 42)).1 rfl
  · exact (C4_get_resolution exAInt ⟨INVALID_U32, INVALID_U32, false, 42⟩).2.1 rfl 0 0 (by decide)
  · exact ((C4_get_resolution exAInt ⟨INVALID_U32, INVALID_U32, false, 7⟩).2.2.1 rfl (by decide)).1

/-- C4 counterexample: the claim says `get`/`get_mut` return `None` (and
never fail in any other way) when the sync id is unknown; in the code an
unsynced handle with an unknown sync id hits
`sync_index_map.get(&i.sync_id).unwrap()` and panics (modelled by the outer
`none`, distinct from every normal return `some p`). -/
theorem C4_counterexample :
    SyncArena.get (SyncArena.new Int) ⟨INVALID_U32, INVALID_U32, false, 5⟩ = none ∧
    SyncArena.get_mut (SyncArena.new Int) ⟨INVALID_U32, INVALID_U32, false, 5⟩ = none ∧
    (∀ p : Option Int × Index,
      SyncArena.get (SyncArena.new Int) ⟨INVALID_U32, INVALID_U32, false, 5⟩ ≠ some p) := by
  refine ⟨by decide, by decide, ?_⟩
  intro p h
  rw [show SyncArena.get (SyncArena.new Int) ⟨INVALID_U32, INVALID_U32, false, 5⟩ = none by decide] at h
  cases h

/-- C6: `remove` returns `None`, leaving the arena intact, when the index is
out of bounds or the slot does not hold a matching generation; on a matching
occupied slot it returns the stored value, links the slot onto the free list
as the new head, bumps the arena-wide generation, drops `len`, and deletes
the `sync_index_map` entry of the slot sync id; removing the same handle a
second time returns `None` and leaves the arena (and so its free list)
untouched. -/
theorem C6_remove_semantics {V : Type} (a : SyncArena V) (i : Index)
    (hwf : ArenaWF a) :
    ((a.items.length ≤ i.index ∨
        (∀ g s v, nth a.items i.index = some (Entry.occupied g s v) → i.generation ≠ g)) →
      SyncArena.remove a i = some (none, a)) ∧
    (∀ g s v, nth a.items i.index = some (Entry.occupied g s v) → i.generation = g →
      ∃ a2, SyncArena.remove a i = some (some v, a2) ∧
        a2.generation = a.generation + 1 ∧
        a2.free_list_head = some i.index ∧
        nth a2.items i.index = some (Entry.free a.free_list_head) ∧
        (∀ j, j ≠ i.index → nth a2.items j = nth a.items j) ∧
        mapLookup a2.sync_index_map s = none ∧
        (∀ s2, s2 ≠ s → mapLookup a2.sync_index_map s2 = mapLookup a.sync_index_map s2) ∧
        a2.len = a.len - 1 ∧
        SyncArena.remove a2 i = some (none, a2) ∧
        ArenaWF a2) := by
  obtain ⟨hoob, hfree, hmis, hsucc⟩ := remove_spec a i hwf
  constructor
  · rintro (hb | hb)
    · exact hoob hb
    · by_cases hlt : a.items.length ≤ i.index
      · exact hoob hlt
      · match hn : nth a.items i.index with
        | none =>
            have := nth_lt_isSome a.items i.index (by omega)
            rw [hn] at this
            cases this
        | some (Entry.free n) => exact hfree n hn
        | some (Entry.occupied g s v) => exact hmis g s v hn (hb g s v hn)
  · intro g s v hn hg
    obtain ⟨a2, hrun, hwf2, hgen, hhead, hslot, hother, hlen, _, hmg, hmk, _, _, _, hdouble⟩ :=
      hsucc g s v hn hg
    exact ⟨a2, hrun, hgen, hhead, hslot, hother, hmg, hmk, hlen, hdouble, hwf2⟩

/-- C6 witness: removing the only element of `exAInt` succeeds with all the
stated effects; removing an out-of-bounds or stale handle is a no-op. -/
theorem C6_witness :
    SyncArena.remove exAInt (Index.from_raw_parts 9 0 42) = some (none, exAInt) ∧
    (∃ a2, SyncArena.remove exAInt (Index.from_raw_parts 0 0 42) = some (some 5, a2) ∧
      a2.generation = exAInt.generation + 1 ∧
      a2.free_list_head = some 0 ∧
      nth a2.items 0 = some (Entry.free exAInt.free_list_head) ∧
      (∀ j, j ≠ 0 → nth a2.items j = nth exAInt.items j) ∧
      mapLookup a2.sync_index_map 42 = none ∧
      (∀ s2, s2 ≠ 42 → mapLookup a2.sync_index_map s2 = mapLookup exAInt.sync_index_map s2) ∧
      a2.len = exAInt.len - 1 ∧
      SyncArena.remove a2 (Index.from_raw_parts 0 0 42) = some (none, a2) ∧
      ArenaWF a2) := by
  have hwf : ArenaWF exAInt := reachable_wf exAInt_reachable
  constructor
  · exact (C6_remove_semantics exAInt (Index.from_raw_parts 9 0 42) hwf).1 (Or.inl (by decide))
  · have h2 := (C6_remove_semantics exAInt (Index.from_raw_parts 0 0 42) hwf).2 0 42 5
      (by decide) (by decide)
    obtain ⟨a2, hrun, hgen, hhead, hslot, hother, hmg, hmk, hlen, hdouble, hwf2⟩ := h2
    exact ⟨a2, hrun, hgen, hhead, hslot, hother, hmg, hmk, hlen, hdouble, hwf2⟩

/-- C7: over any sequence of arena operations (`insert`,
`insert_with_known_sync_id`, `remove`, `apply`, `get`, iteration) that does
not panic, the arena-wide generation counter never decreases; and every
successful removal (one returning `Some value`) strictly increases it. -/
theorem C7_generation_monotonic {V R : Type} [DecidableEq V] (ops : DiffOps V R) :
    (∀ (l : List (ArenaOp V R)) (a a2 : SyncArena V),
      arenaRun ops a l = some a2 → a.generation ≤ a2.generation) ∧
    (∀ (a : SyncArena V) (i : Index) (v : V) (a2 : SyncArena V),
      SyncArena.remove a i = some (some v, a2) → a.generation < a2.generation) := by
  constructor
  · exact arenaRun_gen ops
  · intro a i v a2 h
    rcases remove_gen_cases h with ⟨h1, _⟩ | ⟨v2, _, h2⟩
    · cases h1
    · rw [h2]
      omega

/-- C7 witness: a concrete run (insert, stale get, remove, re-insert,
empty apply) never decreases the generation, and the successful removal in
it strictly increases it. -/
theorem C7_witness :
    arenaRun intOps (SyncArena.new Int)
      [ArenaOp.insert_known 5 42, ArenaOp.get (Index.from_raw_parts 0 0 42),
       ArenaOp.remove (Index.from_raw_parts 0 0 42), ArenaOp.insert 7 (6 : Int),
       ArenaOp.apply { altered := [], removed := [] }, ArenaOp.iterate] = some
      { items := [Entry.occupied 1 7 6, Entry.free (some 2), Entry.free (some 3), Entry.free none]
        generation := 1
        free_list_head := some 1
        len := 1
        sync_index_map := [(7, (0, 1))] } ∧
    (SyncArena.new Int).generation ≤ (1 : Nat) ∧
    SyncArena.remove exAInt (Index.from_raw_parts 0 0 42) =
      some (some 5, { items := [Entry.free (some 1), Entry.free (some 2), Entry.free (some 3), Entry.free none], generation := 1, free_list_head := some 0, len := 0, sync_index_map := [] }) ∧
    exAInt.generation < 1 := by
  refine ⟨by decide, ?_, by decide, ?_⟩
  · exact (C7_generation_monotonic intOps).1
      [ArenaOp.insert_known 5 42, ArenaOp.get (Index.from_raw_parts 0 0 42),
       ArenaOp.remove (Index.from_raw_parts 0 0 42), ArenaOp.insert 7 (6 : Int),
       ArenaOp.apply { altered := [], removed := [] }, ArenaOp.iterate]
      (SyncArena.new Int)
      { items := [Entry.occupied 1 7 6, Entry.free (some 2), Entry.free (some 3), Entry.free none], generation := 1, free_list_head := some 1, len := 1, sync_index_map := [(7, (0, 1))] }
      (by decide)
  · exact (C7_generation_monotonic intOps).2 exAInt (Index.from_raw_parts 0 0 42) 5
      { items := [Entry.free (some 1), Entry.free (some 2), Entry.free (some 3), Entry.free none], generation := 1, free_list_head := some 0, len := 0, sync_index_map := [] }
      (by decide)

/-- C10: every arena reachable from `new` by `insert` (fresh random sync
id), `insert_with_known_sync_id` (not-yet-present sync id) and `remove` has
a `sync_index_map` that binds exactly one duplicate-free entry per occupied
slot, mapping that slot sync id to its current `(index, generation)`, with
no entry for any sync id not stored in an occupied slot; and `len` equals
the number of occupied slots. -/
theorem C10_map_invariant {V : Type} (a : SyncArena V) (h : Reachable a) :
    (∀ s i g, mapLookup a.sync_index_map s = some (i, g) →
      ∃ v, nth a.items i = some (Entry.occupied g s v)) ∧
    (∀ i g s v, nth a.items i = some (Entry.occupied g s v) →
      mapLookup a.sync_index_map s = some (i, g)) ∧
    (mapKeys a.sync_index_map).Nodup ∧
    a.len = countOcc a.items := by
  have hwf := reachable_wf h
  exact ⟨hwf.map_occ, hwf.occ_map, hwf.keys_nodup, hwf.len_eq⟩

/-- C10 witness: the invariant instantiated at the reachable arena
`exBInt` (built by insert, remove and re-insert from `new`). -/
theorem C10_witness :
    Reachable exBInt ∧
    ((∀ s i g, mapLookup exBInt.sync_index_map s = some (i, g) →
      ∃ v, nth exBInt.items i = some (Entry.occupied g s v)) ∧
    (∀ i g s v, nth exBInt.items i = some (Entry.occupied g s v) →
      mapLookup exBInt.sync_index_map s = some (i, g)) ∧
    (mapKeys exBInt.sync_index_map).Nodup ∧
    exBInt.len = countOcc exBInt.items) :=
  ⟨exBInt_reachable, C10_map_invariant exBInt exBInt_reachable⟩

theorem nth_drop {α : Type} (l : List α) (i k : Nat) :
    nth (l.drop i) k = nth l (i + k) := by
  induction i generalizing l with
  | zero => simp
  | succ m ih =>
      cases l with
      | nil => simp [nth]
      | cons a t =>
          rw [show m + 1 + k = (m + k) + 1 from by omega]
          show nth (t.drop m) k = nth t (m + k)
          exact ih t

theorem findOccAux_occ {V : Type} (l : List (Rapier.Entry V)) (i j : Nat)
    (h : ArenaIterator.findOccAux l i = some j) :
    i ≤ j ∧ ∃ g v, nth l (j - i) = some (Rapier.Entry.occupied g v) := by
  induction l generalizing i with
  | nil => cases h
  | cons e rest ih =>
      cases e with
      | occupied g v =>
          have hj : i = j := by
            have h2 : some i = some j := h
            injection h2
          subst hj
          exact ⟨Nat.le_refl i, g, v, by simp [nth]⟩
      | free n =>
          have h2 : ArenaIterator.findOccAux rest (i + 1) = some j := h
          obtain ⟨hle, g, v, hn⟩ := ih (i + 1) h2
          refine ⟨by omega, g, v, ?_⟩
          rw [show j - i = (j - (i + 1)) + 1 from by omega]
          exact hn

theorem findOccFrom_occ {V : Type} (items : List (Rapier.Entry V)) (i j : Nat)
    (h : ArenaIterator.findOccFrom items i = some j) :
    i ≤ j ∧ ∃ g v, nth items j = some (Rapier.Entry.occupied g v) := by
  obtain ⟨hle, g, v, hn⟩ := findOccAux_occ (items.drop i) i j h
  rw [nth_drop] at hn
  rw [show i + (j - i) = j from by omega] at hn
  exact ⟨hle, g, v, hn⟩

/-- C9. Two-phase removing-iterator semantics. (1) `new` physically removes
the first occupied element before handing it to the caller: the slot it was
taken from now holds the dummy free entry, every other slot, the generation
and the free-list head are untouched, and `len` is decremented. (2) If the
caller restores the value, `next` first writes it back as an occupied entry
in the pending slot (before the next element is taken: `next` is the
advance phase run on the restored arena), re-incrementing `len` and leaving
generation and free list unchanged. (3) If the caller does not restore,
`next` first finalises the pending slot as free — the entry is linked onto
the current free list, the free-list head is set to that slot, and the
arena generation is incremented — before the next element is taken. (4)
When no occupied slot remains, `next` returns no element but still performs
the restore/finalise phase. -/
theorem C9_iterator_two_phase (V : Type) :
    (∀ (arena : Rapier.Arena V) (it : ArenaIterator V) (v : V),
      ArenaIterator.new arena = some (it, v) →
        (∃ g, nth arena.items it.restore_index = some (Rapier.Entry.occupied g v)) ∧
        nth it.arena.items it.restore_index = some (Rapier.Entry.free (some INVALID_U32)) ∧
        (∀ j, j ≠ it.restore_index → nth it.arena.items j = nth arena.items j) ∧
        it.arena.len = arena.len - 1 ∧
        it.arena.generation = arena.generation ∧
        it.arena.free_list_head = arena.free_list_head) ∧
    (∀ (it : ArenaIterator V) (v : V), it.restore_index < it.arena.items.length →
        ArenaIterator.next it (some v) = ArenaIterator.advance it (ArenaIterator.put_back it (some v)) ∧
        nth (ArenaIterator.put_back it (some v)).items it.restore_index =
          some (Rapier.Entry.occupied it.restore_generation v) ∧
        (ArenaIterator.put_back it (some v)).len = it.arena.len + 1 ∧
        (ArenaIterator.put_back it (some v)).generation = it.arena.generation ∧
        (ArenaIterator.put_back it (some v)).free_list_head = it.arena.free_list_head) ∧
    (∀ it : ArenaIterator V, it.restore_index < it.arena.items.length →
        ArenaIterator.next it none = ArenaIterator.advance it (ArenaIterator.put_back it none) ∧
        nth (ArenaIterator.put_back it none).items it.restore_index =
          some (Rapier.Entry.free it.arena.free_list_head) ∧
        (ArenaIterator.put_back it none).free_list_head = some it.restore_index ∧
        (ArenaIterator.put_back it none).generation = it.arena.generation + 1 ∧
        (ArenaIterator.put_back it none).len = it.arena.len) ∧
    (∀ (it : ArenaIterator V) (r : Option V), it.next_index = none →
        ArenaIterator.next it r = some (none, { next_index := none, restore_index := it.restore_index, restore_generation := it.restore_generation, arena := ArenaIterator.put_back it r })) := by
  refine ⟨?_, ?_, ?_, ?_⟩
  · intro arena it v h
    unfold ArenaIterator.new at h
    split at h
    · cases h
    · rename_i index hfo
      split at h
      · rename_i g value hnth
        have hinj : ({ next_index := ArenaIterator.findOccFrom (setNth arena.items index (Rapier.Entry.free (some INVALID_U32))) 0, restore_index := index, restore_generation := 0, arena := { items := setNth arena.items index (Rapier.Entry.free (some INVALID_U32)), generation := arena.generation, free_list_head := arena.free_list_head, len := arena.len - 1 } } : ArenaIterator V) = it ∧ value = v := by
          have h2 := h
          injection h2 with h3
          injection h3 with h4 h5
          exact ⟨h4, h5⟩
        obtain ⟨hit, hv⟩ := hinj
        subst hv
        rw [← hit]
        have hlt : index < arena.items.length := nth_eq_some_lt _ _ _ hnth
        refine ⟨⟨g, hnth⟩, ?_, ?_, rfl, rfl, rfl⟩
        · show nth (setNth arena.items index (Rapier.Entry.free (some INVALID_U32))) index = _
          exact nth_setNth_self arena.items index _ hlt
        · intro j hj
          show nth (setNth arena.items index (Rapier.Entry.free (some INVALID_U32))) j = _
          exact nth_setNth_ne arena.items index j _ (fun he => hj (he.symm))
      · cases h
  · intro it v hlt
    refine ⟨rfl, ?_, rfl, rfl, rfl⟩
    show nth (setNth it.arena.items it.restore_index (Rapier.Entry.occupied it.restore_generation v)) it.restore_index = _
    exact nth_setNth_self it.arena.items it.restore_index _ hlt
  · intro it hlt
    refine ⟨rfl, ?_, rfl, rfl, rfl⟩
    show nth (setNth it.arena.items it.restore_index (Rapier.Entry.free it.arena.free_list_head)) it.restore_index = _
    exact nth_setNth_self it.arena.items it.restore_index _ hlt
  · intro it r hni
    show ArenaIterator.advance it (ArenaIterator.put_back it r) = _
    unfold ArenaIterator.advance
    rw [hni]

/-- C9 witness: on the two-element arena `exRArena`, `new` yields the first
value 10 with its slot physically freed, restoring writes it back, and not
restoring finalises slot 0 onto the free list with a generation bump. -/
theorem C9_witness :
    ArenaIterator.new exRArena = some (exIter1, 10) ∧
    ((∃ g, nth exRArena.items exIter1.restore_index = some (Rapier.Entry.occupied g 10)) ∧
      nth exIter1.arena.items exIter1.restore_index = some (Rapier.Entry.free (some INVALID_U32)) ∧
      (∀ j, j ≠ exIter1.restore_index → nth exIter1.arena.items j = nth exRArena.items j) ∧
      exIter1.arena.len = exRArena.len - 1 ∧
      exIter1.arena.generation = exRArena.generation ∧
      exIter1.arena.free_list_head = exRArena.free_list_head) ∧
    (exIter1.restore_index < exIter1.arena.items.length ∧
      ArenaIterator.next exIter1 (some 10) = ArenaIterator.advance exIter1 (ArenaIterator.put_back exIter1 (some 10)) ∧
      nth (ArenaIterator.put_back exIter1 (some 10)).items exIter1.restore_index =
        some (Rapier.Entry.occupied exIter1.restore_generation 10) ∧
      (ArenaIterator.put_back exIter1 (some 10)).len = exIter1.arena.len + 1) ∧
    (ArenaIterator.next exIter1 none = ArenaIterator.advance exIter1 (ArenaIterator.put_back exIter1 none) ∧
      nth (ArenaIterator.put_back exIter1 none).items exIter1.restore_index =
        some (Rapier.Entry.free exIter1.arena.free_list_head) ∧
      (ArenaIterator.put_back exIter1 none).free_list_head = some exIter1.restore_index ∧
      (ArenaIterator.put_back exIter1 none).generation = exIter1.arena.generation + 1) := by
  refine ⟨by decide, ?_, ?_, ?_⟩
  · exact (C9_iterator_two_phase Int).1 exRArena exIter1 10 (by decide)
  · have h := (C9_iterator_two_phase Int).2.1 exIter1 10 (by decide)
    exact ⟨by decide, h.1, h.2.1, h.2.2.1⟩
  · have h := (C9_iterator_two_phase Int).2.2.1 exIter1 (by decide)
    exact ⟨h.1, h.2.1, h.2.2.1, h.2.2.2.1⟩

theorem bodiesLoop1_unowned {selfS otherS : Space} (sid : Nat)
    (hown : otherS.owned_rigid_bodies.contains sid = false) :
    ∀ (l : List (Nat × Nat)) (acc res : SyncRigidBodySetDiff),
      Space.bodiesLoop1 selfS otherS l acc = some res →
      sid ∉ mapKeys acc.altered → sid ∉ mapKeys res.altered := by
  intro l
  induction l with
  | nil =>
      intro acc res h hacc
      have h2 : some acc = some res := h
      injection h2 with h3
      rw [← h3]
      exact hacc
  | cons p rest ih =>
      obtain ⟨k, lh⟩ := p
      intro acc res h hacc
      unfold Space.bodiesLoop1 at h
      split at h
      · exact ih acc res h hacc
      · rename_i hk
        have hkne : sid ≠ k := by
          intro he
          rw [← he] at hk
          exact hk hown
        split at h
        · split at h
          · split at h
            · split at h
              · cases h
              · rename_i collidersField hcf
                refine ih _ res h ?_
                intro hmem2
                rcases mem_keys_mapInsert_sound hmem2 with h1 | h2
                · exact hacc h1
                · exact hkne h2
            · exact ih acc res h hacc
          · cases h
        · exact ih _ res h hacc

theorem bodiesLoop2_known {selfS otherS : Space} (sid : Nat)
    (hmem : sid ∈ mapKeys selfS.sync_rigid_body_set.sync_map) :
    ∀ (l : List (Nat × Nat)) (acc res : SyncRigidBodySetDiff),
      Space.bodiesLoop2 selfS otherS l acc = some res →
      sid ∉ mapKeys acc.altered → sid ∉ mapKeys res.altered := by
  intro l
  induction l with
  | nil =>
      intro acc res h hacc
      have h2 : some acc = some res := h
      injection h2 with h3
      rw [← h3]
      exact hacc
  | cons p rest ih =>
      obtain ⟨k, lh⟩ := p
      intro acc res h hacc
      unfold Space.bodiesLoop2 at h
      split at h
      · exact ih acc res h hacc
      · rename_i hk
        have hkne : sid ≠ k := by
          intro he
          rw [he] at hmem
          exact (mapLookup_eq_none_iff _ k).1 hk hmem
        split at h
        · cases h
        · split at h
          · cases h
          · refine ih _ res h ?_
            intro hmem2
            rcases mem_keys_mapInsert_sound hmem2 with h1 | h2
            · exact hacc h1
            · exact hkne h2

theorem collidersLoop1_unowned {selfS otherS : Space} (sid : Nat)
    (hown : selfS.owned_colliders.contains sid = false) :
    ∀ (l : List (Nat × Nat)) (acc res : SyncColliderSetDiff),
      Space.collidersLoop1 selfS otherS l acc = some res →
      sid ∉ mapKeys acc.altered → sid ∉ mapKeys res.altered := by
  intro l
  induction l with
  | nil =>
      intro acc res h hacc
      have h2 : some acc = some res := h
      injection h2 with h3
      rw [← h3]
      exact hacc
  | cons p rest ih =>
      obtain ⟨k, lh⟩ := p
      intro acc res h hacc
      unfold Space.collidersLoop1 at h
      split at h
      · exact ih acc res h hacc
      · rename_i hk
        have hkne : sid ≠ k := by
          intro he
          rw [← he] at hk
          exact hk hown
        split at h
        · split at h
          · split at h
            · split at h
              · cases h
              · rename_i parentField hpf
                refine ih _ res h ?_
                intro hmem2
                rcases mem_keys_mapInsert_sound hmem2 with h1 | h2
                · exact hacc h1
                · exact hkne h2
            · exact ih acc res h hacc
          · cases h
        · exact ih _ res h hacc

theorem collidersLoop2_known {selfS otherS : Space} (sid : Nat)
    (hmem : sid ∈ mapKeys selfS.sync_collider_set.sync_map) :
    ∀ (l : List (Nat × Nat)) (acc res : SyncColliderSetDiff),
      Space.collidersLoop2 selfS otherS l acc = some res →
      sid ∉ mapKeys acc.altered → sid ∉ mapKeys res.altered := by
  intro l
  induction l with
  | nil =>
      intro acc res h hacc
      have h2 : some acc = some res := h
      injection h2 with h3
      rw [← h3]
      exact hacc
  | cons p rest ih =>
      obtain ⟨k, lh⟩ := p
      intro acc res h hacc
      unfold Space.collidersLoop2 at h
      split at h
      · exact ih acc res h hacc
      · rename_i hk
        have hkne : sid ≠ k := by
          intro he
          rw [he] at hmem
          exact (mapLookup_eq_none_iff _ k).1 hk hmem
        split at h
        · cases h
        · refine ih _ res h ?_
          intro hmem2
          rcases mem_keys_mapInsert_sound hmem2 with h1 | h2
          · exact hacc h1
          · exact hkne h2

theorem diffBodies_unowned {selfS otherS : Space} (bd : SyncRigidBodySetDiff)
    (h : Space.diffBodies selfS otherS = some bd) (sid : Nat)
    (hmem : sid ∈ mapKeys selfS.sync_rigid_body_set.sync_map)
    (hown : otherS.owned_rigid_bodies.contains sid = false) :
    sid ∉ mapKeys bd.altered := by
  unfold Space.diffBodies at h
  split at h
  · split at h
    · cases h
    · rename_i br1 h1
      have s1 := bodiesLoop1_unowned sid hown selfS.sync_rigid_body_set.sync_map ⟨[], []⟩ br1 h1 (by simp [mapKeys])
      exact bodiesLoop2_known sid hmem otherS.sync_rigid_body_set.sync_map br1 bd h s1
  · have h2 : some (⟨[], []⟩ : SyncRigidBodySetDiff) = some bd := h
    injection h2 with h3
    rw [← h3]
    simp [mapKeys]

theorem diffColliders_unowned {selfS otherS : Space} (cd : SyncColliderSetDiff)
    (h : Space.diffColliders selfS otherS = some cd) (sid : Nat)
    (hmem : sid ∈ mapKeys selfS.sync_collider_set.sync_map)
    (hown : selfS.owned_colliders.contains sid = false) :
    sid ∉ mapKeys cd.altered := by
  unfold Space.diffColliders at h
  split at h
  · split at h
    · cases h
    · rename_i cr1 h1
      have s1 := collidersLoop1_unowned sid hown selfS.sync_collider_set.sync_map ⟨[], []⟩ cr1 h1 (by simp [mapKeys])
      exact collidersLoop2_known sid hmem otherS.sync_collider_set.sync_map cr1 cd h s1
  · have h2 : some (⟨[], []⟩ : SyncColliderSetDiff) = some cd := h
    injection h2 with h3
    rw [← h3]
    simp [mapKeys]

/-- C5 (amended). The ownership filter in `Space::diff` holds for rigid
bodies and colliders, but not with a single locally-owned set: an existing
rigid body is excluded from the emitted `altered` entries whenever its sync
handle is missing from the `owned_rigid_bodies` list of the OTHER snapshot, and
an existing collider whenever its sync handle is missing from the `owned_colliders` list of the SELF
snapshot. No such exclusion exists for impulse
joints: the joint ownership filter is commented out in the source, so a
changed unowned joint still enters the delta (see `C5_counterexample`). -/
theorem C5_ownership_filter (selfS otherS : Space) (d : SpaceDiff)
    (h : Space.diff selfS otherS = some d) :
    (∀ sid, sid ∈ mapKeys selfS.sync_rigid_body_set.sync_map →
      otherS.owned_rigid_bodies.contains sid = false →
      sid ∉ mapKeys d.sync_rigid_body_set.altered) ∧
    (∀ sid, sid ∈ mapKeys selfS.sync_collider_set.sync_map →
      selfS.owned_colliders.contains sid = false →
      sid ∉ mapKeys d.sync_collider_set.altered) := by
  unfold Space.diff at h
  split at h
  · cases h
  · rename_i bodiesD hb
    split at h
    · cases h
    · rename_i collidersD hc
      split at h
      · cases h
      · rename_i jointsD hj
        injection h with h2
        rw [← h2]
        constructor
        · intro sid hm ho
          show sid ∉ mapKeys bodiesD.altered
          exact diffBodies_unowned bodiesD hb sid hm ho
        · intro sid hm ho
          show sid ∉ mapKeys collidersD.altered
          exact diffColliders_unowned collidersD hc sid hm ho

/-- C5 witness: diffing `exSpaceW1` against `exSpaceW2` (body 5 and
collider 6 both changed, neither owned) emits an empty delta; the amended
theorem applied at these spaces excludes both handles from `altered`. -/
theorem C5_witness :
    Space.diff exSpaceW1 exSpaceW2 = some exSpaceWD ∧
    (5 ∈ mapKeys exSpaceW1.sync_rigid_body_set.sync_map ∧
      exSpaceW2.owned_rigid_bodies.contains 5 = false ∧
      5 ∉ mapKeys exSpaceWD.sync_rigid_body_set.altered) ∧
    (6 ∈ mapKeys exSpaceW1.sync_collider_set.sync_map ∧
      exSpaceW1.owned_colliders.contains 6 = false ∧
      6 ∉ mapKeys exSpaceWD.sync_collider_set.altered) := by
  refine ⟨by decide, ⟨by decide, by decide, ?_⟩, ⟨by decide, by decide, ?_⟩⟩
  · exact (C5_ownership_filter exSpaceW1 exSpaceW2 exSpaceWD (by decide)).1 5 (by decide) (by decide)
  · exact (C5_ownership_filter exSpaceW1 exSpaceW2 exSpaceWD (by decide)).2 6 (by decide) (by decide)

/-- C5 counterexample: the claim extends the ownership exclusion to impulse
joints, but `Space::diff` computed on a peer that mutated its mirror of
joint 7 (which it does not own — `owned_joints` is empty on both sides)
still reports 7 in the joint `altered` map of the delta. -/
theorem C5_counterexample :
    Space.diff exJointSelf exJointOther = some exJointDiff ∧
    exJointSelf.owned_joints.contains 7 = false ∧
    exJointOther.owned_joints.contains 7 = false ∧
    mapLookup exJointSelf.sync_impulse_joint_set.impulse_joint_set 0 ≠
      mapLookup exJointOther.sync_impulse_joint_set.impulse_joint_set 0 ∧
    7 ∈ mapKeys exJointDiff.sync_impulse_joint_set.altered := by
  refine ⟨by decide, by decide, by decide, by decide, by decide⟩

/-- C8 (amended). Steady-state client sync: a successful
`sync(&mut state)` (1) sends the delta of the mutated state against the
last-synced snapshot if and only if the two snapshots compare unequal — the
code tests `previous_state == *state`, NOT whether the delta is non-empty —
and what it sends is exactly `previous_state.diff(&state)`; (2) applies all
pending inbound deltas to the state in arrival order (head first); and (3)
records the resulting state as the new last-synced snapshot for the next
call. -/
theorem C8_client_sync {T R : Type} [DecidableEq T] (ops : ClientOps T R)
    (previous_state state : T) (inbox : List R) :
    (∀ sent final newPrev,
      SyncClient.sync ops previous_state state inbox = some (sent, final, newPrev) →
        (sent = none ↔ previous_state = state) ∧
        (previous_state ≠ state → sent = some (ops.diffFn previous_state state)) ∧
        SyncClient.receive_updates ops state inbox = some final ∧
        newPrev = final) ∧
    (∀ d rest, SyncClient.receive_updates ops state (d :: rest) =
      match ops.applyFn state d with
      | none => none
      | some s2 => SyncClient.receive_updates ops s2 rest) := by
  constructor
  · intro sent final newPrev h
    unfold SyncClient.sync at h
    split at h
    · cases h
    · rename_i fin hrecv
      injection h with h2
      obtain ⟨hs, hrest⟩ : sent = SyncClient.send_update ops previous_state state ∧ (final, newPrev) = (fin, fin) := by
        have h3 := congrArg Prod.fst h2
        have h4 := congrArg Prod.snd h2
        exact ⟨h3.symm, h4.symm⟩
      have hfin : final = fin := congrArg Prod.fst hrest
      have hnp : newPrev = fin := congrArg Prod.snd hrest
      refine ⟨?_, ?_, ?_, ?_⟩
      · rw [hs]
        unfold SyncClient.send_update
        constructor
        · intro hnone
          by_contra hne
          rw [if_neg hne] at hnone
          cases hnone
        · intro he
          rw [if_pos he]
      · intro hne
        rw [hs]
        unfold SyncClient.send_update
        rw [if_neg hne]
      · rw [hfin]
        exact hrecv
      · rw [hnp, hfin]
  · intro d rest
    rfl

/-- C8 witness: with last-synced snapshot `exAInt`, mutated state `exBInt`
and one empty inbound delta, `sync` sends exactly `diff(exAInt, exBInt)`,
applies the inbound delta, and records the final state as the new
snapshot. -/
theorem C8_witness :
    SyncClient.sync arenaClientOps exAInt exBInt [{ altered := [], removed := [] }] =
      some (some (SyncArena.diff intOps exAInt exBInt), exBInt, exBInt) ∧
    (some (SyncArena.diff intOps exAInt exBInt) = none ↔ exAInt = exBInt) ∧
    (exAInt ≠ exBInt → some (SyncArena.diff intOps exAInt exBInt) =
      some (arenaClientOps.diffFn exAInt exBInt)) ∧
    SyncClient.receive_updates arenaClientOps exBInt [{ altered := [], removed := [] }] = some exBInt := by
  have h := (C8_client_sync arenaClientOps exAInt exBInt [{ altered := [], removed := [] }]).1
    (some (SyncArena.diff intOps exAInt exBInt)) exBInt exBInt (by decide)
  exact ⟨by decide, h.1, h.2.1, h.2.2.1⟩

/-- C8 counterexample: the claim says the encoded delta is sent if and only
if it is non-empty. With last-synced snapshot `new` and state `exCInt`
(reachable from `new`, but equal-content: one insert un-done by a remove),
their diff is the EMPTY delta, yet `sync` sends it, because the code only
compares the snapshots for equality. -/
theorem C8_counterexample :
    SyncArena.diff intOps (SyncArena.new Int) exCInt = { altered := [], removed := [] } ∧
    SyncClient.sync arenaClientOps (SyncArena.new Int) exCInt [] =
      some (some { altered := [], removed := [] }, exCInt, exCInt) := by
  refine ⟨by decide, by decide⟩

end Gamelib
